import Mathlib

/-!
Web front end of the Beagle SDR/GPS server (`web/web.c`).

A shallow embedding of the request pipeline (`edata`, `request`), of the
`%[KEY]` substitution pass, of the per-connection queues (`web_to_app`,
`web_to_app_done`, `app_to_web`, `iterate_callback`) and of the rebuild of the
parameter table (`iparams_add`, `index_params_cb`, `reload_index_params`),
followed by theorems about them.

Conventions of the embedding.

* A C string (`char *` that the code treats as NUL terminated: URIs, table
  keys and values, format results) is the `List Char` of its characters before
  the terminating NUL.  `strlen` is `List.length`, `strcmp(a, b) == 0` is
  `a = b`, and `asprintf` with `%s` is list concatenation.
* A sized byte buffer (`edata_data` with `edata_size`, `html_buf` with its
  allocation) is a `List Char` holding the memory that starts at the pointer;
  the size travels separately, exactly as in the C code.  A read at an index
  the list does not cover yields NUL (`peek`); a store outside an allocation
  is reported as `Fault.heap_overflow` (`store`).
* `assert(e)` that fails ends the call with `Fault.assertion line`, where
  `line` is the source line of the assertion.
* Sizes and counters are natural numbers (contents are far below `2^31`); the
  one narrowing that a branch depends on, `u4_t mtime = st.st_mtime`, is
  written with an explicit `% 2^32`.
* Collaborators that live outside `web.c` (blob stores, file system, the
  path normaliser, the dynamic-response hook, build constants) are fields of
  `Env`; every theorem quantifies over them unless it names a concrete one.
  The configuration store is `CfgEnv`, and the values returned by
  `mg_websocket_write` are a parameter of `iterate_callback`.
* The static array `iparams[N_IPARAMS]` is modelled together with the memory
  behind it: a store to a slot at or past `N_IPARAMS` is carried out and its
  index is logged (`IparamsSt.stores`), so that the bounds can be stated.
-/

deriving instance DecidableEq for Except

namespace Web

/-! ## C library helpers -/

/-- The NUL byte. -/
def NUL : Char := Char.ofNat 0

/-- The byte `*(p + i)` of the memory `mem` that starts at `p`. -/
def peek (mem : List Char) (i : Nat) : Char := mem.getD i NUL

/-- The libc `strncmp(s1, s2, n)`: compares at most `n` bytes and stops at a
NUL; the result is `0` when no difference was seen, otherwise `-1` or `1`. -/
def strncmp : List Char → List Char → Nat → Int
  | _, _, 0 => 0
  | s1, s2, n + 1 =>
    let c1 := s1.headD NUL
    let c2 := s2.headD NUL
    if c1 ≠ c2 then (if c1 < c2 then -1 else 1)
    else if c1 = NUL then 0
    else strncmp s1.tail s2.tail n

/-- The libc `strrchr(s, ch)`: the tail of `s` that starts at the last
occurrence of `ch`, or `none` (NULL) when `ch` does not occur. -/
def strrchr : List Char → Char → Option (List Char)
  | [], _ => none
  | c :: s, ch =>
    match strrchr s ch with
    | some r => some r
    | none => if c = ch then some (c :: s) else none

/-- The `n` bytes that libc `strncpy(dst, src, n)` stores at `dst`: the bytes
of `src` up to its first NUL, then NUL padding up to `n` bytes. -/
def strncpy : List Char → Nat → List Char
  | _, 0 => []
  | s, n + 1 =>
    let c := s.headD NUL
    if c = NUL then List.replicate (n + 1) NUL else c :: strncpy s.tail n

/-- Failures that end a call instead of a return value. -/
inductive Fault where
  /-- An `assert(...)` at the given source line of `web.c` failed. -/
  | assertion (line : Nat)
  /-- A store went past the end of the allocation it was aimed at. -/
  | heap_overflow
  /-- A pointer that addresses no frame of the queue was dereferenced. -/
  | invalid_pointer
  /-- The model ran out of loop fuel (never happens with the fuel the callers
  pass; kept so that the model cannot return a made-up result). -/
  | fuel
  deriving DecidableEq, Repr

/-- A store of `bytes` at offset `off` of the allocation `buf`; `none` when the
store does not fit in the allocation. -/
def store (buf : List Char) (off : Nat) (bytes : List Char) : Option (List Char) :=
  if off + bytes.length ≤ buf.length then
    some (buf.take off ++ bytes ++ buf.drop (off + bytes.length))
  else none

/-- The call `kiwi_malloc(name, n)`: a fresh allocation of `n` bytes (their
initial value is never read by the code before it is stored to). -/
def kiwi_malloc (n : Nat) : List Char := List.replicate n NUL

/-- The call `kiwi_realloc(name, buf, n)`: the allocation resized to `n` bytes,
the old bytes kept. -/
def kiwi_realloc (buf : List Char) (n : Nat) : List Char :=
  (buf ++ List.replicate (n - buf.length) NUL).take n

/-- The `n` bytes read from the memory `mem` (bytes the list does not cover
read as NUL, as with `peek`). -/
def mem_read (mem : List Char) (n : Nat) : List Char :=
  mem.take n ++ List.replicate (n - mem.length) NUL

/-! ## Parameter table -/

/-- The `struct iparams_t`: one `id`/`val` pair of the parameter table. -/
structure iparams_t where
  id : List Char
  val : List Char
  deriving DecidableEq, Repr

/-- The capacity `N_IPARAMS` of the table. -/
def N_IPARAMS : Nat := 256

/-! ## The `%[KEY]` substitution pass of `request` (lines 539-586) -/

/-- Local variables of the substitution loop: the output allocation
`html_buf`, its recorded size `nsize`, the write cursor `np` (as the offset
`np - html_buf`), the output length `nl` and the input position `cl` (the
source advances `cp` and `cl` together, so `cp == edata_data + cl`). -/
structure SubstSt where
  html_buf : List Char
  nsize : Nat
  np : Nat
  nl : Nat
  cl : Nat
  deriving DecidableEq, Repr

/-- The inner loop `while (*cp != ']' && cl < edata_size) { cp++; cl++; pl++; }`
(line 551); returns the final `(cl, pl)`.  `fuel` bounds the iterations. -/
def scan_ident (mem : List Char) (edata_size : Nat) : Nat → Nat → Nat → Nat × Nat
  | 0, cl, pl => (cl, pl)
  | fuel + 1, cl, pl =>
    if peek mem cl ≠ ']' ∧ cl < edata_size then
      scan_ident mem edata_size fuel (cl + 1) (pl + 1)
    else (cl, pl)

/-- The table search of lines 554-567: the first entry `ip` with
`strncmp(pp, ip->id, pl) == 0`, or `none` when the loop ends with
`i == n_iparams`. -/
def iparams_find (iparams : List iparams_t) (pp : List Char) (pl : Nat) : Option iparams_t :=
  iparams.find? (fun ip => decide (strncmp pp ip.id pl = 0))

/-- One iteration of the `for` loop body (lines 549-578), before the
assertion of line 580. -/
def subst_body (iparams : List iparams_t) (mem : List Char) (edata_size : Nat)
    (s : SubstSt) : Except Fault SubstSt :=
  if peek mem s.cl = '%' ∧ peek mem (s.cl + 1) = '[' then
    -- cp += 2; cl += 2; pp = cp; pl = 0;
    let pp := s.cl + 2
    -- while (*cp != ']' && cl < edata_size) { cp++; cl++; pl++; }
    let r := scan_ident mem edata_size (edata_size - pp) pp 0
    let pl := r.2
    -- cp++; cl++;
    let cl := r.1 + 1
    match iparams_find iparams (mem.drop pp) pl with
    | some ip =>
      let sl := ip.val.length
      let html_buf := kiwi_realloc s.html_buf (s.nsize + sl)
      -- np = html_buf + nl; nsize += sl;
      let np := s.nl
      -- strcpy(np, ip->val); np += sl; nl += sl;
      match store html_buf np (ip.val ++ [NUL]) with
      | none => .error Fault.heap_overflow
      | some b =>
        .ok { html_buf := b, nsize := s.nsize + sl, np := np + sl, nl := s.nl + sl, cl := cl }
    | none =>
      -- strcpy(np, "%["); np += 2;
      match store s.html_buf s.np ['%', '[', NUL] with
      | none => .error Fault.heap_overflow
      | some b1 =>
        -- strncpy(np, pp, pl); np += pl;
        match store b1 (s.np + 2) (strncpy (mem.drop pp) pl) with
        | none => .error Fault.heap_overflow
        | some b2 =>
          -- *np++ = ']'; nl += pl + 3;
          match store b2 (s.np + 2 + pl) [']'] with
          | none => .error Fault.heap_overflow
          | some b3 =>
            .ok { s with html_buf := b3, np := s.np + 2 + pl + 1, nl := s.nl + (pl + 3), cl := cl }
  else
    -- *np++ = *cp++; nl++; cl++;
    match store s.html_buf s.np [peek mem s.cl] with
    | none => .error Fault.heap_overflow
    | some b => .ok { s with html_buf := b, np := s.np + 1, nl := s.nl + 1, cl := s.cl + 1 }

/-- The loop `for (cl=nl=0; cl < edata_size;) { body; assert(nl <= nsize); }`
(lines 548-581).  Every iteration advances `cl`, so `edata_size` units of fuel
are enough. -/
def subst_loop (iparams : List iparams_t) (mem : List Char) (edata_size : Nat) :
    Nat → SubstSt → Except Fault SubstSt
  | 0, s => if s.cl < edata_size then .error Fault.fuel else .ok s
  | fuel + 1, s =>
    if s.cl < edata_size then
      match subst_body iparams mem edata_size s with
      | .error f => .error f
      | .ok s1 =>
        if s1.nl ≤ s1.nsize then subst_loop iparams mem edata_size fuel s1
        else .error (Fault.assertion 580)
    else .ok s

/-- The substitution block of `request` (lines 540-585): allocates `html_buf`,
runs the loop, checks `assert((np - html_buf) == nl)` and yields the new
`(edata_data, edata_size)`, that is `(html_buf, nl)`. -/
def substitute (iparams : List iparams_t) (mem : List Char) (edata_size : Nat) :
    Except Fault (List Char × Nat) :=
  let s0 : SubstSt :=
    { html_buf := kiwi_malloc edata_size, nsize := edata_size, np := 0, nl := 0, cl := 0 }
  match subst_loop iparams mem edata_size edata_size s0 with
  | .error f => .error f
  | .ok s => if s.np = s.nl then .ok (s.html_buf, s.nl) else .error (Fault.assertion 584)

/-- The response bytes after substitution: the first `edata_size` bytes of the
new `edata_data`, which is what `mg_send_data(mc, edata_data, edata_size)`
transmits. -/
def substitute_output (iparams : List iparams_t) (mem : List Char) (edata_size : Nat) :
    Except Fault (List Char) :=
  match substitute iparams mem edata_size with
  | .error f => .error f
  | .ok r => .ok (mem_read r.1 r.2)

/-! ## Collaborators of `web.c` -/

/-- The fields of `struct stat` that `edata` reads. -/
structure stat_t where
  st_size : Nat
  st_mtime : Nat
  deriving DecidableEq, Repr

/-- A file that `open` can open: what `fstat` reports for it and the bytes
that `read` delivers from it. -/
structure File where
  st : stat_t
  content : List Char
  deriving DecidableEq, Repr

/-- One entry of the `user_iface[]` table (`KIWI_UI_LIST`). -/
structure user_iface_t where
  name : List Char
  port : Nat
  deriving DecidableEq, Repr

/-- The fields of `struct mg_connection` that `request` reads; `content_len`
is the length of `content`. -/
structure mg_connection where
  uri : List Char
  is_websocket : Bool
  content : List Char
  local_port : Nat
  deriving DecidableEq, Repr

/-- The return values of the event handlers. -/
inductive mg_result where
  | MG_FALSE
  | MG_TRUE
  deriving DecidableEq, Repr

/-- The events `request`, `ev_handler` and `iterate_callback` distinguish. -/
inductive mg_event where
  | MG_POLL
  | MG_AUTH
  | MG_REQUEST
  | MG_CLOSE
  | MG_CACHE_INFO
  | MG_CACHE_RESULT
  deriving DecidableEq, Repr

/-- Everything `web.c` takes from outside: the build variant, the blob stores,
the file system, the interface table, build constants, the path normaliser of
the transport library, the dynamic-response hook and the parameter table. -/
structure Env where
  /-- The build variant: `true` for `EDATA_EMBED`, `false` for `EDATA_DEVEL`. -/
  EDATA_EMBED : Bool
  /-- The call `edata_embed(uri, &size)`: the blob memory and its size. -/
  edata_embed : List Char → Option (List Char × Nat)
  /-- The call `edata_always(uri, &size)`: the blob memory and its size. -/
  edata_always : List Char → Option (List Char × Nat)
  timer_server_build_unix_time : Nat
  mtime_obj_keep_edata_always_o : Nat
  /-- The call `stat(path, &st)`: `some st` when it returns 0. -/
  stat : List Char → Option stat_t
  /-- The call `open(path, O_RDONLY)`: `some file` when the descriptor is valid. -/
  sys_open : List Char → Option File
  /-- The entries of `user_iface[]` (`KIWI_UI_LIST`) before the `{0}` sentinel. -/
  user_iface : List user_iface_t
  DIR_CFG : List Char
  VERSION_MAJ : Int
  VERSION_MIN : Int
  mg_remove_double_dots_and_double_slashes : List Char → List Char
  mg_get_mime_type : List Char → List Char
  rx_server_ajax : mg_connection → Option (List Char)
  /-- The table `iparams[0 .. n_iparams)`. -/
  iparams : List iparams_t

/-- Observable actions, in the order the code performs them: calls to the
content sources, to the file system, to the allocator of content buffers, to
the dynamic-response hook and to the response writer, and the two log lines
that accompany a refusal.  Path formatting (`asprintf`, `free`) and the debug
output of `web_printf` are not recorded. -/
inductive Event where
  /-- A call `edata(uri, cache_check, ...)` made by `request`. -/
  | edata (uri : List Char) (cache_check : Bool)
  | edata_embed (uri : List Char)
  | edata_always (uri : List Char)
  | stat (path : List Char)
  | sys_open (path : List Char)
  | fstat
  | kiwi_malloc (name : List Char) (size : Nat)
  | read (size : Nat)
  | close
  | rx_server_ajax (uri : List Char)
  | lprintf (msg : List Char)
  | printf (msg : List Char)
  | mg_send_header (name value : List Char)
  | mg_send_standard_headers (uri : List Char) (st_size st_mtime : Nat)
  | mg_send_data (bytes : List Char)
  deriving DecidableEq, Repr

/-- The function `find_ui(port)`: walks the table up to the sentinel (the first
entry with `port == 0`). -/
def find_ui : List user_iface_t → Nat → Option user_iface_t
  | [], _ => none
  | ui :: rest, port =>
    if ui.port = 0 then none
    else if ui.port = port then some ui
    else find_ui rest port

/-! ## `edata` (lines 72-160) -/

/-- What a call of `edata` leaves behind: the returned pointer `data`
(`none` is NULL), the out-parameters `*size`, `*mtime`, `*free_buf`, the
actions performed, and the failed assertion if there was one. -/
structure EdataRes where
  data : Option (List Char)
  size : Nat
  mtime : Nat
  free_buf : Option (List Char)
  sys : List Event
  fault : Option Fault
  deriving DecidableEq, Repr

/-- The first stage of `edata` (lines 77-108): the two blob stores.  Under
`EDATA_EMBED` the embedded store is asked first; `edata_always` is asked when
`data` is still NULL.  A hit sets `*size` and `*mtime`. -/
def edata_blobs (env : Env) (uri : List Char) (size mtime : Nat) : EdataRes :=
  match (if env.EDATA_EMBED then env.edata_embed uri else none) with
  | some (d, n) =>
    { data := some d, size := n, mtime := env.timer_server_build_unix_time % 2 ^ 32,
      free_buf := none, sys := [Event.edata_embed uri], fault := none }
  | none =>
    let sys0 : List Event := if env.EDATA_EMBED then [Event.edata_embed uri] else []
    match env.edata_always uri with
    | some (d, n) =>
      { data := some d, size := n,
        mtime := (if env.EDATA_EMBED then env.timer_server_build_unix_time
                  else env.mtime_obj_keep_edata_always_o) % 2 ^ 32,
        free_buf := none, sys := sys0 ++ [Event.edata_always uri], fault := none }
    | none =>
      { data := none, size := size, mtime := mtime, free_buf := none,
        sys := sys0 ++ [Event.edata_always uri], fault := none }

/-- The local `uri2` of `edata` (lines 117-125): under `EDATA_DEVEL` a relative
path is looked for under `web/`. -/
def edata_uri2 (env : Env) (uri : List Char) : List Char :=
  if env.EDATA_EMBED = false ∧ uri.head? ≠ some '/' then "web/".toList ++ uri else uri

/-- The function `edata(uri, cache_check, &size, &mtime, &free_buf)`; `size`,
`mtime` and `free_buf` are the values of the out-parameters before the call. -/
def edata (env : Env) (uri : List Char) (cache_check : Bool) (size mtime : Nat)
    (free_buf : Option (List Char)) : EdataRes :=
  let absPath : Bool := decide (uri.head? = some '/')
  let b := { edata_blobs env uri size mtime with free_buf := free_buf }
  -- #ifdef EDATA_EMBED: if (!absPath) return data;
  if env.EDATA_EMBED ∧ absPath = false then b
  else
    -- #ifdef EDATA_DEVEL: if (!absPath) asprintf(&uri2, "web/%s", uri);
    let uri2 : List Char := edata_uri2 env uri
    match b.data with
    | some _ => b
    | none =>
      if cache_check then
        -- don't read the file yet -- just return stats for caching determination
        match env.stat uri2 with
        | some st =>
          { b with
            data := some "non-null".toList, size := st.st_size, mtime := st.st_mtime % 2 ^ 32,
            sys := b.sys ++ [Event.stat uri2] }
        | none => { b with sys := b.sys ++ [Event.stat uri2] }
      else
        match env.sys_open uri2 with
        | some f =>
          let sz := f.st.st_size
          let buf := mem_read f.content sz
          let rsize := min sz f.content.length
          { data := some buf, size := sz, mtime := f.st.st_mtime % 2 ^ 32,
            free_buf := some buf,
            sys := b.sys ++ [Event.sys_open uri2, Event.fstat,
                             Event.kiwi_malloc "req-file".toList sz, Event.read sz] ++
                   (if rsize = sz then [Event.close] else []),
            fault := if rsize = sz then none else some (Fault.assertion 152) }
        | none => { b with sys := b.sys ++ [Event.sys_open uri2] }

/-! ## Per-connection queues (`conn_t`, `nbuf.h`) -/

/-- The `struct nbuf_t` fields that `web.c` touches. -/
structure nbuf_t where
  buf : List Char
  len : Nat
  done : Bool
  expecting_done : Bool
  deriving DecidableEq, Repr

/-- Modelled from the spec: the queue descriptor `ndesc_t` of `nbuf.c`, which is
not part of `web.c`.  Following section 3 and 4.4 of the spec it is a strict
FIFO of frames: `frames` holds every frame allocated on the queue in enqueue
order (a frame is only released after it is `Done`, so a frame handed out
stays addressable; a pointer `nbuf_t *` is the index of the frame), and the
first `head` of them have been dequeued. -/
structure ndesc_t where
  frames : List nbuf_t
  head : Nat
  deriving DecidableEq, Repr

/-- Modelled from the spec: `nbuf_allocq(nd, s, sl)` of `nbuf.c` ("Enqueue:
creates a Pending frame at the tail"). -/
def nbuf_allocq (nd : ndesc_t) (s : List Char) (sl : Nat) : ndesc_t :=
  { nd with frames := nd.frames ++ [{ buf := s, len := sl, done := false, expecting_done := false }] }

/-- Modelled from the spec: `nbuf_dequeue(nd)` of `nbuf.c` ("pops the head
Pending frame", FIFO): the pointer to the oldest frame not yet dequeued, or
`none` (NULL) when there is none. -/
def nbuf_dequeue (nd : ndesc_t) : Option Nat × ndesc_t :=
  if nd.head < nd.frames.length then (some nd.head, { nd with head := nd.head + 1 })
  else (none, nd)

/-- The fields of `conn_t` that `web.c` touches. -/
structure conn_t where
  stop_data : Bool
  c2s : ndesc_t
  s2c : ndesc_t
  deriving DecidableEq, Repr

/-- The function `web_to_app(c, &nbp)` (lines 298-313): the return value, the
new `*nbp` (given its old value `nbp`) and the connection afterwards. -/
def web_to_app (c : conn_t) (nbp : Option Nat) : Except Fault (Nat × Option Nat × conn_t) :=
  if c.stop_data then .ok (0, nbp, c)
  else
    match nbuf_dequeue c.c2s with
    | (none, q) => .ok (0, none, { c with c2s := q })
    | (some p, q) =>
      match q.frames[p]? with
      | none => .error Fault.invalid_pointer
      | some nb =>
        -- assert(!nb->done && !nb->expecting_done && nb->buf && nb->len);
        if nb.done = false ∧ nb.expecting_done = false ∧ nb.len ≠ 0 then
          let nb1 := { nb with expecting_done := true }
          .ok (nb.len, some p, { c with c2s := { q with frames := q.frames.set p nb1 } })
        else .error (Fault.assertion 308)

/-- The function `web_to_app_done(c, nb)` (lines 315-320); `nb` points into the
inbound queue of `c`. -/
def web_to_app_done (c : conn_t) (p : Nat) : Except Fault conn_t :=
  match c.c2s.frames[p]? with
  | none => .error Fault.invalid_pointer
  | some nb =>
    -- assert(nb->expecting_done && !nb->done);
    if nb.expecting_done = true ∧ nb.done = false then
      let nb1 := { nb with expecting_done := false, done := true }
      .ok { c with c2s := { c.c2s with frames := c.c2s.frames.set p nb1 } }
    else .error (Fault.assertion 317)

/-- The function `app_to_web(c, s, sl)` (lines 329-334). -/
def app_to_web (c : conn_t) (s : List Char) (sl : Nat) : conn_t :=
  if c.stop_data then c else { c with s2c := nbuf_allocq c.s2c s sl }

/-! ## `request` (lines 344-664) -/

/-- What a call of `request` leaves behind: the return value (or the failed
assertion), the actions performed, `mc->cache_info.st` when it was assigned
(`st_size`, `st_mtime`), the amount added to `http_bytes`, and the connection
of a websocket frame afterwards. -/
structure ReqResult where
  rtn : Except Fault mg_result
  trace : List Event
  cache_info : Option (Nat × Nat)
  http_bytes : Nat
  conn : Option conn_t
  deriving DecidableEq, Repr

/-- Lines 404-410: `"/"` becomes `"index.html"`, one leading `/` is dropped,
then the path is normalised; the result is `ouri`. -/
def request_ouri (env : Env) (uri : List Char) : List Char :=
  let u := if uri = "/".toList then "index.html".toList
           else if uri.head? = some '/' then uri.tail else uri
  env.mg_remove_double_dots_and_double_slashes u

/-- The locals `uri`, `has_prefix`, `is_extension` after lines 425-455. -/
structure Qualified where
  uri : List Char
  has_prefix : Bool
  is_extension : Bool
  deriving DecidableEq, Repr

/-- Lines 425-455: a path under a known virtual root is used as it is (or
mapped to `DIR_CFG` for the two config roots); any other path is put under the
name of the active user interface. -/
def qualify (env : Env) (local_port : Nat) (ouri : List Char) : Except Fault Qualified :=
  if strncmp ouri "kiwi/".toList 5 = 0 then
    .ok { uri := ouri, has_prefix := true, is_extension := false }
  else if strncmp ouri "extensions/".toList 11 = 0 then
    .ok { uri := ouri, has_prefix := true, is_extension := true }
  else if strncmp ouri "pkgs/".toList 5 = 0 then
    .ok { uri := ouri, has_prefix := true, is_extension := false }
  else if strncmp ouri "config/".toList 7 = 0 then
    .ok { uri := env.DIR_CFG ++ "/".toList ++ ouri.drop 7, has_prefix := true, is_extension := false }
  else if strncmp ouri "kiwi.config/".toList 12 = 0 then
    .ok { uri := env.DIR_CFG ++ "/".toList ++ ouri.drop 12, has_prefix := true, is_extension := false }
  else
    match find_ui env.user_iface local_port with
    | none => .error (Fault.assertion 452)
    | some ui => .ok { uri := ui.name ++ "/".toList ++ ouri, has_prefix := false, is_extension := false }

/-- The locals of `request` that the resolution steps update: the candidate
`uri` tried last, `edata_data`, `edata_size`, `mtime`, `free_buf`, the actions
so far and the failed assertion if there was one. -/
structure Lookup where
  uri : List Char
  edata_data : Option (List Char)
  edata_size : Nat
  mtime : Nat
  free_buf : Option (List Char)
  trace : List Event
  fault : Option Fault
  deriving DecidableEq, Repr

/-- One statement `edata_data = edata(uri, ev == MG_CACHE_INFO, &edata_size,
&mtime, &free_buf)` with `uri` set to the candidate `cand`. -/
def lookup_try (env : Env) (cache_check : Bool) (cand : List Char) (l : Lookup) : Lookup :=
  let r := edata env cand cache_check l.edata_size l.mtime l.free_buf
  { uri := cand, edata_data := r.data, edata_size := r.size, mtime := r.mtime,
    free_buf := r.free_buf, trace := l.trace ++ [Event.edata cand cache_check] ++ r.sys,
    fault := r.fault }

/-- Lines 458-507: the candidate, the candidate with `.html`, then (without a
known prefix) `kiwi/<ouri>` and `kiwi/<ouri>.html`, then (for an extension)
`/root/<ouri>` and `/root/<ouri>.html`; every retry is guarded by
`!edata_data`. -/
def resolve (env : Env) (cache_check : Bool) (ouri : List Char) (q : Qualified) : Lookup :=
  let l0 : Lookup :=
    { uri := q.uri, edata_data := none, edata_size := 0, mtime := 0, free_buf := none,
      trace := [], fault := none }
  let l1 := lookup_try env cache_check q.uri l0
  let l2 := if l1.edata_data.isNone then lookup_try env cache_check (q.uri ++ ".html".toList) l1
            else l1
  let l3 :=
    if l2.edata_data.isNone ∧ q.has_prefix = false then
      let a := lookup_try env cache_check ("kiwi/".toList ++ ouri) l2
      if a.edata_data.isNone then
        lookup_try env cache_check ("kiwi/".toList ++ ouri ++ ".html".toList) a
      else a
    else l2
  if l3.edata_data.isNone ∧ q.is_extension = true then
    let a := lookup_try env cache_check ("/root/".toList ++ ouri) l3
    if a.edata_data.isNone then
      lookup_try env cache_check ("/root/".toList ++ ouri ++ ".html".toList) a
    else a
  else l3

/-- The decimal text that `%d` prints. -/
def fmt_d (i : Int) : List Char := (toString i).toList

/-- The version trailer of line 594. -/
def js_version (env : Env) (uri : List Char) : List Char :=
  "kiwi_check_js_version.push(\x7b VERSION_MAJ:".toList ++ fmt_d env.VERSION_MAJ ++
  ", VERSION_MIN:".toList ++ fmt_d env.VERSION_MIN ++ ", file:\x27".toList ++ uri ++
  "\x27 \x7d);\n".toList

/-- Lines 534-663 of `request`, entered with a non-NULL `edata_data`: the
substitution pass for `.html` and `.css`, the version trailer for `.js`, the
cache information, and (outside the probe phase) the response. -/
def finish (env : Env) (ev : mg_event) (uri : List Char)
    (edata_data : List Char) (edata_size mtime : Nat) (isAJAX : Bool)
    (trace : List Event) : ReqResult :=
  let suffix := strrchr uri '.'
  let doSubst : Bool :=
    decide (isAJAX = false ∧ ev ≠ mg_event.MG_CACHE_INFO ∧
      (suffix = some ".html".toList ∨ suffix = some ".css".toList))
  let sub : Except Fault (List Char × Nat) :=
    if doSubst then substitute env.iparams edata_data edata_size
    else .ok (edata_data, edata_size)
  let trace1 :=
    if doSubst then trace ++ [Event.kiwi_malloc "html_buf".toList edata_size] else trace
  match sub with
  | .error f => { rtn := .error f, trace := trace1, cache_info := none, http_bytes := 0, conn := none }
  | .ok (data, size) =>
    -- bool isJS = (suffix && strcmp(suffix, ".js") == 0);
    let isJS : Bool := decide (suffix = some ".js".toList)
    let ver : Option (List Char) :=
      if isAJAX = false ∧ isJS = true then some (js_version env uri) else none
    let ver_size : Nat := match ver with
      | some v => v.length
      | none => 0
    let st_size := size + ver_size
    -- if (!isAJAX) assert(mtime != 0);
    if isAJAX = false ∧ mtime = 0 then
      { rtn := .error (Fault.assertion 611), trace := trace1, cache_info := none,
        http_bytes := 0, conn := none }
    else if ev = mg_event.MG_CACHE_INFO then
      { rtn := .ok (if isAJAX = true ∨ isJS = true then mg_result.MG_FALSE else mg_result.MG_TRUE),
        trace := trace1, cache_info := some (st_size, mtime), http_bytes := 0, conn := none }
    else
      let headers : List Event :=
        if isAJAX then
          [Event.mg_send_header "Content-Type".toList "text/plain".toList,
           Event.mg_send_header "Access-Control-Allow-Origin".toList "*".toList]
        else if isJS then
          [Event.mg_send_header "Content-Type".toList (env.mg_get_mime_type uri)]
        else [Event.mg_send_standard_headers uri st_size mtime]
      let tail : List Event := match ver with
        | some v => [Event.mg_send_data v]
        | none => []
      { rtn := .ok mg_result.MG_TRUE,
        trace := trace1 ++ headers ++
          [Event.mg_send_header "Server".toList "KiwiSDR/Mongoose".toList,
           Event.mg_send_data (mem_read data size)] ++ tail,
        cache_info := some (st_size, mtime), http_bytes := size, conn := none }

/-- Lines 509-532 of `request`: when no static source resolved the path, the
probe phase returns `MG_FALSE` at once; otherwise `rx_server_ajax` is tried and
the request is given up (`MG_FALSE`) when that yields nothing. -/
def respond (env : Env) (mc : mg_connection) (ev : mg_event) (l : Lookup) : ReqResult :=
  match l.edata_data with
  | some d => finish env ev l.uri d l.edata_size l.mtime false l.trace
  | none =>
    if ev = mg_event.MG_CACHE_INFO then
      { rtn := .ok mg_result.MG_FALSE, trace := l.trace, cache_info := none, http_bytes := 0,
        conn := none }
    else
      match env.rx_server_ajax mc with
      | some d =>
        finish env ev l.uri d d.length l.mtime true (l.trace ++ [Event.rx_server_ajax mc.uri])
      | none =>
        { rtn := .ok mg_result.MG_FALSE,
          trace := l.trace ++ [Event.rx_server_ajax mc.uri, Event.printf "unknown URL".toList],
          cache_info := none, http_bytes := 0, conn := none }

/-- The HTTP branch of `request` (lines 401-663), for the probe phase
(`MG_CACHE_INFO`) and the fetch phase (`MG_REQUEST`). -/
def request_http (env : Env) (mc : mg_connection) (ev : mg_event) : ReqResult :=
  let ouri := request_ouri env mc.uri
  let suffix := strrchr ouri '.'
  if suffix = some ".json".toList ∨ suffix = some ".json/".toList then
    { rtn := .ok mg_result.MG_FALSE,
      trace := [Event.lprintf ("attempt to fetch config file: ".toList ++ ouri)],
      cache_info := none, http_bytes := 0, conn := none }
  else
    match qualify env mc.local_port ouri with
    | .error f => { rtn := .error f, trace := [], cache_info := none, http_bytes := 0, conn := none }
    | .ok q =>
      let l := resolve env (decide (ev = mg_event.MG_CACHE_INFO)) ouri q
      match l.fault with
      | some f =>
        { rtn := .error f, trace := l.trace, cache_info := none, http_bytes := 0, conn := none }
      | none => respond env { mc with uri := ouri } ev l

/-- The function `request(mc, ev)`.  `c` is what
`rx_server_websocket(mc, WS_MODE_ALLOC)` returns for a websocket frame. -/
def request (env : Env) (c : Option conn_t) (mc : mg_connection) (ev : mg_event) : ReqResult :=
  if mc.is_websocket then
    let sl := mc.content.length
    if sl = 0 then
      { rtn := .ok mg_result.MG_TRUE, trace := [], cache_info := none, http_bytes := 0, conn := c }
    else
      match c with
      | none =>
        { rtn := .ok mg_result.MG_FALSE, trace := [], cache_info := none, http_bytes := 0,
          conn := none }
      | some c =>
        if c.stop_data then
          { rtn := .ok mg_result.MG_FALSE, trace := [], cache_info := none, http_bytes := 0,
            conn := some c }
        else
          let c1 := { c with c2s := nbuf_allocq c.c2s mc.content sl }
          { rtn := .ok (if mc.content = "exit".toList then mg_result.MG_FALSE
                        else mg_result.MG_TRUE),
            trace := [], cache_info := none, http_bytes := 0, conn := some c1 }
  else if ev = mg_event.MG_CACHE_RESULT then
    { rtn := .ok mg_result.MG_TRUE, trace := [], cache_info := none, http_bytes := 0, conn := none }
  else request_http env mc ev

/-- The calls of `edata` recorded in a trace, in order: candidate and
`cache_check`. -/
def edata_calls (trace : List Event) : List (List Char × Bool) :=
  trace.filterMap (fun e => match e with
    | Event.edata u cc => some (u, cc)
    | _ => none)

/-- Whether an action opens, reads or allocates for a file (as opposed to a
blob lookup or a `stat`). -/
def Event.reads_file : Event → Bool
  | Event.sys_open _ => true
  | Event.fstat => true
  | Event.kiwi_malloc _ _ => true
  | Event.read _ => true
  | Event.close => true
  | _ => false

/-- Whether an action consults a content source or the dynamic-response hook. -/
def Event.consults_source : Event → Bool
  | Event.edata _ _ => true
  | Event.edata_embed _ => true
  | Event.edata_always _ => true
  | Event.stat _ => true
  | Event.sys_open _ => true
  | Event.fstat => true
  | Event.read _ => true
  | Event.rx_server_ajax _ => true
  | _ => false

/-- Whether `edata(uri, cache_check, ...)` returns a non-NULL pointer. -/
def edata_hit (env : Env) (cache_check : Bool) (uri : List Char) : Bool :=
  (edata env uri cache_check 0 0 none).data.isSome

/-- The resolution order of section 4.1 of the spec for the qualified path `q`
of `ouri`: the candidate and the candidate with `.html`; without a recognised
prefix the same under the default root `kiwi/`; for an extension the same
under the external directory `/root/`. -/
def candidates (ouri : List Char) (q : Qualified) : List (List Char) :=
  [q.uri, q.uri ++ ".html".toList] ++
  (if q.has_prefix = false then
    ["kiwi/".toList ++ ouri, "kiwi/".toList ++ ouri ++ ".html".toList] else []) ++
  (if q.is_extension = true then
    ["/root/".toList ++ ouri, "/root/".toList ++ ouri ++ ".html".toList] else [])

/-- "First hit wins": the candidates of `cands` that are tried, in order, when
each one is tried only if all the earlier ones were not found. -/
def tried (env : Env) (cache_check : Bool) : List (List Char) → List (List Char)
  | [] => []
  | u :: rest => u :: (if edata_hit env cache_check u then [] else tried env cache_check rest)

/-- The response body: the payloads of the `mg_send_data` calls, in order. -/
def response_body : List Event → List Char
  | [] => []
  | Event.mg_send_data b :: t => b ++ response_body t
  | _ :: t => response_body t

/-- Whether an action is one of those `edata` performs itself: a blob lookup or
a file-system call. -/
def Event.is_sys : Event → Bool
  | Event.edata_embed _ => true
  | Event.edata_always _ => true
  | Event.stat _ => true
  | Event.sys_open _ => true
  | Event.fstat => true
  | Event.kiwi_malloc _ _ => true
  | Event.read _ => true
  | Event.close => true
  | _ => false

/-! ## Call sequences on the inbound queue of one connection -/

/-- One call on the inbound side of a connection: a websocket frame delivered
to `request` (which enqueues it), a poll `web_to_app(c, &nbp)`, or an
acknowledgement `web_to_app_done(c, nb)` of the frame with pointer `nb`. -/
inductive QueueOp where
  | enqueue (s : List Char)
  | poll
  | ack (nb : Nat)
  deriving DecidableEq, Repr

/-- The number of inbound frames that are InFlight: `expecting_done` set and
`done` clear. -/
def in_flight (c : conn_t) : Nat :=
  c.c2s.frames.countP (fun nb => nb.expecting_done && !nb.done)

/-- The connection after one call, or the failed assertion. -/
def queue_step (env : Env) (c : conn_t) : QueueOp → Except Fault conn_t
  | QueueOp.enqueue s =>
    match (request env (some c)
        { uri := [], is_websocket := true, content := s, local_port := 0 }
        mg_event.MG_REQUEST).conn with
    | some c1 => .ok c1
    | none => .ok c
  | QueueOp.poll =>
    match web_to_app c none with
    | .ok r => .ok r.2.2
    | .error f => .error f
  | QueueOp.ack nb => web_to_app_done c nb

/-- The connection states passed through by a sequence of calls, the initial
one first; the sequence ends at the first failed assertion. -/
def queue_states (env : Env) : conn_t → List QueueOp → List conn_t
  | c, [] => [c]
  | c, op :: rest =>
    match queue_step env c op with
    | .ok c1 => c :: queue_states env c1 rest
    | .error _ => [c]

/-- The consumer's side of the handshake, as a property of the calls it makes
and of what it was handed: `outstanding` is the frame pointer that the last
poll stored in `*nbp` and that the consumer has not acknowledged since (`none`
when there is no such frame).  The consumer polls only when nothing is
outstanding, and acknowledges only the outstanding frame; it may be handed
new frames (enqueue) at any time.  The check ends at the first failed
assertion, where the sequence of calls ends. -/
def acknowledges_before_polling (env : Env) :
    conn_t → Option Nat → List QueueOp → Bool
  | _, _, [] => true
  | c, outstanding, QueueOp.enqueue s :: rest =>
    (match queue_step env c (QueueOp.enqueue s) with
      | .ok c1 => acknowledges_before_polling env c1 outstanding rest
      | .error _ => true)
  | c, outstanding, QueueOp.poll :: rest =>
    outstanding.isNone &&
    (match web_to_app c none with
      | .ok r => acknowledges_before_polling env r.2.2 r.2.1 rest
      | .error _ => true)
  | c, outstanding, QueueOp.ack nb :: rest =>
    decide (outstanding = some nb) &&
    (match web_to_app_done c nb with
      | .ok c1 => acknowledges_before_polling env c1 none rest
      | .error _ => true)

/-- A connection with empty queues that is not flagged `stop_data`. -/
def conn_new : conn_t :=
  { stop_data := false, c2s := { frames := [], head := 0 }, s2c := { frames := [], head := 0 } }

/-! ## Proof devices for the substitution loop -/

/-- A marker starts at position `i` of `mem`: the test of line 549. -/
def marker_at (mem : List Char) (i : Nat) : Prop :=
  peek mem i = '%' ∧ peek mem (i + 1) = '['

/-- The state of the loop after `out` has been produced: the cursor and the
length agree with `out`, `html_buf` starts with `out`, its allocation is
`nsize` bytes, and the room left covers the input still to be read. -/
def SubstInv (edata_size : Nat) (s : SubstSt) (out : List Char) : Prop :=
  s.np = out.length ∧ s.nl = out.length ∧ s.html_buf.take out.length = out ∧
  s.html_buf.length = s.nsize ∧ out.length + (edata_size - s.cl) ≤ s.nsize

/-- A piece of template text: a run of bytes outside any marker, or a
terminated marker `%[K]` with identifier `K`. -/
inductive Piece where
  | plain (seg : List Char)
  | marker (K : List Char)
  deriving DecidableEq, Repr

/-- The bytes of a piece in the content. -/
def Piece.src : Piece → List Char
  | Piece.plain seg => seg
  | Piece.marker K => '%' :: '[' :: (K ++ [']'])

/-- The content made of the pieces, in order. -/
def pieces_src : List Piece → List Char
  | [] => []
  | p :: ps => p.src ++ pieces_src ps

/-- The bytes the substitution pass writes for a piece: a plain run as it is;
for a marker the value of the first table entry that `strncmp` accepts for the
identifier, and when there is none the delimiters around what `strncpy`
copies of the identifier. -/
def Piece.out (iparams : List iparams_t) : Piece → List Char
  | Piece.plain seg => seg
  | Piece.marker K =>
    match iparams_find iparams K K.length with
    | some ip => ip.val
    | none => '%' :: '[' :: (strncpy K K.length ++ [']'])

/-- The output for the pieces, in order. -/
def pieces_out (iparams : List iparams_t) : List Piece → List Char
  | [] => []
  | p :: ps => p.out iparams ++ pieces_out iparams ps

/-- The pieces describe the content as the loop reads it when the memory after
it is `junk`: no marker starts inside a plain run (the test of line 549 looks
one byte ahead, into what follows the run), and no identifier contains `]`. -/
def pieces_wf : List Piece → List Char → Prop
  | [], _ => True
  | Piece.plain seg :: ps, junk =>
    (∀ j, j < seg.length → ¬marker_at (seg ++ (pieces_src ps ++ junk)) j) ∧ pieces_wf ps junk
  | Piece.marker K :: ps, junk => ']' ∉ K ∧ pieces_wf ps junk

/-- The number of iterations of the `for` loop that the pieces take: one per
byte of a plain run, one per marker. -/
def pieces_steps : List Piece → Nat
  | [] => 0
  | Piece.plain seg :: ps => seg.length + pieces_steps ps
  | Piece.marker _ :: ps => 1 + pieces_steps ps

/-! ## `iterate_callback` (lines 692-760) -/

/-- What one call of `iterate_callback` does to the outside: a call
`mg_websocket_write(mc, WS_OPCODE_BINARY, nb->buf, nb->len)`, recorded with the
`len` bytes it was handed and the value it returned, or a diagnostic `printf`. -/
inductive WsEvent where
  | mg_websocket_write (bytes : List Char) (ret : Int)
  | printf (msg : List Char)
  deriving DecidableEq, Repr

/-- The outcome of `iterate_callback`: the return value or the failed
assertion, the actions performed, and the connection afterwards (`none` when
the lookup found no connection). -/
structure IterResult where
  rtn : Except Fault mg_result
  trace : List WsEvent
  conn : Option conn_t
  deriving DecidableEq, Repr

/-- The `while (TRUE)` loop of lines 701-750 followed by the `return MG_TRUE`
of line 759.  `mg_websocket_write k bytes` is the value the transport returns
for the write number `k` (counted from 0) of this call; `k` and `tr` are the
number of writes and the actions so far.  Each iteration dequeues one frame,
so `fuel` bounds the iterations. -/
def iterate_loop (mg_websocket_write : Nat → List Char → Int) :
    Nat → conn_t → Nat → List WsEvent → IterResult
  | 0, c, _, tr => { rtn := .error Fault.fuel, trace := tr, conn := some c }
  | fuel + 1, c, k, tr =>
    if c.stop_data then { rtn := .ok mg_result.MG_TRUE, trace := tr, conn := some c }
    else
      match nbuf_dequeue c.s2c with
      | (none, q) =>
        { rtn := .ok mg_result.MG_TRUE, trace := tr, conn := some { c with s2c := q } }
      | (some p, q) =>
        match q.frames[p]? with
        | none =>
          { rtn := .error Fault.invalid_pointer, trace := tr, conn := some { c with s2c := q } }
        | some nb =>
          if nb.done = false ∧ nb.len ≠ 0 then
            let bytes := mem_read nb.buf nb.len
            let ret := mg_websocket_write k bytes
            let tr1 := tr ++ [WsEvent.mg_websocket_write bytes ret] ++
              (if ret ≤ 0 then
                [WsEvent.printf ("$$$$$$$$ socket write ret ".toList ++ fmt_d ret ++ "\n".toList)]
               else [])
            let nb1 := { nb with done := true }
            iterate_loop mg_websocket_write fuel
              { c with s2c := { q with frames := q.frames.set p nb1 } } (k + 1) tr1
          else
            { rtn := .error (Fault.assertion 707), trace := tr,
              conn := some { c with s2c := q } }

/-- The function `iterate_callback(mc, ev)`.  `c` is what
`rx_server_websocket(mc, WS_MODE_LOOKUP)` returns.  The numbers printed by the
diagnostic of line 754 are left out of its message. -/
def iterate_callback (mg_websocket_write : Nat → List Char → Int) (c : Option conn_t)
    (mc : mg_connection) (ev : mg_event) : IterResult :=
  if ev = mg_event.MG_POLL ∧ mc.is_websocket = true then
    match c with
    | none => { rtn := .ok mg_result.MG_FALSE, trace := [], conn := none }
    | some c =>
      iterate_loop mg_websocket_write (c.s2c.frames.length - c.s2c.head + 1) c 0 []
  else
    { rtn := .ok mg_result.MG_TRUE,
      trace := if ev ≠ mg_event.MG_POLL then [WsEvent.printf "$$$$$$$$ s2c OTHER".toList] else [],
      conn := c }

/-- The payloads handed to `mg_websocket_write`, in order. -/
def ws_writes : List WsEvent → List (List Char)
  | [] => []
  | WsEvent.mg_websocket_write b _ :: t => b :: ws_writes t
  | _ :: t => ws_writes t

/-- The frames of a queue that `nbuf_dequeue` has not handed out yet, oldest
first. -/
def nbuf_queued (nd : ndesc_t) : List nbuf_t := nd.frames.drop nd.head

/-! ## Building the parameter table (lines 162-231) -/

/-- The token types of the JSON tokenizer. -/
inductive jsmntype_t where
  | JSMN_PRIMITIVE
  | JSMN_OBJECT
  | JSMN_ARRAY
  | JSMN_STRING
  deriving DecidableEq, Repr

/-- A token of the configuration text: its type, the offsets `start` and `end`
of its text, and its number of children. -/
structure jsmntok_t where
  type : jsmntype_t
  start : Nat
  end_ : Nat
  size : Nat
  deriving DecidableEq, Repr

/-- The configuration store as `web.c` sees it: the text `cfg_get_json(NULL)`
(or `NULL`), the tokens of the object `index_html_params` that `cfg_walk`
delivers, the macro `JSMN_IS_ID`, the decoder `mg_url_decode` (from the source
bytes to the decoded string), the string `extint_list_js()` and the value
`cfg_string("owner_info", ...)`. -/
structure CfgEnv where
  cfg_get_json : Option (List Char)
  index_html_params : List jsmntok_t
  JSMN_IS_ID : jsmntok_t → Bool
  mg_url_decode : List Char → List Char
  extint_list_js : List Char
  owner_info : List Char

/-- The static array `iparams[N_IPARAMS]` with the memory that follows it, the
counter `n_iparams`, and the indexes of the slots stored to so far.  Slot `i`
of `iparams` stands for `iparams[i]`, also for `i` at or past `N_IPARAMS`,
where the store lands outside the array; a slot not in the list is zero. -/
structure IparamsSt where
  iparams : List iparams_t
  n_iparams : Nat
  stores : List Nat
  deriving DecidableEq, Repr

/-- The store `iparams[i] = f(iparams[i])`. -/
def slot_store (iparams : List iparams_t) (i : Nat) (f : iparams_t → iparams_t) :
    List iparams_t :=
  let m := iparams ++ List.replicate (i + 1 - iparams.length) { id := [], val := [] }
  m.set i (f (m.getD i { id := [], val := [] }))

/-- The function `iparams_add(id, val)`. -/
def iparams_add (st : IparamsSt) (id val : List Char) : IparamsSt :=
  { iparams := slot_store st.iparams st.n_iparams (fun _ => { id := id, val := val })
    n_iparams := st.n_iparams + 1
    stores := st.stores ++ [st.n_iparams] }

/-- The function `index_params_cb(cfg, param, jt, ...)`.  The macro `check(e)`
of line 184 is taken to end the call when `e` fails, as `assert` does. -/
def index_params_cb (cfg : CfgEnv) (st : IparamsSt) (jt : jsmntok_t) : Except Fault IparamsSt :=
  match cfg.cfg_get_json with
  | none => .ok st
  | some json =>
    if jt.type ≠ jsmntype_t.JSMN_STRING then .ok st
    else if st.n_iparams < N_IPARAMS then
      let s := (json.drop jt.start).take (jt.end_ - jt.start)
      if cfg.JSMN_IS_ID jt then
        .ok { st with
              iparams := slot_store st.iparams st.n_iparams
                (fun ip => { ip with id := cfg.mg_url_decode s })
              stores := st.stores ++ [st.n_iparams] }
      else
        .ok { iparams := slot_store st.iparams st.n_iparams
                (fun ip => { ip with val := cfg.mg_url_decode s })
              n_iparams := st.n_iparams + 1
              stores := st.stores ++ [st.n_iparams] }
    else .error (Fault.assertion 184)

/-- Modelled from the spec: `cfg_walk` belongs to the configuration store, not
to `web.c`.  Section 6 of the spec says the configuration collaborator
"supplies ... the raw key/value pairs": the callback is called once for every
token of the named object, in the order of the text. -/
def cfg_walk (cb : IparamsSt → jsmntok_t → Except Fault IparamsSt) :
    List jsmntok_t → IparamsSt → Except Fault IparamsSt
  | [], st => .ok st
  | jt :: rest, st =>
    match cb st jt with
    | .error f => .error f
    | .ok st1 => cfg_walk cb rest st1

/-- The function `reload_index_params()`.  The loop of lines 209-212 frees the
strings of the old entries and stores nothing; the log of stores starts
afresh with the call. -/
def reload_index_params (cfg : CfgEnv) (st : IparamsSt) : Except Fault IparamsSt :=
  let st0 : IparamsSt := { st with n_iparams := 0, stores := [] }
  match cfg_walk (index_params_cb cfg) cfg.index_html_params st0 with
  | .error f => .error f
  | .ok st1 =>
    let st2 : IparamsSt :=
      { iparams := slot_store st1.iparams st1.n_iparams
          (fun _ => { id := "EXT_LIST_JS".toList, val := cfg.extint_list_js })
        n_iparams := st1.n_iparams + 1
        stores := st1.stores ++ [st1.n_iparams] }
    .ok (iparams_add st2 "OWNER_INFO".toList cfg.owner_info)

/-! ## Concrete environments for the closed examples -/

/-- Modelled from the spec: `mg_remove_double_dots_and_double_slashes` belongs to
the transport library, not to `web.c`.  Section 4.1 step 2 of the spec says
"collapse `..` segments and duplicate separators": the path is split at `/`,
every `..` segment and every empty segment is dropped, and the rest is joined
with single separators. -/
def mg_remove_double_dots_and_double_slashes (s : List Char) : List Char :=
  "/".toList.intercalate
    ((s.splitOn '/').filter (fun g => decide (g ≠ [] ∧ g ≠ "..".toList)))

/-- A development-build (`EDATA_DEVEL`) or production-build (`EDATA_EMBED`)
environment with the given files, one user interface `openwebrx` on port 8073,
no blobs, no dynamic responses and the given parameter table. -/
def env_of (embed : Bool) (files : List (List Char × File)) (iparams : List iparams_t) : Env :=
  { EDATA_EMBED := embed
    edata_embed := fun _ => none
    edata_always := fun _ => none
    timer_server_build_unix_time := 1480000000
    mtime_obj_keep_edata_always_o := 1480000000
    stat := fun p => (files.lookup p).map (fun f => f.st)
    sys_open := fun p => files.lookup p
    user_iface := [{ name := "openwebrx".toList, port := 8073 }]
    DIR_CFG := "/root/kiwi.config".toList
    VERSION_MAJ := 1
    VERSION_MIN := 2
    mg_remove_double_dots_and_double_slashes := mg_remove_double_dots_and_double_slashes
    mg_get_mime_type := fun _ => "application/x-javascript".toList
    rx_server_ajax := fun _ => none
    iparams := iparams }

/-- A regular file with the given content and modification time. -/
def file_of (content : List Char) (mtime : Nat) : File :=
  { st := { st_size := content.length, st_mtime := mtime }, content := content }

/-- An HTTP request for `uri` arriving on port 8073. -/
def http_get (uri : List Char) : mg_connection :=
  { uri := uri, is_websocket := false, content := [], local_port := 8073 }

/-- A development build whose tree holds the script `web/openwebrx/kiwi.js`
with the given modification time. -/
def env_js (mtime : Nat) : Env :=
  env_of false [("web/openwebrx/kiwi.js".toList, file_of "var a = \"%[SAMPLE]\";\n".toList mtime)]
    [{ id := "SAMPLE".toList, val := "42".toList }]

/-- The qualified path of a request for `path` that carries no known prefix,
on the interface `openwebrx`. -/
def q_openwebrx (path : List Char) : Qualified :=
  { uri := "openwebrx/".toList ++ path, has_prefix := false, is_extension := false }

/-- A production build (`EDATA_EMBED`) whose configuration directory holds the
uploaded photo `/root/kiwi.config/photo.upload`. -/
def env_cfg : Env :=
  env_of true [("/root/kiwi.config/photo.upload".toList, file_of "JFIF".toList 1480000000)] []

/-- A development build whose tree holds `web/openwebrx/etc/passwd`. -/
def env_tree : Env :=
  env_of false [("web/openwebrx/etc/passwd".toList, file_of "demo".toList 1480000000)] []

/-- A production build whose external extension directory holds
`/root/extensions/foo/bar.js`. -/
def env_ext : Env :=
  env_of true [("/root/extensions/foo/bar.js".toList, file_of "var b;\n".toList 1480000000)] []

/-- A development build whose tree holds `web/openwebrx/index.html` with the
given content, and the given parameter table. -/
def env_html (content : List Char) (iparams : List iparams_t) : Env :=
  env_of false [("web/openwebrx/index.html".toList, file_of content 1480000000)] iparams

/-- A connection flagged `stop_data` with one frame waiting in each queue. -/
def conn_stopped : conn_t :=
  { stop_data := true
    c2s := { frames := [{ buf := "SET".toList, len := 3, done := false,
                          expecting_done := false }], head := 0 }
    s2c := { frames := [{ buf := "AUD".toList, len := 3, done := false,
                          expecting_done := false }], head := 0 } }

/-- A websocket frame with the given payload. -/
def ws_frame (content : List Char) : mg_connection :=
  { uri := [], is_websocket := true, content := content, local_port := 8073 }

/-- A transport whose second write of a call (number 1) fails with -1 and
whose other writes report the number of bytes written. -/
def write_fails_once (k : Nat) (bytes : List Char) : Int :=
  if k = 1 then -1 else (bytes.length : Int)

/-- A configuration whose object `index_html_params` holds `pairs` times the
pair `"K":"V"`, with extension list `ext` and owner information `owner`. -/
def cfg_pairs (pairs : Nat) : CfgEnv :=
  { cfg_get_json := some "KV".toList
    index_html_params :=
      (List.replicate pairs
        [({ type := jsmntype_t.JSMN_STRING, start := 0, end_ := 1, size := 1 } : jsmntok_t),
         { type := jsmntype_t.JSMN_STRING, start := 1, end_ := 2, size := 0 }]).flatten
    JSMN_IS_ID := fun jt => decide (jt.type = jsmntype_t.JSMN_STRING ∧ jt.size = 1)
    mg_url_decode := fun s => s
    extint_list_js := "var ext_list = [];".toList
    owner_info := "owner".toList }

/-- The parameter table before the first reload: no slot written, no entry. -/
def iparams_init : IparamsSt := { iparams := [], n_iparams := 0, stores := [] }

/-- A connection with the three outbound frames `AUD1`, `AUD2`, `AUD3` waiting,
enqueued in this order by `app_to_web`. -/
def conn_three : conn_t :=
  app_to_web (app_to_web (app_to_web conn_new "AUD1".toList 4) "AUD2".toList 4) "AUD3".toList 4

/-- A connection whose only outbound frame was enqueued by `app_to_web` with
length 0. -/
def conn_empty_frame : conn_t := app_to_web conn_new "AUD".toList 0

/-! ## Theorems -/

/-! ### The config-file suffix check (C3) -/

theorem strrchr_append_of_some (p s r : List Char) (ch : Char)
    (h : strrchr s ch = some r) : strrchr (p ++ s) ch = some r := by
  induction p with
  | nil => simpa using h
  | cons c p ih => simp [strrchr, ih]

theorem request_eq_request_http (env : Env) (c : Option conn_t) (mc : mg_connection)
    (ev : mg_event) (hws : mc.is_websocket = false)
    (hev : ev = mg_event.MG_CACHE_INFO ∨ ev = mg_event.MG_REQUEST) :
    request env c mc ev = request_http env mc ev := by
  rcases hev with h | h <;> simp [request, hws, h]

/-- C3: a non-websocket request in the probe or fetch phase whose path, as
`request` examines it (after the leading-slash strip and the normalisation of
lines 404-410), ends in `.json` or `.json/` is answered `MG_FALSE`, and the only
action performed is the log line: no `edata` call, no blob or file access and
no `rx_server_ajax` call, whatever precedes the suffix. -/
theorem request_rejects_json (env : Env) (c : Option conn_t) (mc : mg_connection)
    (ev : mg_event) (p : List Char) (hws : mc.is_websocket = false)
    (hev : ev = mg_event.MG_CACHE_INFO ∨ ev = mg_event.MG_REQUEST)
    (hp : request_ouri env mc.uri = p ++ ".json".toList ∨
          request_ouri env mc.uri = p ++ ".json/".toList) :
    (request env c mc ev).rtn = .ok mg_result.MG_FALSE ∧
    (request env c mc ev).trace =
      [Event.lprintf ("attempt to fetch config file: ".toList ++ request_ouri env mc.uri)] ∧
    (∀ e ∈ (request env c mc ev).trace, e.consults_source = false) := by
  rw [request_eq_request_http env c mc ev hws hev]
  have hs : strrchr (request_ouri env mc.uri) '.' = some ".json".toList ∨
            strrchr (request_ouri env mc.uri) '.' = some ".json/".toList := by
    rcases hp with h | h
    · left; rw [h]; exact strrchr_append_of_some p _ _ '.' (by decide)
    · right; rw [h]; exact strrchr_append_of_some p _ _ '.' (by decide)
  have hr : request_http env mc ev =
      { rtn := .ok mg_result.MG_FALSE,
        trace := [Event.lprintf ("attempt to fetch config file: ".toList ++ request_ouri env mc.uri)],
        cache_info := none, http_bytes := 0, conn := none } := by
    unfold request_http
    simp only [hs, if_true]
  rw [hr]
  refine ⟨rfl, rfl, ?_⟩
  intro e he
  simp at he
  subst he
  rfl

theorem request_rejects_json_witness :
    (request (env_of true [] []) none (http_get "/kiwi.config/../config/kiwi.json".toList)
        mg_event.MG_REQUEST).rtn = .ok mg_result.MG_FALSE ∧
    (request (env_of true [] []) none (http_get "/kiwi.config/../config/kiwi.json".toList)
        mg_event.MG_REQUEST).trace =
      [Event.lprintf ("attempt to fetch config file: ".toList ++
        request_ouri (env_of true [] []) (http_get "/kiwi.config/../config/kiwi.json".toList).uri)] ∧
    (∀ e ∈ (request (env_of true [] []) none (http_get "/kiwi.config/../config/kiwi.json".toList)
        mg_event.MG_REQUEST).trace, e.consults_source = false) :=
  request_rejects_json (env_of true [] []) none (http_get "/kiwi.config/../config/kiwi.json".toList)
    mg_event.MG_REQUEST "kiwi.config/config/kiwi".toList rfl (Or.inr rfl) (Or.inl (by decide))


/-! ### `edata` and the resolution steps -/

theorem edata_blobs_sys (env : Env) (uri : List Char) (s m : Nat) :
    ∀ e ∈ (edata_blobs env uri s m).sys, e = Event.edata_embed uri ∨ e = Event.edata_always uri := by
  intro e he
  unfold edata_blobs at he
  split at he
  · simp at he; exact Or.inl he
  · simp only [] at he
    split at he <;> cases hE : env.EDATA_EMBED <;> simp [hE] at he <;> tauto

theorem edata_blobs_fault (env : Env) (uri : List Char) (s m : Nat) :
    (edata_blobs env uri s m).fault = none := by
  unfold edata_blobs
  split
  · rfl
  · simp only []
    split <;> rfl

theorem edata_probe_sys (env : Env) (uri : List Char) (s m : Nat) (f : Option (List Char)) :
    ∀ e ∈ (edata env uri true s m f).sys,
      e = Event.edata_embed uri ∨ e = Event.edata_always uri ∨ e = Event.stat (edata_uri2 env uri) := by
  intro e he
  have hb := edata_blobs_sys env uri s m
  unfold edata at he
  simp only [] at he
  split at he
  · rcases hb e he with h | h <;> simp [h]
  · split at he
    · rcases hb e he with h | h <;> simp [h]
    · simp only [if_true] at he
      split at he <;> simp at he <;> rcases he with he | he
      · rcases hb e he with h | h <;> simp [h]
      · simp [he]
      · rcases hb e he with h | h <;> simp [h]
      · simp [he]

theorem edata_probe_frame (env : Env) (uri : List Char) (s m : Nat) (f : Option (List Char)) :
    (edata env uri true s m f).free_buf = f ∧ (edata env uri true s m f).fault = none := by
  have hf := edata_blobs_fault env uri s m
  unfold edata
  simp only []
  split
  · exact ⟨rfl, hf⟩
  · split
    · exact ⟨rfl, hf⟩
    · simp only [if_true]
      split <;> exact ⟨rfl, hf⟩

theorem edata_blobs_data (env : Env) (uri : List Char) (s m s1 m1 : Nat) :
    (edata_blobs env uri s m).data = (edata_blobs env uri s1 m1).data := by
  unfold edata_blobs
  split
  · rfl
  · simp only []
    split <;> rfl

theorem edata_data_isSome (env : Env) (uri : List Char) (cc : Bool) (s m : Nat)
    (f : Option (List Char)) :
    (edata env uri cc s m f).data.isSome = edata_hit env cc uri := by
  have hb := edata_blobs_data env uri s m 0 0
  unfold edata_hit edata
  simp only [hb]
  split
  · rfl
  · split
    · rfl
    · cases cc
      · simp only [Bool.false_eq_true, if_false]
        split <;> rfl
      · simp only [if_true]
        split <;> rfl

theorem edata_sys_calls (env : Env) (uri : List Char) (cc : Bool) (s m : Nat)
    (f : Option (List Char)) : edata_calls (edata env uri cc s m f).sys = [] := by
  have hb : edata_calls (edata_blobs env uri s m).sys = [] := by
    unfold edata_calls
    rw [List.filterMap_eq_nil_iff]
    intro e he
    rcases edata_blobs_sys env uri s m e he with h | h <;> simp [h]
  unfold edata
  simp only []
  split
  · exact hb
  · split
    · exact hb
    · cases cc
      · simp only [Bool.false_eq_true, if_false]
        split
        · unfold edata_calls at hb ⊢
          split <;> simp [List.filterMap_append, hb]
        · unfold edata_calls at hb ⊢
          simp [List.filterMap_append, hb]
      · simp only [if_true]
        unfold edata_calls at hb ⊢
        split <;> simp [List.filterMap_append, hb]

theorem lookup_try_calls (env : Env) (cc : Bool) (cand : List Char) (l : Lookup) :
    edata_calls (lookup_try env cc cand l).trace = edata_calls l.trace ++ [(cand, cc)] := by
  have h := edata_sys_calls env cand cc l.edata_size l.mtime l.free_buf
  unfold edata_calls at h ⊢
  simp [lookup_try, List.filterMap_append, h]

theorem lookup_try_isNone (env : Env) (cc : Bool) (cand : List Char) (l : Lookup) :
    (lookup_try env cc cand l).edata_data.isNone = !edata_hit env cc cand := by
  have h := edata_data_isSome env cand cc l.edata_size l.mtime l.free_buf
  simp only [lookup_try]
  rw [← h]
  cases (edata env cand cc l.edata_size l.mtime l.free_buf).data <;> rfl

theorem edata_calls_nil : edata_calls [] = [] := rfl

theorem resolve_calls (env : Env) (cc : Bool) (ouri : List Char) (q : Qualified) :
    edata_calls (resolve env cc ouri q).trace =
      (tried env cc (candidates ouri q)).map (fun u => (u, cc)) := by
  unfold resolve candidates
  generalize ".html".toList = H
  generalize "kiwi/".toList = K
  generalize "/root/".toList = R
  simp only [lookup_try_isNone, lookup_try_calls]
  cases h1 : edata_hit env cc q.uri <;>
  cases h2 : edata_hit env cc (q.uri ++ H) <;>
  cases h3 : edata_hit env cc (K ++ ouri) <;>
  cases h4 : edata_hit env cc (K ++ ouri ++ H) <;>
  cases h5 : edata_hit env cc (R ++ ouri) <;>
  cases hp : q.has_prefix <;> cases he : q.is_extension <;>
  simp [-List.append_assoc, tried, h1, h2, h3, h4, h5, lookup_try_calls, lookup_try_isNone,
    edata_calls_nil]

theorem lookup_try_forall (env : Env) (cc : Bool) (P : Event → Prop)
    (hE : ∀ u, P (Event.edata u cc))
    (hS : ∀ u s m f, ∀ e ∈ (edata env u cc s m f).sys, P e)
    (cand : List Char) (l : Lookup) (hl : ∀ e ∈ l.trace, P e) :
    ∀ e ∈ (lookup_try env cc cand l).trace, P e := by
  intro e he
  simp only [lookup_try, List.mem_append, List.mem_singleton] at he
  rcases he with (he | he) | he
  · exact hl e he
  · subst he; exact hE cand
  · exact hS _ _ _ _ e he

theorem resolve_forall (env : Env) (cc : Bool) (P : Event → Prop)
    (hE : ∀ u, P (Event.edata u cc))
    (hS : ∀ u s m f, ∀ e ∈ (edata env u cc s m f).sys, P e)
    (ouri : List Char) (q : Qualified) :
    ∀ e ∈ (resolve env cc ouri q).trace, P e := by
  unfold resolve
  simp only []
  split_ifs <;>
    (repeat' apply lookup_try_forall env cc P hE hS) <;> simp

theorem resolve_probe_fault (env : Env) (ouri : List Char) (q : Qualified) :
    (resolve env true ouri q).fault = none := by
  unfold resolve
  simp only []
  split_ifs <;> simp only [lookup_try, edata_probe_frame]

theorem resolve_probe_free_buf (env : Env) (ouri : List Char) (q : Qualified) :
    (resolve env true ouri q).free_buf = none := by
  unfold resolve
  simp only []
  split_ifs <;> simp only [lookup_try, edata_probe_frame]

theorem request_http_probe_trace (env : Env) (mc : mg_connection) (q : Qualified)
    (hj : ¬(strrchr (request_ouri env mc.uri) '.' = some ".json".toList ∨
            strrchr (request_ouri env mc.uri) '.' = some ".json/".toList))
    (hq : qualify env mc.local_port (request_ouri env mc.uri) = .ok q) :
    (request_http env mc mg_event.MG_CACHE_INFO).trace =
      (resolve env true (request_ouri env mc.uri) q).trace := by
  unfold request_http
  simp only [hj, if_false, hq, decide_True, resolve_probe_fault]
  unfold respond
  split
  · unfold finish
    simp only [ne_eq, not_true_eq_false, false_and, and_false, decide_False, Bool.false_eq_true,
      if_false]
    split_ifs <;> rfl
  · rfl

/-! ### The probe phase reads no file (C8) -/

theorem request_probe_trace_cases (env : Env) (c : Option conn_t) (mc : mg_connection) :
    (∃ m, (request env c mc mg_event.MG_CACHE_INFO).trace = [Event.lprintf m]) ∨
    (request env c mc mg_event.MG_CACHE_INFO).trace = [] ∨
    (∃ q, (request env c mc mg_event.MG_CACHE_INFO).trace =
      (resolve env true (request_ouri env mc.uri) q).trace) := by
  cases hws : mc.is_websocket
  · rw [request_eq_request_http env c mc _ hws (Or.inl rfl)]
    by_cases hj : strrchr (request_ouri env mc.uri) '.' = some ".json".toList ∨
            strrchr (request_ouri env mc.uri) '.' = some ".json/".toList
    · left
      refine ⟨"attempt to fetch config file: ".toList ++ request_ouri env mc.uri, ?_⟩
      unfold request_http
      simp only [hj, if_true]
    · cases hq : qualify env mc.local_port (request_ouri env mc.uri) with
      | error f =>
        right; left
        unfold request_http
        simp only [hj, if_false, hq]
      | ok q =>
        right; right
        exact ⟨q, request_http_probe_trace env mc q hj hq⟩
  · right; left
    unfold request
    simp only [hws, if_true]
    by_cases h0 : mc.content.length = 0
    · simp only [h0, if_true]
    · simp only [h0, if_false]
      cases c with
      | none => rfl
      | some c =>
        simp only []
        by_cases hs : c.stop_data = true
        · simp only [hs, if_true]
        · simp only [hs, if_false, Bool.false_eq_true]

/-- C8: in the probe phase (`ev == MG_CACHE_INFO`) every call of `edata` made by
`request` has `cache_check = true`, the whole call opens, reads and allocates
nothing, and the local `free_buf` of `request` is still NULL after the
resolution steps; `edata` with `cache_check = true` leaves `*free_buf` as it
was, performs only blob lookups and `stat`, and when it selects the file
system (both blob stores miss and `stat` succeeds) it returns the marker
pointer with `*size = st_size` and `*mtime = st_mtime` taken from `stat`. -/
theorem probe_phase_reads_no_file (env : Env) (c : Option conn_t) (mc : mg_connection) :
    (∀ x ∈ edata_calls (request env c mc mg_event.MG_CACHE_INFO).trace, x.2 = true) ∧
    (∀ e ∈ (request env c mc mg_event.MG_CACHE_INFO).trace, e.reads_file = false) ∧
    (∀ q, (resolve env true (request_ouri env mc.uri) q).free_buf = none) ∧
    (∀ (uri : List Char) (size mtime : Nat) (free_buf : Option (List Char)),
      (edata env uri true size mtime free_buf).free_buf = free_buf ∧
      (∀ e ∈ (edata env uri true size mtime free_buf).sys, e.reads_file = false) ∧
      (∀ st, (edata_blobs env uri size mtime).data = none →
        ¬(env.EDATA_EMBED = true ∧ uri.head? ≠ some '/') →
        env.stat (edata_uri2 env uri) = some st →
        (edata env uri true size mtime free_buf).data = some "non-null".toList ∧
        (edata env uri true size mtime free_buf).size = st.st_size ∧
        (edata env uri true size mtime free_buf).mtime = st.st_mtime % 2 ^ 32 ∧
        Event.stat (edata_uri2 env uri) ∈ (edata env uri true size mtime free_buf).sys)) := by
  have hsys : ∀ u s m f, ∀ e ∈ (edata env u true s m f).sys, e.reads_file = false := by
    intro u s m f e he
    rcases edata_probe_sys env u s m f e he with h | h | h <;> subst h <;> rfl
  refine ⟨?_, ?_, fun q => resolve_probe_free_buf env _ q, ?_⟩
  · intro x hx
    rcases request_probe_trace_cases env c mc with ⟨m, h⟩ | h | ⟨q, h⟩
    · rw [h] at hx; simp [edata_calls] at hx
    · rw [h] at hx; simp [edata_calls] at hx
    · rw [h, resolve_calls] at hx
      simp only [List.mem_map] at hx
      obtain ⟨u, _, rfl⟩ := hx
      rfl
  · intro e he
    rcases request_probe_trace_cases env c mc with ⟨m, h⟩ | h | ⟨q, h⟩
    · rw [h] at he; simp at he; subst he; rfl
    · rw [h] at he; simp at he
    · rw [h] at he
      exact resolve_forall env true (fun e => e.reads_file = false) (fun _ => rfl) hsys _ q e he
  · intro uri size mtime free_buf
    refine ⟨(edata_probe_frame env uri size mtime free_buf).1, hsys uri size mtime free_buf, ?_⟩
    intro st hb hmode hst
    have habs : ¬(env.EDATA_EMBED = true ∧ decide (uri.head? = some '/') = false) := by
      simpa using hmode
    unfold edata
    simp only [habs, if_false, hb, if_true, hst]
    simp

/-! ### The probe-phase answer (C7) -/

theorem strrchr_suffix (s r : List Char) (ch : Char) (h : strrchr s ch = some r) :
    ∃ p, s = p ++ r := by
  induction s with
  | nil => simp [strrchr] at h
  | cons c s ih =>
    unfold strrchr at h
    cases hs : strrchr s ch with
    | some r1 =>
      simp only [hs] at h
      obtain ⟨p, hp⟩ := ih (by rw [hs, h])
      exact ⟨c :: p, by rw [hp]; rfl⟩
    | none =>
      simp only [hs] at h
      split_ifs at h
      exact ⟨[], by simpa using (Option.some.inj h)⟩

theorem strrchr_js_iff (s : List Char) :
    strrchr s '.' = some ".js".toList ↔ ∃ p, s = p ++ ".js".toList := by
  constructor
  · exact strrchr_suffix s _ '.'
  · rintro ⟨p, rfl⟩
    exact strrchr_append_of_some p _ _ '.' (by decide)

theorem resolve_trace_no_ajax (env : Env) (cc : Bool) (ouri : List Char) (q : Qualified) :
    ∀ e ∈ (resolve env cc ouri q).trace, ∀ u, e ≠ Event.rx_server_ajax u := by
  apply resolve_forall env cc (fun e => ∀ u, e ≠ Event.rx_server_ajax u)
  · intro u v; simp
  · intro u s m f e he v hv
    have := edata_sys_calls env u cc s m f
    subst hv
    unfold edata at he
    simp only [] at he
    have hb := edata_blobs_sys env u s m
    split at he
    · rcases hb _ he with h | h <;> simp at h
    · split at he
      · rcases hb _ he with h | h <;> simp at h
      · split at he
        · split at he <;> simp at he <;> rcases hb _ he with h | h <;> simp at h
        · split at he <;> simp at he <;> rcases hb _ he with h | h <;> simp at h

/-- The part of C7 that the code satisfies: in the probe phase, for a request
that reaches resolution, `rx_server_ajax` is never invoked; when no static
source resolves the path the answer is `MG_FALSE`; when a source resolves it
with a nonzero `mtime`, the answer is `MG_FALSE` if the resolved path ends in
`.js`, whatever the size and the (nonzero) mtime, and otherwise `MG_TRUE` with
`cache_info` holding the size and mtime found. -/
theorem probe_not_cacheable (env : Env) (c : Option conn_t) (mc : mg_connection)
    (q : Qualified) (hws : mc.is_websocket = false)
    (hj : ¬(strrchr (request_ouri env mc.uri) '.' = some ".json".toList ∨
            strrchr (request_ouri env mc.uri) '.' = some ".json/".toList))
    (hq : qualify env mc.local_port (request_ouri env mc.uri) = .ok q) :
    (∀ e ∈ (request env c mc mg_event.MG_CACHE_INFO).trace, ∀ u, e ≠ Event.rx_server_ajax u) ∧
    ((resolve env true (request_ouri env mc.uri) q).edata_data = none →
      (request env c mc mg_event.MG_CACHE_INFO).rtn = .ok mg_result.MG_FALSE) ∧
    ((resolve env true (request_ouri env mc.uri) q).edata_data ≠ none →
      (resolve env true (request_ouri env mc.uri) q).mtime ≠ 0 →
      (∃ p, (resolve env true (request_ouri env mc.uri) q).uri = p ++ ".js".toList) →
      (request env c mc mg_event.MG_CACHE_INFO).rtn = .ok mg_result.MG_FALSE) ∧
    ((resolve env true (request_ouri env mc.uri) q).edata_data ≠ none →
      (resolve env true (request_ouri env mc.uri) q).mtime ≠ 0 →
      (¬∃ p, (resolve env true (request_ouri env mc.uri) q).uri = p ++ ".js".toList) →
      (request env c mc mg_event.MG_CACHE_INFO).rtn = .ok mg_result.MG_TRUE ∧
      (request env c mc mg_event.MG_CACHE_INFO).cache_info =
        some ((resolve env true (request_ouri env mc.uri) q).edata_size,
              (resolve env true (request_ouri env mc.uri) q).mtime)) := by
  rw [request_eq_request_http env c mc _ hws (Or.inl rfl)]
  refine ⟨?_, ?_, ?_, ?_⟩
  · rw [request_http_probe_trace env mc q hj hq]
    exact resolve_trace_no_ajax env true _ q
  · intro hd
    unfold request_http
    simp only [hj, if_false, hq, decide_True, resolve_probe_fault]
    unfold respond
    simp only [hd, if_true]
  · intro hd hm hjs
    rw [← strrchr_js_iff] at hjs
    unfold request_http
    simp only [hj, if_false, hq, decide_True, resolve_probe_fault]
    unfold respond
    cases hdd : (resolve env true (request_ouri env mc.uri) q).edata_data with
    | none => exact absurd hdd hd
    | some d =>
      simp only []
      unfold finish
      simp [hjs, hm]
  · intro hd hm hjs
    rw [← strrchr_js_iff] at hjs
    unfold request_http
    simp only [hj, if_false, hq, decide_True, resolve_probe_fault]
    unfold respond
    cases hdd : (resolve env true (request_ouri env mc.uri) q).edata_data with
    | none => exact absurd hdd hd
    | some d =>
      simp only []
      have hjs2 : ¬strrchr (resolve env true (request_ouri env mc.uri) q).uri '.' =
          some ['.', 'j', 's'] := hjs
      unfold finish
      simp [hjs2, hm]

theorem probe_not_cacheable_witness :
    (request (env_js 1480000000) none (http_get "/kiwi.js".toList) mg_event.MG_CACHE_INFO).rtn
      = .ok mg_result.MG_FALSE :=
  (probe_not_cacheable (env_js 1480000000) none (http_get "/kiwi.js".toList)
    (q_openwebrx "kiwi.js".toList) rfl (by decide) (by decide)).2.2.1
    (by decide) (by decide) ⟨"openwebrx/kiwi".toList, by decide⟩

/-- The defect behind C7, for every request: in the probe phase a static
asset that a source resolved with `mtime == 0` ends in the failed assertion
of line 611, whatever its suffix, instead of an answer. -/
theorem probe_mtime_zero_asserts (env : Env) (c : Option conn_t) (mc : mg_connection)
    (q : Qualified) (hws : mc.is_websocket = false)
    (hj : ¬(strrchr (request_ouri env mc.uri) '.' = some ".json".toList ∨
            strrchr (request_ouri env mc.uri) '.' = some ".json/".toList))
    (hq : qualify env mc.local_port (request_ouri env mc.uri) = .ok q)
    (hd : (resolve env true (request_ouri env mc.uri) q).edata_data ≠ none)
    (hm : (resolve env true (request_ouri env mc.uri) q).mtime = 0) :
    (request env c mc mg_event.MG_CACHE_INFO).rtn = .error (Fault.assertion 611) := by
  rw [request_eq_request_http env c mc _ hws (Or.inl rfl)]
  unfold request_http
  simp only [hj, if_false, hq, decide_True, resolve_probe_fault]
  unfold respond
  cases hdd : (resolve env true (request_ouri env mc.uri) q).edata_data with
  | none => exact absurd hdd hd
  | some d =>
    simp only []
    unfold finish
    simp [hm]

/-- C7, the code at the failing input: the probe of the script `kiwi.js` whose
file has `st_mtime == 0`.  The claim asks for the answer `MG_FALSE` whatever
size and mtime were found.  The file system resolves the path (`edata` returns
non-NULL for `openwebrx/kiwi.js` and sets `mtime` to the 0 that `stat`
reported), and `request` fails its own assertion `mtime != 0` of line 611
instead of answering. -/
theorem probe_js_mtime_zero_asserts :
    (resolve (env_js 0) true "kiwi.js".toList (q_openwebrx "kiwi.js".toList)).edata_data
      = some "non-null".toList ∧
    (resolve (env_js 0) true "kiwi.js".toList (q_openwebrx "kiwi.js".toList)).uri
      = "openwebrx/kiwi.js".toList ∧
    (resolve (env_js 0) true "kiwi.js".toList (q_openwebrx "kiwi.js".toList)).mtime = 0 ∧
    (request (env_js 0) none (http_get "/kiwi.js".toList) mg_event.MG_CACHE_INFO).rtn
      = .error (Fault.assertion 611) ∧
    (request (env_js 0) none (http_get "/kiwi.js".toList) mg_event.MG_CACHE_INFO).rtn
      ≠ .ok mg_result.MG_FALSE := by
  decide

/-! ### The version trailer of scripts (C9) -/

theorem edata_blobs_is_sys (env : Env) (uri : List Char) (s m : Nat) :
    ∀ e ∈ (edata_blobs env uri s m).sys, e.is_sys = true := by
  intro e he
  rcases edata_blobs_sys env uri s m e he with h | h <;> subst h <;> rfl

theorem edata_sys_is_sys (env : Env) (uri : List Char) (cc : Bool) (s m : Nat)
    (f : Option (List Char)) : ∀ e ∈ (edata env uri cc s m f).sys, e.is_sys = true := by
  intro e he
  have hb := edata_blobs_is_sys env uri s m
  unfold edata at he
  simp only [] at he
  split at he
  · exact hb e he
  · split at he
    · exact hb e he
    · split at he
      · split at he <;> simp only [List.mem_append, List.mem_singleton] at he
        · rcases he with he | he
          · exact hb e he
          · subst he; rfl
        · rcases he with he | he
          · exact hb e he
          · subst he; rfl
      · split at he
        · simp only [List.mem_append, List.mem_cons, List.mem_singleton, List.not_mem_nil,
            or_false] at he
          rcases he with (he | he | he | he | he) | he
          · exact hb e he
          · subst he; rfl
          · subst he; rfl
          · subst he; rfl
          · subst he; rfl
          · split_ifs at he
            · simp only [List.mem_singleton] at he; subst he; rfl
            · simp at he
        · simp only [List.mem_append, List.mem_singleton] at he
          rcases he with he | he
          · exact hb e he
          · subst he; rfl

theorem response_body_append (a b : List Event) :
    response_body (a ++ b) = response_body a ++ response_body b := by
  induction a with
  | nil => rfl
  | cons e a ih => cases e <;> simp [response_body, ih]

theorem response_body_of_no_send (t : List Event)
    (h : ∀ e ∈ t, ∀ b, e ≠ Event.mg_send_data b) : response_body t = [] := by
  induction t with
  | nil => rfl
  | cons e t ih =>
    have ht := ih (fun x hx => h x (List.mem_cons_of_mem _ hx))
    cases e <;> simp [response_body, ht]
    exact absurd rfl (h _ (List.mem_cons_self _ _) _)

theorem resolve_response_body (env : Env) (cc : Bool) (ouri : List Char) (q : Qualified) :
    response_body (resolve env cc ouri q).trace = [] := by
  apply response_body_of_no_send
  apply resolve_forall env cc (fun e => ∀ b, e ≠ Event.mg_send_data b)
  · intro u b; simp
  · intro u s m f e he b hb
    have := edata_sys_is_sys env u cc s m f e he
    subst hb
    simp [Event.is_sys] at this

theorem mem_read_length (mem : List Char) (n : Nat) : (mem_read mem n).length = n := by
  simp only [mem_read, List.length_append, List.length_take, List.length_replicate]
  omega

theorem js_version_length_pos (env : Env) (uri : List Char) : 0 < (js_version env uri).length := by
  simp [js_version]

/-- The part of C9 that the code satisfies: a fetch (`MG_REQUEST`) that is
resolved without a failed assertion by a static source, to a path ending in
`.js`, with a nonzero `mtime`, returns `MG_TRUE`; the body sent is the `edata_size` resolved bytes
as they are, with no substitution, followed by the non-empty version trailer
of line 594 for the resolved path, and `cache_info.st.st_size` is the content
size plus the trailer length. -/
theorem js_fetch_appends_version (env : Env) (c : Option conn_t) (mc : mg_connection)
    (q : Qualified) (d p : List Char) (hws : mc.is_websocket = false)
    (hj : ¬(strrchr (request_ouri env mc.uri) '.' = some ".json".toList ∨
            strrchr (request_ouri env mc.uri) '.' = some ".json/".toList))
    (hq : qualify env mc.local_port (request_ouri env mc.uri) = .ok q)
    (hf : (resolve env false (request_ouri env mc.uri) q).fault = none)
    (hd : (resolve env false (request_ouri env mc.uri) q).edata_data = some d)
    (hjs : (resolve env false (request_ouri env mc.uri) q).uri = p ++ ".js".toList)
    (hm : (resolve env false (request_ouri env mc.uri) q).mtime ≠ 0) :
    (request env c mc mg_event.MG_REQUEST).rtn = .ok mg_result.MG_TRUE ∧
    response_body (request env c mc mg_event.MG_REQUEST).trace =
      mem_read d (resolve env false (request_ouri env mc.uri) q).edata_size ++
      js_version env (resolve env false (request_ouri env mc.uri) q).uri ∧
    (mem_read d (resolve env false (request_ouri env mc.uri) q).edata_size).length =
      (resolve env false (request_ouri env mc.uri) q).edata_size ∧
    0 < (js_version env (resolve env false (request_ouri env mc.uri) q).uri).length ∧
    (request env c mc mg_event.MG_REQUEST).cache_info =
      some ((resolve env false (request_ouri env mc.uri) q).edata_size +
              (js_version env (resolve env false (request_ouri env mc.uri) q).uri).length,
            (resolve env false (request_ouri env mc.uri) q).mtime) := by
  rw [request_eq_request_http env c mc _ hws (Or.inr rfl)]
  have hs : strrchr (resolve env false (request_ouri env mc.uri) q).uri '.' = some ".js".toList :=
    (strrchr_js_iff _).mpr ⟨p, hjs⟩
  have hs2 : strrchr (resolve env false (request_ouri env mc.uri) q).uri '.' = some ['.', 'j', 's'] :=
    hs
  have hb := resolve_response_body env false (request_ouri env mc.uri) q
  have hr : request_http env mc mg_event.MG_REQUEST =
      finish env mg_event.MG_REQUEST (resolve env false (request_ouri env mc.uri) q).uri d
        (resolve env false (request_ouri env mc.uri) q).edata_size
        (resolve env false (request_ouri env mc.uri) q).mtime false
        (resolve env false (request_ouri env mc.uri) q).trace := by
    unfold request_http
    simp only [hj, if_false, hq]
    have : decide (mg_event.MG_REQUEST = mg_event.MG_CACHE_INFO) = false := by decide
    simp only [this, hf]
    unfold respond
    simp only [hd]
  rw [hr]
  refine ⟨?_, ?_, mem_read_length _ _, js_version_length_pos _ _, ?_⟩
  · unfold finish
    simp [hs2, hm]
  · unfold finish
    simp [hs2, hm, response_body_append, hb, response_body]
  · unfold finish
    simp [hs2, hm]

theorem js_fetch_appends_version_witness :
    (request (env_js 1480000000) none (http_get "/kiwi.js".toList) mg_event.MG_REQUEST).rtn
      = .ok mg_result.MG_TRUE ∧
    response_body
        (request (env_js 1480000000) none (http_get "/kiwi.js".toList) mg_event.MG_REQUEST).trace
      = "var a = \"%[SAMPLE]\";\n".toList ++
        ("kiwi_check_js_version.push(\x7b VERSION_MAJ:1, VERSION_MIN:2, " ++
         "file:\x27openwebrx/kiwi.js\x27 \x7d);\n").toList :=
  ⟨(js_fetch_appends_version (env_js 1480000000) none (http_get "/kiwi.js".toList)
      (q_openwebrx "kiwi.js".toList) "var a = \"%[SAMPLE]\";\n".toList "openwebrx/kiwi".toList
      rfl (by decide) (by decide) (by decide) (by decide) (by decide) (by decide)).1,
   (js_fetch_appends_version (env_js 1480000000) none (http_get "/kiwi.js".toList)
      (q_openwebrx "kiwi.js".toList) "var a = \"%[SAMPLE]\";\n".toList "openwebrx/kiwi".toList
      rfl (by decide) (by decide) (by decide) (by decide) (by decide) (by decide)).2.1.trans
      (by decide)⟩

/-- The defect behind C9, for every request: a fetch that a static source
resolved to a path ending in `.js` with `mtime == 0` ends in the failed
assertion of line 611, and no byte of a body is sent. -/
theorem js_fetch_mtime_zero_asserts (env : Env) (c : Option conn_t) (mc : mg_connection)
    (q : Qualified) (d p : List Char) (hws : mc.is_websocket = false)
    (hj : ¬(strrchr (request_ouri env mc.uri) '.' = some ".json".toList ∨
            strrchr (request_ouri env mc.uri) '.' = some ".json/".toList))
    (hq : qualify env mc.local_port (request_ouri env mc.uri) = .ok q)
    (hf : (resolve env false (request_ouri env mc.uri) q).fault = none)
    (hd : (resolve env false (request_ouri env mc.uri) q).edata_data = some d)
    (hjs : (resolve env false (request_ouri env mc.uri) q).uri = p ++ ".js".toList)
    (hm : (resolve env false (request_ouri env mc.uri) q).mtime = 0) :
    (request env c mc mg_event.MG_REQUEST).rtn = .error (Fault.assertion 611) ∧
    response_body (request env c mc mg_event.MG_REQUEST).trace = [] := by
  rw [request_eq_request_http env c mc _ hws (Or.inr rfl)]
  have hs : strrchr (resolve env false (request_ouri env mc.uri) q).uri '.' = some ".js".toList :=
    (strrchr_js_iff _).mpr ⟨p, hjs⟩
  have hs2 : strrchr (resolve env false (request_ouri env mc.uri) q).uri '.' = some ['.', 'j', 's'] :=
    hs
  have hb := resolve_response_body env false (request_ouri env mc.uri) q
  have hr : request_http env mc mg_event.MG_REQUEST =
      finish env mg_event.MG_REQUEST (resolve env false (request_ouri env mc.uri) q).uri d
        (resolve env false (request_ouri env mc.uri) q).edata_size
        (resolve env false (request_ouri env mc.uri) q).mtime false
        (resolve env false (request_ouri env mc.uri) q).trace := by
    unfold request_http
    simp only [hj, if_false, hq]
    have : decide (mg_event.MG_REQUEST = mg_event.MG_CACHE_INFO) = false := by decide
    simp only [this, hf]
    unfold respond
    simp only [hd]
  rw [hr]
  constructor
  · unfold finish
    simp [hs2, hm]
  · unfold finish
    simp [hs2, hm, hb]

/-- C9, the code at the failing input: the fetch of the script `kiwi.js` whose
file has `st_mtime == 0`.  The claim asks for the content followed by the
version trailer.  The file system resolves the path to `openwebrx/kiwi.js`
and reads the content, yet nothing is sent: `request` fails its own assertion
`mtime != 0` of line 611 before the response is written. -/
theorem js_fetch_mtime_zero_sends_nothing :
    (resolve (env_js 0) false "kiwi.js".toList (q_openwebrx "kiwi.js".toList)).edata_data
      = some "var a = \"%[SAMPLE]\";\n".toList ∧
    (resolve (env_js 0) false "kiwi.js".toList (q_openwebrx "kiwi.js".toList)).uri
      = "openwebrx/kiwi.js".toList ∧
    (request (env_js 0) none (http_get "/kiwi.js".toList) mg_event.MG_REQUEST).rtn
      = .error (Fault.assertion 611) ∧
    response_body (request (env_js 0) none (http_get "/kiwi.js".toList) mg_event.MG_REQUEST).trace
      = [] := by
  decide

/-! ### Candidates handed to `edata` (C4, C5, C6) -/

theorem edata_calls_append (a b : List Event) :
    edata_calls (a ++ b) = edata_calls a ++ edata_calls b := by
  simp [edata_calls, List.filterMap_append]

theorem finish_calls (env : Env) (ev : mg_event) (uri d : List Char) (size mtime : Nat)
    (isAJAX : Bool) (trace : List Event) :
    edata_calls (finish env ev uri d size mtime isAJAX trace).trace = edata_calls trace := by
  unfold finish
  simp only []
  split
  · split_ifs
    · simp [edata_calls_append]
      rfl
    · simp
  · split_ifs <;> (try split) <;> simp [edata_calls_append] <;> rfl

theorem respond_calls (env : Env) (mc : mg_connection) (ev : mg_event) (l : Lookup) :
    edata_calls (respond env mc ev l).trace = edata_calls l.trace := by
  unfold respond
  split
  · exact finish_calls _ _ _ _ _ _ _ _
  · split_ifs
    · rfl
    · split
      · rw [finish_calls, edata_calls_append]
        simp [edata_calls]
      · rw [edata_calls_append]
        simp [edata_calls]

theorem request_http_calls (env : Env) (mc : mg_connection) (ev : mg_event) (q : Qualified)
    (hj : ¬(strrchr (request_ouri env mc.uri) '.' = some ".json".toList ∨
            strrchr (request_ouri env mc.uri) '.' = some ".json/".toList))
    (hq : qualify env mc.local_port (request_ouri env mc.uri) = .ok q) :
    edata_calls (request_http env mc ev).trace =
      (tried env (decide (ev = mg_event.MG_CACHE_INFO))
        (candidates (request_ouri env mc.uri) q)).map
        (fun u => (u, decide (ev = mg_event.MG_CACHE_INFO))) := by
  rw [← resolve_calls]
  unfold request_http
  simp only [hj, if_false, hq]
  split
  · rfl
  · exact respond_calls _ _ _ _

theorem tried_subset (env : Env) (cc : Bool) (l : List (List Char)) :
    ∀ u ∈ tried env cc l, u ∈ l := by
  induction l with
  | nil => intro u hu; simp [tried] at hu
  | cons a l ih =>
    intro u hu
    simp only [tried, List.mem_cons] at hu
    rcases hu with hu | hu
    · exact hu ▸ List.mem_cons_self _ _
    · split_ifs at hu
      · simp at hu
      · exact List.mem_cons_of_mem _ (ih u hu)

theorem strncmp_zero_iff_prefix (p : List Char) (hp : ∀ c ∈ p, c ≠ NUL) (s : List Char) :
    strncmp s p p.length = 0 ↔ ∃ r, s = p ++ r := by
  induction p generalizing s with
  | nil => simp [strncmp]
  | cons c p ih =>
    have hc : c ≠ NUL := hp c (List.mem_cons_self _ _)
    have hp2 : ∀ x ∈ p, x ≠ NUL := fun x hx => hp x (List.mem_cons_of_mem _ hx)
    cases s with
    | nil =>
      simp only [List.length_cons, strncmp, List.headD_nil, List.headD_cons]
      constructor
      · intro h
        have h1 : NUL ≠ c := fun h => hc h.symm
        simp only [ne_eq, h1, not_false_eq_true, if_true] at h
        split_ifs at h
        omega
      · rintro ⟨r, hr⟩
        simp at hr
    | cons a s =>
      simp only [List.length_cons, strncmp, List.headD_cons, List.tail_cons]
      constructor
      · intro h
        by_cases hac : a = c
        · subst hac
          simp only [ne_eq, not_true_eq_false, if_false, hc] at h
          obtain ⟨r, hr⟩ := (ih hp2 s).mp h
          exact ⟨r, by rw [hr]; rfl⟩
        · simp only [ne_eq, hac, not_false_eq_true, if_true] at h
          split_ifs at h
          omega
      · rintro ⟨r, hr⟩
        simp only [List.cons_append, List.cons.injEq] at hr
        obtain ⟨rfl, rfl⟩ := hr
        simp only [ne_eq, not_true_eq_false, if_false, hc]
        exact (ih hp2 _).mpr ⟨r, rfl⟩

theorem qualify_config (env : Env) (port : Nat) (rest : List Char) :
    qualify env port ("config/".toList ++ rest) =
      .ok { uri := env.DIR_CFG ++ "/".toList ++ rest, has_prefix := true, is_extension := false } := by
  simp [qualify, strncmp, NUL]

theorem qualify_kiwi_config (env : Env) (port : Nat) (rest : List Char) :
    qualify env port ("kiwi.config/".toList ++ rest) =
      .ok { uri := env.DIR_CFG ++ "/".toList ++ rest, has_prefix := true, is_extension := false } := by
  simp [qualify, strncmp, NUL]

/-- C5 (as amended): a request whose normalised path begins with `config/` or
`kiwi.config/` and does not end in `.json` or `.json/` is not rejected before
resolution: the path is mapped to `DIR_CFG/<rest>`, that candidate is handed
to `edata` first, `DIR_CFG/<rest>.html` second if the first was not found, and
no other candidate is tried. -/
theorem config_root_is_resolved (env : Env) (c : Option conn_t) (mc : mg_connection)
    (ev : mg_event) (rest : List Char) (hws : mc.is_websocket = false)
    (hev : ev = mg_event.MG_CACHE_INFO ∨ ev = mg_event.MG_REQUEST)
    (hroot : request_ouri env mc.uri = "config/".toList ++ rest ∨
             request_ouri env mc.uri = "kiwi.config/".toList ++ rest)
    (hj : ¬(strrchr (request_ouri env mc.uri) '.' = some ".json".toList ∨
            strrchr (request_ouri env mc.uri) '.' = some ".json/".toList)) :
    edata_calls (request env c mc ev).trace =
      (tried env (decide (ev = mg_event.MG_CACHE_INFO))
        [env.DIR_CFG ++ "/".toList ++ rest,
         env.DIR_CFG ++ "/".toList ++ rest ++ ".html".toList]).map
        (fun u => (u, decide (ev = mg_event.MG_CACHE_INFO))) ∧
    (edata_calls (request env c mc ev).trace).head? =
      some (env.DIR_CFG ++ "/".toList ++ rest, decide (ev = mg_event.MG_CACHE_INFO)) := by
  rw [request_eq_request_http env c mc ev hws hev]
  have hq : qualify env mc.local_port (request_ouri env mc.uri) =
      .ok { uri := env.DIR_CFG ++ "/".toList ++ rest, has_prefix := true, is_extension := false } := by
    rcases hroot with h | h <;> rw [h]
    · exact qualify_config env _ rest
    · exact qualify_kiwi_config env _ rest
  rw [request_http_calls env mc ev _ hj hq]
  simp [candidates, tried]

theorem config_root_is_resolved_witness :
    edata_calls (request env_cfg none (http_get "/kiwi.config/photo.upload".toList)
        mg_event.MG_REQUEST).trace = [("/root/kiwi.config/photo.upload".toList, false)] :=
  (config_root_is_resolved env_cfg none (http_get "/kiwi.config/photo.upload".toList)
    mg_event.MG_REQUEST "photo.upload".toList rfl (Or.inr rfl) (Or.inr (by decide))
    (by decide)).1.trans (by decide)

/-- C5, the claim as stated fails: the request `kiwi.config/photo.upload` is
not rejected; `edata` is consulted with `/root/kiwi.config/photo.upload`, the
file is read and sent, and `request` returns `MG_TRUE`. -/
theorem config_root_request_is_served :
    (request env_cfg none (http_get "/kiwi.config/photo.upload".toList) mg_event.MG_REQUEST).rtn
      = .ok mg_result.MG_TRUE ∧
    edata_calls (request env_cfg none (http_get "/kiwi.config/photo.upload".toList)
        mg_event.MG_REQUEST).trace = [("/root/kiwi.config/photo.upload".toList, false)] ∧
    response_body (request env_cfg none (http_get "/kiwi.config/photo.upload".toList)
        mg_event.MG_REQUEST).trace = "JFIF".toList := by
  decide

theorem resolve_isNone (env : Env) (cc : Bool) (ouri : List Char) (q : Qualified) :
    (resolve env cc ouri q).edata_data.isNone =
      (candidates ouri q).all (fun u => !edata_hit env cc u) := by
  unfold resolve candidates
  generalize ".html".toList = H
  generalize "kiwi/".toList = K
  generalize "/root/".toList = R
  simp only [lookup_try_isNone]
  cases h1 : edata_hit env cc q.uri <;>
  cases h2 : edata_hit env cc (q.uri ++ H) <;>
  cases h3 : edata_hit env cc (K ++ ouri) <;>
  cases h4 : edata_hit env cc (K ++ ouri ++ H) <;>
  cases h5 : edata_hit env cc (R ++ ouri) <;>
  cases hp : q.has_prefix <;> cases he : q.is_extension <;>
  simp [-List.append_assoc, h1, h2, h3, h4, h5, lookup_try_isNone]

theorem finish_fetch_rtn (env : Env) (uri d : List Char) (size mtime : Nat)
    (isAJAX : Bool) (trace : List Event) :
    (finish env mg_event.MG_REQUEST uri d size mtime isAJAX trace).rtn ≠ .ok mg_result.MG_FALSE := by
  unfold finish
  simp only []
  split
  · simp
  · split_ifs <;> first | contradiction | simp

theorem request_http_fetch_false (env : Env) (mc : mg_connection) (q : Qualified)
    (hj : ¬(strrchr (request_ouri env mc.uri) '.' = some ".json".toList ∨
            strrchr (request_ouri env mc.uri) '.' = some ".json/".toList))
    (hq : qualify env mc.local_port (request_ouri env mc.uri) = .ok q)
    (hr : (request_http env mc mg_event.MG_REQUEST).rtn = .ok mg_result.MG_FALSE) :
    (resolve env false (request_ouri env mc.uri) q).edata_data = none ∧
    env.rx_server_ajax { mc with uri := request_ouri env mc.uri } = none := by
  unfold request_http at hr
  have hcc : decide (mg_event.MG_REQUEST = mg_event.MG_CACHE_INFO) = false := by decide
  simp only [hj, if_false, hq, hcc] at hr
  split at hr
  · simp at hr
  · unfold respond at hr
    split at hr
    · exact absurd hr (finish_fetch_rtn _ _ _ _ _ _ _)
    · rename_i hnone
      refine ⟨hnone, ?_⟩
      have hne : ¬(mg_event.MG_REQUEST = mg_event.MG_CACHE_INFO) := by decide
      simp only [hne, if_false] at hr
      split at hr
      · exact absurd hr (finish_fetch_rtn _ _ _ _ _ _ _)
      · assumption

/-- C4 (as amended): for every request path (for `../../etc/passwd` too),
`request` normalises the path and then looks it up instead of rejecting it:
unless the normalised path ends in `.json` or `.json/`, the first action on a
content source is `edata` on the qualified normalised path, every candidate
handed to `edata` is one of `candidates`, all built from the normalised path,
and a fetch returns `MG_FALSE` only when every candidate was not found and
`rx_server_ajax` yielded nothing. -/
theorem escaping_path_is_looked_up (env : Env) (c : Option conn_t) (mc : mg_connection)
    (ev : mg_event) (q : Qualified) (hws : mc.is_websocket = false)
    (hev : ev = mg_event.MG_CACHE_INFO ∨ ev = mg_event.MG_REQUEST)
    (hj : ¬(strrchr (request_ouri env mc.uri) '.' = some ".json".toList ∨
            strrchr (request_ouri env mc.uri) '.' = some ".json/".toList))
    (hq : qualify env mc.local_port (request_ouri env mc.uri) = .ok q) :
    (edata_calls (request env c mc ev).trace).head? =
      some (q.uri, decide (ev = mg_event.MG_CACHE_INFO)) ∧
    (∀ x ∈ edata_calls (request env c mc ev).trace,
      x.1 ∈ candidates (request_ouri env mc.uri) q) ∧
    (ev = mg_event.MG_REQUEST → (request env c mc ev).rtn = .ok mg_result.MG_FALSE →
      (∀ u ∈ candidates (request_ouri env mc.uri) q, edata_hit env false u = false) ∧
      env.rx_server_ajax { mc with uri := request_ouri env mc.uri } = none) := by
  rw [request_eq_request_http env c mc ev hws hev]
  rw [request_http_calls env mc ev q hj hq]
  refine ⟨?_, ?_, ?_⟩
  · simp [candidates, tried]
  · intro x hx
    simp only [List.mem_map] at hx
    obtain ⟨u, hu, rfl⟩ := hx
    exact tried_subset env _ _ u hu
  · intro he hr
    subst he
    obtain ⟨h1, h2⟩ := request_http_fetch_false env mc q hj hq hr
    refine ⟨?_, h2⟩
    have h3 := resolve_isNone env false (request_ouri env mc.uri) q
    rw [h1] at h3
    simp only [Option.isNone_none] at h3
    have h4 := List.all_eq_true.mp h3.symm
    intro u hu
    simpa using h4 u hu

theorem escaping_path_is_looked_up_witness :
    (edata_calls (request env_tree none (http_get "../../etc/passwd".toList)
        mg_event.MG_REQUEST).trace).head? = some ("openwebrx/etc/passwd".toList, false) :=
  (escaping_path_is_looked_up env_tree none (http_get "../../etc/passwd".toList)
    mg_event.MG_REQUEST (q_openwebrx "etc/passwd".toList) rfl (Or.inr rfl)
    (by decide) (by decide)).1

/-- C4, the claim as stated fails: the request `../../etc/passwd` is neither
rejected before lookup nor rejected at all when the tree has a file at the
normalised path: content sources are consulted (`edata` on
`openwebrx/etc/passwd`, which opens `web/openwebrx/etc/passwd`) and `request`
returns `MG_TRUE`; with an empty tree all four candidates and the
dynamic-response hook are consulted before `MG_FALSE` is returned. -/
theorem dotdot_request_consults_sources :
    request_ouri env_tree "../../etc/passwd".toList = "etc/passwd".toList ∧
    (request env_tree none (http_get "../../etc/passwd".toList) mg_event.MG_REQUEST).rtn
      = .ok mg_result.MG_TRUE ∧
    edata_calls (request env_tree none (http_get "../../etc/passwd".toList)
        mg_event.MG_REQUEST).trace = [("openwebrx/etc/passwd".toList, false)] ∧
    Event.sys_open "web/openwebrx/etc/passwd".toList ∈
      (request env_tree none (http_get "../../etc/passwd".toList) mg_event.MG_REQUEST).trace ∧
    (request (env_of false [] []) none (http_get "../../etc/passwd".toList)
        mg_event.MG_REQUEST).rtn = .ok mg_result.MG_FALSE ∧
    edata_calls (request (env_of false [] []) none (http_get "../../etc/passwd".toList)
        mg_event.MG_REQUEST).trace =
      [("openwebrx/etc/passwd".toList, false), ("openwebrx/etc/passwd.html".toList, false),
       ("kiwi/etc/passwd".toList, false), ("kiwi/etc/passwd.html".toList, false)] ∧
    Event.rx_server_ajax "etc/passwd".toList ∈
      (request (env_of false [] []) none (http_get "../../etc/passwd".toList)
        mg_event.MG_REQUEST).trace := by
  decide

theorem tried_two (env : Env) (cc : Bool) (a b u : List Char)
    (h : u ∈ tried env cc [a, b]) : u = a ∨ u = b := by
  have := tried_subset env cc _ u h
  simpa using this

theorem tried_four (env : Env) (cc : Bool) (a b x y u : List Char)
    (h : u ∈ tried env cc [a, b, x, y]) :
    u = a ∨ u = b ∨
      ((u = x ∨ u = y) ∧ edata_hit env cc a = false ∧ edata_hit env cc b = false) := by
  cases ha : edata_hit env cc a <;> cases hb : edata_hit env cc b <;>
    simp [tried, ha, hb] at h
  · rcases h with h | h | h
    · exact Or.inl h
    · exact Or.inr (Or.inl h)
    · have := tried_subset env cc [x, y] u (by simpa [tried] using h)
      simp at this
      exact Or.inr (Or.inr ⟨this, rfl, rfl⟩)
  · rcases h with h | h
    · exact Or.inl h
    · exact Or.inr (Or.inl h)
  · exact Or.inl h
  · exact Or.inl h

/-- C6 (as amended): which candidates `request` hands to `edata` is fixed by
the class of the normalised path.  (1) A path beginning with `extensions/`:
the in-tree candidates `<path>` and `<path>.html`, and the candidates
`/root/<path>` and `/root/<path>.html` under the external extension directory
only after both in-tree candidates were not found.  (2) A path
`config/<rest>` or `kiwi.config/<rest>`: only `DIR_CFG/<rest>` and
`DIR_CFG/<rest>.html`.  (3) Every other path: `<path>` and `<path>.html` when
it begins with `kiwi/` or `pkgs/`, and otherwise the path under the name of the
active user interface or under `kiwi/`, with or without `.html`. -/
theorem out_of_tree_candidates (env : Env) (c : Option conn_t) (mc : mg_connection)
    (ev : mg_event) (u : List Char) (cc : Bool) (hws : mc.is_websocket = false)
    (hev : ev = mg_event.MG_CACHE_INFO ∨ ev = mg_event.MG_REQUEST)
    (hu : (u, cc) ∈ edata_calls (request env c mc ev).trace) :
    ((∃ r, request_ouri env mc.uri = "extensions/".toList ++ r) ∧
     (u = request_ouri env mc.uri ∨ u = request_ouri env mc.uri ++ ".html".toList ∨
      ((u = "/root/".toList ++ request_ouri env mc.uri ∨
        u = "/root/".toList ++ request_ouri env mc.uri ++ ".html".toList) ∧
       edata_hit env cc (request_ouri env mc.uri) = false ∧
       edata_hit env cc (request_ouri env mc.uri ++ ".html".toList) = false))) ∨
    (∃ rest, (request_ouri env mc.uri = "config/".toList ++ rest ∨
              request_ouri env mc.uri = "kiwi.config/".toList ++ rest) ∧
      (u = env.DIR_CFG ++ "/".toList ++ rest ∨
       u = env.DIR_CFG ++ "/".toList ++ rest ++ ".html".toList)) ∨
    ((¬∃ r, request_ouri env mc.uri = "extensions/".toList ++ r) ∧
     (¬∃ r, request_ouri env mc.uri = "config/".toList ++ r) ∧
     (¬∃ r, request_ouri env mc.uri = "kiwi.config/".toList ++ r) ∧
     ((((∃ r, request_ouri env mc.uri = "kiwi/".toList ++ r) ∨
        (∃ r, request_ouri env mc.uri = "pkgs/".toList ++ r)) ∧
       (u = request_ouri env mc.uri ∨ u = request_ouri env mc.uri ++ ".html".toList)) ∨
      ((¬∃ r, request_ouri env mc.uri = "kiwi/".toList ++ r) ∧
       (¬∃ r, request_ouri env mc.uri = "pkgs/".toList ++ r) ∧
       ((∃ ui, find_ui env.user_iface mc.local_port = some ui ∧
          (u = ui.name ++ "/".toList ++ request_ouri env mc.uri ∨
           u = ui.name ++ "/".toList ++ request_ouri env mc.uri ++ ".html".toList)) ∨
        u = "kiwi/".toList ++ request_ouri env mc.uri ∨
        u = "kiwi/".toList ++ request_ouri env mc.uri ++ ".html".toList)))) := by
  rw [request_eq_request_http env c mc ev hws hev] at hu
  by_cases hj : strrchr (request_ouri env mc.uri) '.' = some ".json".toList ∨
            strrchr (request_ouri env mc.uri) '.' = some ".json/".toList
  · have ht : (request_http env mc ev).trace =
        [Event.lprintf ("attempt to fetch config file: ".toList ++ request_ouri env mc.uri)] := by
      unfold request_http
      simp only [hj, if_true]
    rw [ht] at hu
    simp [edata_calls] at hu
  · cases hq : qualify env mc.local_port (request_ouri env mc.uri) with
    | error f =>
      unfold request_http at hu
      simp only [hj, if_false, hq] at hu
      simp [edata_calls] at hu
    | ok q =>
      rw [request_http_calls env mc ev q hj hq] at hu
      simp only [List.mem_map, Prod.mk.injEq] at hu
      obtain ⟨u1, hu1, rfl, hcc⟩ := hu
      rw [hcc] at hu1
      have pk := strncmp_zero_iff_prefix "kiwi/".toList (by decide) (request_ouri env mc.uri)
      have pe := strncmp_zero_iff_prefix "extensions/".toList (by decide) (request_ouri env mc.uri)
      have pp := strncmp_zero_iff_prefix "pkgs/".toList (by decide) (request_ouri env mc.uri)
      have pc := strncmp_zero_iff_prefix "config/".toList (by decide) (request_ouri env mc.uri)
      have pkc := strncmp_zero_iff_prefix "kiwi.config/".toList (by decide) (request_ouri env mc.uri)
      unfold qualify at hq
      split_ifs at hq with k1 k2 k3 k4 k5
      · simp only [Except.ok.injEq] at hq
        subst hq
        have h := tried_two env cc _ _ u1 (by simpa [candidates] using hu1)
        obtain ⟨r, hr⟩ := pk.mp k1
        refine Or.inr (Or.inr ⟨?_, ?_, ?_, Or.inl ⟨Or.inl ⟨r, hr⟩, h⟩⟩)
        · rintro ⟨r1, h1⟩
          rw [hr] at h1
          simp at h1
        · rintro ⟨r1, h1⟩
          rw [hr] at h1
          simp at h1
        · rintro ⟨r1, h1⟩
          rw [hr] at h1
          simp at h1
      · simp only [Except.ok.injEq] at hq
        subst hq
        have h := tried_four env cc _ _ _ _ u1 (by simpa [candidates] using hu1)
        refine Or.inl ⟨pe.mp k2, ?_⟩
        rcases h with h | h | ⟨h, h1, h2⟩
        · exact Or.inl h
        · exact Or.inr (Or.inl h)
        · exact Or.inr (Or.inr ⟨h, h1, h2⟩)
      · simp only [Except.ok.injEq] at hq
        subst hq
        have h := tried_two env cc _ _ u1 (by simpa [candidates] using hu1)
        obtain ⟨r, hr⟩ := pp.mp k3
        refine Or.inr (Or.inr ⟨fun hx => k2 (pe.mpr hx), ?_, ?_, Or.inl ⟨Or.inr ⟨r, hr⟩, h⟩⟩)
        · rintro ⟨r1, h1⟩
          rw [hr] at h1
          simp at h1
        · rintro ⟨r1, h1⟩
          rw [hr] at h1
          simp at h1
      · simp only [Except.ok.injEq] at hq
        subst hq
        have h := tried_two env cc _ _ u1 (by simpa [candidates] using hu1)
        obtain ⟨r, hr⟩ := pc.mp k4
        refine Or.inr (Or.inl ⟨r, Or.inl hr, ?_⟩)
        rw [hr] at h
        simpa using h
      · simp only [Except.ok.injEq] at hq
        subst hq
        have h := tried_two env cc _ _ u1 (by simpa [candidates] using hu1)
        obtain ⟨r, hr⟩ := pkc.mp k5
        refine Or.inr (Or.inl ⟨r, Or.inr hr, ?_⟩)
        rw [hr] at h
        simpa using h
      · split at hq
        · simp at hq
        · rename_i ui hui
          simp only [Except.ok.injEq] at hq
          subst hq
          have h := tried_subset env cc _ u1 hu1
          simp only [candidates, if_true, List.mem_append, List.mem_cons, List.mem_singleton,
            List.not_mem_nil, or_false, Bool.false_eq_true, if_false] at h
          refine Or.inr (Or.inr ⟨fun hx => k2 (pe.mpr hx), fun hx => k4 (pc.mpr hx),
            fun hx => k5 (pkc.mpr hx),
            Or.inr ⟨fun hx => k1 (pk.mpr hx), fun hx => k3 (pp.mpr hx), ?_⟩⟩)
          rcases h with (h | h) | h | h
          · exact Or.inl ⟨ui, hui, Or.inl h⟩
          · exact Or.inl ⟨ui, hui, Or.inr h⟩
          · exact Or.inr (Or.inl h)
          · exact Or.inr (Or.inr h)

/-- C6, the amended statement at the request `extensions/foo/bar.js` on a tree
that lacks the file: the candidate `/root/extensions/foo/bar.js` is handed to
`edata`, so the path is of class (1) and both in-tree candidates were not
found. -/
theorem out_of_tree_candidates_witness :
    ("/root/extensions/foo/bar.js".toList, false) ∈
      edata_calls (request env_ext none (http_get "/extensions/foo/bar.js".toList)
        mg_event.MG_REQUEST).trace ∧
    (∃ r, request_ouri env_ext (http_get "/extensions/foo/bar.js".toList).uri =
        "extensions/".toList ++ r) ∧
    edata_hit env_ext false
      (request_ouri env_ext (http_get "/extensions/foo/bar.js".toList).uri) = false ∧
    edata_hit env_ext false
      (request_ouri env_ext (http_get "/extensions/foo/bar.js".toList).uri ++ ".html".toList) =
      false := by
  have hp : request_ouri env_ext (http_get "/extensions/foo/bar.js".toList).uri =
      "extensions/".toList ++ "foo/bar.js".toList := by decide
  refine ⟨by decide, ?_⟩
  rcases out_of_tree_candidates env_ext none (http_get "/extensions/foo/bar.js".toList)
    mg_event.MG_REQUEST "/root/extensions/foo/bar.js".toList false rfl (Or.inr rfl)
    (by decide) with h | h | h
  · refine ⟨h.1, ?_⟩
    rcases h.2 with h2 | h2 | h2
    · rw [hp] at h2; exact absurd h2 (by decide)
    · rw [hp] at h2; exact absurd h2 (by decide)
    · exact h2.2
  · obtain ⟨rest, h1, _⟩ := h
    rw [hp] at h1
    rcases h1 with h1 | h1 <;> simp at h1
  · exact absurd ⟨"foo/bar.js".toList, hp⟩ h.1

/-- C6, the claim as stated fails: for the request `config/photo.upload`, whose
path does not begin with `extensions/`, the root-referenced candidate
`/root/kiwi.config/photo.upload` outside the content tree is handed to
`edata`, is opened from the file system in the production build, and is
served with `MG_TRUE`. -/
theorem config_request_resolves_out_of_tree :
    strncmp (request_ouri env_cfg "/config/photo.upload".toList) "extensions/".toList 11 ≠ 0 ∧
    edata_calls (request env_cfg none (http_get "/config/photo.upload".toList)
        mg_event.MG_REQUEST).trace = [("/root/kiwi.config/photo.upload".toList, false)] ∧
    Event.sys_open "/root/kiwi.config/photo.upload".toList ∈
      (request env_cfg none (http_get "/config/photo.upload".toList) mg_event.MG_REQUEST).trace ∧
    (request env_cfg none (http_get "/config/photo.upload".toList) mg_event.MG_REQUEST).rtn
      = .ok mg_result.MG_TRUE := by
  decide

/-! ### The inbound queue handshake (C10) -/

theorem countP_set_le_succ {α : Type} (P : α → Bool) (l : List α) (i : Nat) (x : α) :
    (l.set i x).countP P ≤ l.countP P + 1 := by
  induction l generalizing i with
  | nil => simp
  | cons a l ih =>
    cases i with
    | zero =>
      simp only [List.set_cons_zero, List.countP_cons]
      split_ifs <;> omega
    | succ i =>
      simp only [List.set_cons_succ, List.countP_cons]
      have := ih i
      omega

theorem countP_set_le {α : Type} (P : α → Bool) (l : List α) (i : Nat) (x : α)
    (hx : P x = false) : (l.set i x).countP P ≤ l.countP P := by
  induction l generalizing i with
  | nil => simp
  | cons a l ih =>
    cases i with
    | zero =>
      simp [List.countP_cons, hx]
    | succ i =>
      simp only [List.set_cons_succ, List.countP_cons]
      have := ih i
      omega

theorem in_flight_enqueue (env : Env) (c c1 : conn_t) (s : List Char)
    (h : queue_step env c (QueueOp.enqueue s) = .ok c1) : in_flight c1 = in_flight c := by
  simp only [queue_step, request, if_true] at h
  by_cases h0 : s.length = 0
  · simp only [h0, if_true, Except.ok.injEq] at h
    rw [← h]
  · simp only [h0, if_false] at h
    by_cases hs : c.stop_data = true
    · simp only [hs, if_true, Except.ok.injEq] at h
      rw [← h]
    · simp only [hs, if_false, Bool.false_eq_true, Except.ok.injEq] at h
      rw [← h]
      simp [in_flight, nbuf_allocq]

theorem in_flight_poll (env : Env) (c c1 : conn_t) (h : queue_step env c QueueOp.poll = .ok c1) :
    in_flight c1 ≤ in_flight c + 1 := by
  simp only [queue_step, web_to_app] at h
  by_cases hs : c.stop_data = true
  · simp only [hs, if_true, Except.ok.injEq] at h
    rw [← h]
    omega
  · simp only [hs, if_false, Bool.false_eq_true, nbuf_dequeue] at h
    by_cases hh : c.c2s.head < c.c2s.frames.length
    · simp only [hh, if_true] at h
      cases hg : c.c2s.frames[c.c2s.head]? with
      | none => simp [hg] at h
      | some nb =>
        simp only [hg] at h
        split_ifs at h
        · simp only [Except.ok.injEq] at h
          rw [← h]
          exact countP_set_le_succ _ _ _ _
    · simp only [hh, if_false, Except.ok.injEq] at h
      rw [← h]
      simp [in_flight]

theorem in_flight_ack (env : Env) (c c1 : conn_t) (p : Nat)
    (h : queue_step env c (QueueOp.ack p) = .ok c1) : in_flight c1 ≤ in_flight c := by
  simp only [queue_step, web_to_app_done] at h
  cases hg : c.c2s.frames[p]? with
  | none => simp [hg] at h
  | some nb =>
    simp only [hg] at h
    split_ifs at h
    simp only [Except.ok.injEq] at h
    rw [← h]
    exact countP_set_le _ _ _ _ (by simp)

theorem countP_set_of_pos {α : Type} (P : α → Bool) (l : List α) (i : Nat) (a x : α)
    (h : l[i]? = some a) (ha : P a = true) (hx : P x = false) :
    (l.set i x).countP P + 1 = l.countP P := by
  induction l generalizing i with
  | nil => simp at h
  | cons b l ih =>
    cases i with
    | zero =>
      simp only [List.getElem?_cons_zero, Option.some.injEq] at h
      subst h
      simp [List.countP_cons, ha, hx]
    | succ i =>
      simp only [List.getElem?_cons_succ] at h
      simp only [List.set_cons_succ, List.countP_cons]
      have := ih i h
      omega

/-- An enqueue keeps every frame already in the inbound queue, at the same
pointer. -/
theorem enqueue_keeps_frames (env : Env) (c c1 : conn_t) (s : List Char)
    (h : queue_step env c (QueueOp.enqueue s) = .ok c1) (p : Nat) (nb : nbuf_t)
    (hp : c.c2s.frames[p]? = some nb) : c1.c2s.frames[p]? = some nb := by
  simp only [queue_step, request, if_true] at h
  by_cases h0 : s.length = 0
  · simp only [h0, if_true, Except.ok.injEq] at h
    rw [← h]; exact hp
  · simp only [h0, if_false] at h
    by_cases hs : c.stop_data = true
    · simp only [hs, if_true, Except.ok.injEq] at h
      rw [← h]; exact hp
    · simp only [hs, if_false, Bool.false_eq_true, Except.ok.injEq] at h
      rw [← h]
      simp only [nbuf_allocq]
      have hlt : p < c.c2s.frames.length := by
        rcases Nat.lt_or_ge p c.c2s.frames.length with h1 | h1
        · exact h1
        · rw [List.getElem?_eq_none h1] at hp
          simp at hp
      rw [List.getElem?_append_left hlt]
      exact hp

/-- A poll issued when no frame is InFlight leaves at most one frame InFlight,
and that one is the frame whose pointer it stored in `*nbp`. -/
theorem poll_from_idle (c : conn_t) (n : Nat) (nbp : Option Nat) (c1 : conn_t)
    (h : web_to_app c none = .ok (n, nbp, c1)) (h0 : in_flight c = 0) :
    (∀ p, nbp = some p →
      in_flight c1 ≤ 1 ∧
      ∃ nb, c1.c2s.frames[p]? = some nb ∧ nb.expecting_done = true ∧ nb.done = false) ∧
    (nbp = none → in_flight c1 = 0) := by
  simp only [web_to_app] at h
  by_cases hs : c.stop_data = true
  · simp only [hs, if_true, Except.ok.injEq, Prod.mk.injEq] at h
    obtain ⟨_, h2, h3⟩ := h
    subst h2 h3
    exact ⟨by intro p hp; simp at hp, fun _ => h0⟩
  · simp only [hs, if_false, Bool.false_eq_true, nbuf_dequeue] at h
    by_cases hh : c.c2s.head < c.c2s.frames.length
    · simp only [hh, if_true] at h
      cases hg : c.c2s.frames[c.c2s.head]? with
      | none => simp [hg] at h
      | some nb =>
        simp only [hg] at h
        split_ifs at h with hfresh
        simp only [Except.ok.injEq, Prod.mk.injEq] at h
        obtain ⟨_, h2, h3⟩ := h
        subst h2 h3
        refine ⟨?_, by intro hn; simp at hn⟩
        intro p hp
        simp only [Option.some.injEq] at hp
        subst hp
        refine ⟨?_, ?_⟩
        · have := countP_set_le_succ (fun nb : nbuf_t => nb.expecting_done && !nb.done)
            c.c2s.frames c.c2s.head { nb with expecting_done := true }
          simp only [in_flight] at h0 ⊢
          omega
        · refine ⟨{ nb with expecting_done := true }, ?_, rfl, hfresh.1⟩
          simp [List.getElem?_set_self hh]
    · simp only [hh, if_false, Except.ok.injEq, Prod.mk.injEq] at h
      obtain ⟨_, h2, h3⟩ := h
      subst h2 h3
      exact ⟨by intro p hp; simp at hp, fun _ => by simpa [in_flight] using h0⟩

/-- An acknowledgement takes its frame out of the InFlight state: the count
of InFlight frames drops by one. -/
theorem ack_clears_in_flight (c c1 : conn_t) (p : Nat)
    (h : web_to_app_done c p = .ok c1) : in_flight c1 + 1 = in_flight c := by
  simp only [web_to_app_done] at h
  cases hg : c.c2s.frames[p]? with
  | none => simp [hg] at h
  | some nb =>
    simp only [hg] at h
    split_ifs at h with hfl
    simp only [Except.ok.injEq] at h
    rw [← h]
    simp only [in_flight]
    exact countP_set_of_pos _ _ _ nb _ hg (by simp [hfl.1, hfl.2]) (by simp)

/-- A poll finds a fresh frame at the head of the inbound queue: `web_to_app`
hands it out and one more frame is InFlight, however many were InFlight
before.  Nothing in `web_to_app` looks at frames handed out earlier. -/
theorem poll_hands_out_fresh_frame (c : conn_t) (nbp : Option Nat) (nb : nbuf_t)
    (hstop : c.stop_data = false) (hg : c.c2s.frames[c.c2s.head]? = some nb)
    (hd : nb.done = false) (he : nb.expecting_done = false) (hl : nb.len ≠ 0) :
    ∃ c1, web_to_app c nbp = .ok (nb.len, some c.c2s.head, c1) ∧
      in_flight c1 = in_flight c + 1 := by
  have hh : c.c2s.head < c.c2s.frames.length := by
    rcases Nat.lt_or_ge c.c2s.head c.c2s.frames.length with h1 | h1
    · exact h1
    · rw [List.getElem?_eq_none h1] at hg
      simp at hg
  refine ⟨{ c with c2s := { c.c2s with
      frames := c.c2s.frames.set c.c2s.head { nb with expecting_done := true },
      head := c.c2s.head + 1 } }, ?_, ?_⟩
  · simp [web_to_app, hstop, nbuf_dequeue, hh, hg, hd, he, hl]
  · simp only [in_flight]
    have h1 := countP_set_of_pos (fun x : nbuf_t => x.expecting_done && !x.done)
      (c.c2s.frames.set c.c2s.head { nb with expecting_done := true }) c.c2s.head
      { nb with expecting_done := true } nb
      (by simp [List.getElem?_set_self hh]) (by simp [hd]) (by simp [he])
    rw [List.set_set] at h1
    have h2 : c.c2s.frames.set c.c2s.head nb = c.c2s.frames := by
      apply List.ext_getElem?
      intro i
      by_cases hi : c.c2s.head = i
      · subst hi
        rw [List.getElem?_set_self hh, hg]
      · rw [List.getElem?_set_ne hi]
    rw [h2] at h1
    omega

/-- The handshake invariant: along a sequence of calls in which the consumer
polls only when nothing is outstanding and acknowledges only the outstanding
frame, the outstanding frame is the only one InFlight. -/
theorem disciplined_in_flight (env : Env) (ops : List QueueOp) :
    ∀ (c : conn_t) (outstanding : Option Nat),
      (outstanding = none → in_flight c = 0) →
      (∀ p, outstanding = some p → in_flight c ≤ 1 ∧
        ∃ nb, c.c2s.frames[p]? = some nb ∧ nb.expecting_done = true ∧ nb.done = false) →
      acknowledges_before_polling env c outstanding ops = true →
      ∀ s ∈ queue_states env c ops, in_flight s ≤ 1 := by
  induction ops with
  | nil =>
    intro c out hn hsome _ s hs
    simp only [queue_states, List.mem_singleton] at hs
    rw [hs]
    cases out with
    | none => rw [hn rfl]; omega
    | some p => exact (hsome p rfl).1
  | cons op rest ih =>
    intro c out hn hsome hd s hs
    have hc : in_flight c ≤ 1 := by
      cases out with
      | none => rw [hn rfl]; omega
      | some p => exact (hsome p rfl).1
    unfold queue_states at hs
    cases hstep : queue_step env c op with
    | error f =>
      simp only [hstep, List.mem_singleton] at hs
      rw [hs]; exact hc
    | ok c1 =>
      simp only [hstep, List.mem_cons] at hs
      rcases hs with hs | hs
      · rw [hs]; exact hc
      · cases op with
        | enqueue x =>
          simp only [acknowledges_before_polling, hstep] at hd
          have heq := in_flight_enqueue env c c1 x hstep
          refine ih c1 out ?_ ?_ hd s hs
          · intro ho; rw [heq]; exact hn ho
          · intro p hp
            obtain ⟨h1, nb, h2, h3, h4⟩ := hsome p hp
            exact ⟨by rw [heq]; exact h1, nb, enqueue_keeps_frames env c c1 x hstep p nb h2,
              h3, h4⟩
        | poll =>
          simp only [acknowledges_before_polling, Bool.and_eq_true, Option.isNone_iff_eq_none]
            at hd
          obtain ⟨hout, hrest⟩ := hd
          simp only [queue_step] at hstep
          cases hw : web_to_app c none with
          | error f => rw [hw] at hstep; simp at hstep
          | ok r =>
            rw [hw] at hstep hrest
            simp only [Except.ok.injEq] at hstep
            obtain ⟨n, nbp, c2⟩ := r
            simp only at hstep hrest
            subst hstep
            have hp := poll_from_idle c n nbp c2 hw (hn hout)
            exact ih c2 nbp hp.2 hp.1 hrest s hs
        | ack p =>
          simp only [acknowledges_before_polling, Bool.and_eq_true, decide_eq_true_eq] at hd
          obtain ⟨hout, hrest⟩ := hd
          simp only [queue_step] at hstep
          rw [hstep] at hrest
          have hack := ack_clears_in_flight c c1 p hstep
          refine ih c1 none ?_ ?_ hrest s hs
          · intro _; omega
          · intro q hq; simp at hq

/-- C10 (as amended): for every connection on which no inbound frame is
InFlight and every sequence of inbound enqueue, poll and acknowledge calls in
which the consumer acknowledges each frame it was handed before it polls
again, at most one inbound frame is InFlight in every state the sequence
passes through.  `web_to_app` itself does not refuse a poll issued while an
earlier frame is unacknowledged: on every connection (not flagged
`stop_data`) with a fresh frame at the head of the inbound queue it hands that
frame out, and one more frame is InFlight than before. -/
theorem at_most_one_in_flight (env : Env) (c : conn_t) (ops : List QueueOp)
    (h0 : in_flight c = 0) (hd : acknowledges_before_polling env c none ops = true) :
    (∀ s ∈ queue_states env c ops, in_flight s ≤ 1) ∧
    (∀ (c2 : conn_t) (nbp : Option Nat) (nb : nbuf_t),
      c2.stop_data = false → c2.c2s.frames[c2.c2s.head]? = some nb →
      nb.done = false → nb.expecting_done = false → nb.len ≠ 0 →
      ∃ c3, web_to_app c2 nbp = .ok (nb.len, some c2.c2s.head, c3) ∧
        in_flight c3 = in_flight c2 + 1) :=
  ⟨disciplined_in_flight env ops c none (fun _ => h0) (by intro p hp; simp at hp) hd,
   fun c2 nbp nb h1 h2 h3 h4 h5 => poll_hands_out_fresh_frame c2 nbp nb h1 h2 h3 h4 h5⟩

/-- C10, the amended statement on a new connection: three frames arrive, and
the consumer polls, acknowledges the frame it was handed, and polls again. -/
theorem at_most_one_in_flight_witness :
    in_flight conn_new = 0 ∧
    acknowledges_before_polling (env_of true [] []) conn_new none
      [QueueOp.enqueue "a".toList, QueueOp.enqueue "b".toList, QueueOp.poll, QueueOp.ack 0,
       QueueOp.poll, QueueOp.enqueue "c".toList, QueueOp.ack 1, QueueOp.poll] = true ∧
    (queue_states (env_of true [] []) conn_new
      [QueueOp.enqueue "a".toList, QueueOp.enqueue "b".toList, QueueOp.poll, QueueOp.ack 0,
       QueueOp.poll, QueueOp.enqueue "c".toList, QueueOp.ack 1, QueueOp.poll]).map in_flight =
      [0, 0, 0, 1, 0, 1, 1, 0, 1] ∧
    (∀ s ∈ queue_states (env_of true [] []) conn_new
      [QueueOp.enqueue "a".toList, QueueOp.enqueue "b".toList, QueueOp.poll, QueueOp.ack 0,
       QueueOp.poll, QueueOp.enqueue "c".toList, QueueOp.ack 1, QueueOp.poll],
      in_flight s ≤ 1) :=
  ⟨by decide, by decide, by decide,
   (at_most_one_in_flight (env_of true [] []) conn_new
      [QueueOp.enqueue "a".toList, QueueOp.enqueue "b".toList, QueueOp.poll, QueueOp.ack 0,
       QueueOp.poll, QueueOp.enqueue "c".toList, QueueOp.ack 1, QueueOp.poll]
      (by decide) (by decide)).1⟩

/-- C10, the claim as stated fails: after two frames are enqueued, a second poll
issued before the first frame is acknowledged does succeed: no assertion
fails, the InFlight count goes 0, 0, 0, 1, 2 along the sequence, and the second
poll returns the length 2 of the second frame and its pointer. -/
theorem second_poll_hands_out_second_frame :
    (queue_states (env_of true [] []) conn_new
      [QueueOp.enqueue "a".toList, QueueOp.enqueue "bc".toList, QueueOp.poll,
       QueueOp.poll]).map in_flight = [0, 0, 0, 1, 2] ∧
    ((queue_states (env_of true [] []) conn_new
      [QueueOp.enqueue "a".toList, QueueOp.enqueue "bc".toList, QueueOp.poll]).getLast?.map
        (fun c => (web_to_app c none).map (fun r => (r.1, r.2.1))))
      = some (.ok (2, some 1)) := by
  decide

/-! ### The substitution pass (C1, C2) -/

theorem peek_drop (mem : List Char) (i j : Nat) : peek mem (i + j) = peek (mem.drop i) j := by
  simp [peek, List.getElem?_drop]

theorem store_eq_some (buf : List Char) (off : Nat) (bytes : List Char)
    (h : off + bytes.length ≤ buf.length) :
    store buf off bytes = some (buf.take off ++ bytes ++ buf.drop (off + bytes.length)) := by
  simp [store, h]

theorem stored_length (buf : List Char) (off : Nat) (bytes : List Char)
    (h : off + bytes.length ≤ buf.length) :
    (buf.take off ++ bytes ++ buf.drop (off + bytes.length)).length = buf.length := by
  simp only [List.length_append, List.length_take, List.length_drop]
  omega

theorem stored_take (buf : List Char) (off : Nat) (bytes : List Char)
    (h : off + bytes.length ≤ buf.length) :
    (buf.take off ++ bytes ++ buf.drop (off + bytes.length)).take (off + bytes.length) =
      buf.take off ++ bytes := by
  apply List.take_left'
  simp only [List.length_append, List.length_take]
  omega

theorem subst_loop_done (iparams : List iparams_t) (mem : List Char) (size f : Nat) (s : SubstSt)
    (h : size ≤ s.cl) : subst_loop iparams mem size f s = .ok s := by
  cases f <;> simp [subst_loop, Nat.not_lt.mpr h]

theorem subst_plain_step (iparams : List iparams_t) (mem : List Char) (size f : Nat)
    (s : SubstSt) (out : List Char) (hinv : SubstInv size s out) (hcl : s.cl < size)
    (hnm : ¬marker_at mem s.cl) :
    ∃ s1, subst_loop iparams mem size (f + 1) s = subst_loop iparams mem size f s1 ∧
      SubstInv size s1 (out ++ [peek mem s.cl]) ∧ s1.cl = s.cl + 1 := by
  obtain ⟨hnp, hnl, htake, hlen, hroom⟩ := hinv
  have hfit : s.np + [peek mem s.cl].length ≤ s.html_buf.length := by
    simp only [List.length_singleton]; omega
  refine ⟨SubstSt.mk (s.html_buf.take s.np ++ [peek mem s.cl] ++
              s.html_buf.drop (s.np + [peek mem s.cl].length))
            s.nsize (s.np + 1) (s.nl + 1) (s.cl + 1), ?_, ?_, rfl⟩
  · have hb : subst_body iparams mem size s = .ok (SubstSt.mk
        (s.html_buf.take s.np ++ [peek mem s.cl] ++
              s.html_buf.drop (s.np + [peek mem s.cl].length))
        s.nsize (s.np + 1) (s.nl + 1) (s.cl + 1)) := by
      unfold subst_body
      unfold marker_at at hnm
      simp only [hnm, if_false, store_eq_some _ _ _ hfit]
    simp only [subst_loop, hcl, if_true, hb]
    have : s.nl + 1 ≤ s.nsize := by omega
    simp only [this, if_true]
  · refine ⟨?_, ?_, ?_, ?_, ?_⟩
    · simp [hnp]
    · simp [hnl]
    · have := stored_take s.html_buf s.np [peek mem s.cl] hfit
      simp only [List.length_singleton, List.length_append] at this ⊢
      rw [← hnp, this, hnp, htake]
    · rw [stored_length _ _ _ hfit]; exact hlen
    · simp only [List.length_append, List.length_singleton]
      omega

theorem subst_plain_run (iparams : List iparams_t) (mem : List Char) (size : Nat)
    (seg : List Char) :
    ∀ (f : Nat) (s : SubstSt) (out rest : List Char), SubstInv size s out →
      s.cl + seg.length ≤ size → mem.drop s.cl = seg ++ rest →
      (∀ j, j < seg.length → ¬marker_at (seg ++ rest) j) →
      ∃ s1, subst_loop iparams mem size (f + seg.length) s = subst_loop iparams mem size f s1 ∧
        SubstInv size s1 (out ++ seg) ∧ s1.cl = s.cl + seg.length := by
  induction seg with
  | nil =>
    intro f s out rest hinv _ _ _
    exact ⟨s, rfl, by simpa using hinv, rfl⟩
  | cons c seg ih =>
    intro f s out rest hinv hsz hdrop hnm
    simp only [List.length_cons] at hsz
    have hc : peek mem s.cl = c := by
      have := peek_drop mem s.cl 0
      simp only [Nat.add_zero] at this
      rw [this, hdrop]; rfl
    have hm0 : ¬marker_at mem s.cl := by
      have h0 := hnm 0 (by simp)
      unfold marker_at at h0 ⊢
      have e0 := peek_drop mem s.cl 0
      have e1 := peek_drop mem s.cl 1
      simp only [Nat.add_zero] at e0
      rw [e0, e1, hdrop]
      simpa using h0
    obtain ⟨s1, hs1, hinv1, hcl1⟩ :=
      subst_plain_step iparams mem size (f + seg.length) s out hinv (by omega) hm0
    rw [hc] at hinv1
    have hdrop1 : mem.drop s1.cl = seg ++ rest := by
      rw [hcl1, ← List.drop_drop, hdrop]; rfl
    have hnm1 : ∀ j, j < seg.length → ¬marker_at (seg ++ rest) j := by
      intro j hj
      have := hnm (j + 1) (by simp; omega)
      unfold marker_at at this ⊢
      simpa [peek] using this
    obtain ⟨s2, hs2, hinv2, hcl2⟩ := ih f s1 (out ++ [c]) rest hinv1 (by omega) hdrop1 hnm1
    refine ⟨s2, ?_, ?_, ?_⟩
    · rw [← hs2, ← hs1]
      simp only [List.length_cons]
      rfl
    · simpa using hinv2
    · rw [hcl2, hcl1, List.length_cons]; omega

theorem scan_ident_spec (mem : List Char) (size : Nat) (K : List Char) :
    ∀ (fuel cl pl : Nat) (b : List Char), mem.drop cl = K ++ ']' :: b → ']' ∉ K →
      cl + K.length < size → K.length ≤ fuel →
      scan_ident mem size fuel cl pl = (cl + K.length, pl + K.length) := by
  induction K with
  | nil =>
    intro fuel cl pl b hdrop _ _ _
    have hp : peek mem cl = ']' := by
      have := peek_drop mem cl 0
      simp only [Nat.add_zero] at this
      rw [this, hdrop]; rfl
    cases fuel <;> simp [scan_ident, hp]
  | cons c K ih =>
    intro fuel cl pl b hdrop hK hsz hf
    simp only [List.length_cons] at hsz hf
    have hp : peek mem cl = c := by
      have := peek_drop mem cl 0
      simp only [Nat.add_zero] at this
      rw [this, hdrop]; rfl
    have hc : c ≠ ']' := fun h => hK (h ▸ List.mem_cons_self _ _)
    have hK2 : ']' ∉ K := fun h => hK (List.mem_cons_of_mem _ h)
    cases fuel with
    | zero => omega
    | succ f =>
      have hdrop1 : mem.drop (cl + 1) = K ++ ']' :: b := by
        rw [← List.drop_drop, hdrop]; rfl
      have hcond : peek mem cl ≠ ']' ∧ cl < size := ⟨by rw [hp]; exact hc, by omega⟩
      rw [scan_ident, if_pos hcond]
      rw [ih f (cl + 1) (pl + 1) b hdrop1 hK2 (by omega) (by omega)]
      simp only [List.length_cons, Prod.mk.injEq]
      constructor <;> omega

theorem strncpy_prefix (K rest : List Char) (hK : NUL ∉ K) :
    strncpy (K ++ rest) K.length = K := by
  induction K with
  | nil => rfl
  | cons c K ih =>
    have hc : c ≠ NUL := fun h => hK (h ▸ List.mem_cons_self _ _)
    have hK2 : NUL ∉ K := fun h => hK (List.mem_cons_of_mem _ h)
    simp only [List.cons_append, List.length_cons, strncpy, List.headD_cons, hc, if_false,
      List.tail_cons, ih hK2]

theorem kiwi_realloc_length (buf : List Char) (n : Nat) : (kiwi_realloc buf n).length = n := by
  simp only [kiwi_realloc, List.length_take, List.length_append, List.length_replicate]
  omega

theorem kiwi_realloc_take (buf : List Char) (n k : Nat) (hk : k ≤ buf.length) (hn : k ≤ n) :
    (kiwi_realloc buf n).take k = buf.take k := by
  simp only [kiwi_realloc, List.take_take, Nat.min_eq_left hn]
  exact List.take_append_of_le_length hk

theorem subst_found_step (iparams : List iparams_t) (mem : List Char) (size f : Nat)
    (s : SubstSt) (out K b : List Char) (ip : iparams_t) (hinv : SubstInv size s out)
    (hdrop : mem.drop s.cl = '%' :: '[' :: (K ++ ']' :: b)) (hK : ']' ∉ K)
    (hsz : s.cl + K.length + 3 ≤ size)
    (hfind : iparams_find iparams (K ++ ']' :: b) K.length = some ip) :
    ∃ s1, subst_loop iparams mem size (f + 1) s = subst_loop iparams mem size f s1 ∧
      SubstInv size s1 (out ++ ip.val) ∧ s1.cl = s.cl + K.length + 3 := by
  obtain ⟨hnp, hnl, htake, hlen, hroom⟩ := hinv
  have hm : peek mem s.cl = '%' ∧ peek mem (s.cl + 1) = '[' := by
    have e0 := peek_drop mem s.cl 0
    have e1 := peek_drop mem s.cl 1
    simp only [Nat.add_zero] at e0
    rw [e0, e1, hdrop]
    exact ⟨rfl, rfl⟩
  have hdrop2 : mem.drop (s.cl + 2) = K ++ ']' :: b := by
    rw [← List.drop_drop, hdrop]; rfl
  have hscan := scan_ident_spec mem size K (size - (s.cl + 2)) (s.cl + 2) 0 b hdrop2 hK
    (by omega) (by omega)
  have hfit : s.nl + (ip.val ++ [NUL]).length ≤
      (kiwi_realloc s.html_buf (s.nsize + ip.val.length)).length := by
    rw [kiwi_realloc_length]
    simp only [List.length_append, List.length_singleton]
    omega
  refine ⟨SubstSt.mk
      ((kiwi_realloc s.html_buf (s.nsize + ip.val.length)).take s.nl ++ (ip.val ++ [NUL]) ++
        (kiwi_realloc s.html_buf (s.nsize + ip.val.length)).drop
          (s.nl + (ip.val ++ [NUL]).length))
      (s.nsize + ip.val.length) (s.nl + ip.val.length) (s.nl + ip.val.length)
      (s.cl + 2 + K.length + 1), ?_, ?_, by simp only []; omega⟩
  · have hb : subst_body iparams mem size s = .ok (SubstSt.mk
        ((kiwi_realloc s.html_buf (s.nsize + ip.val.length)).take s.nl ++ (ip.val ++ [NUL]) ++
          (kiwi_realloc s.html_buf (s.nsize + ip.val.length)).drop
            (s.nl + (ip.val ++ [NUL]).length))
        (s.nsize + ip.val.length) (s.nl + ip.val.length) (s.nl + ip.val.length)
        (s.cl + 2 + K.length + 1)) := by
      unfold subst_body
      simp only [hm, and_self, if_true, hscan, hdrop2, Nat.zero_add, hfind,
        store_eq_some _ _ _ hfit]
    have hcl : s.cl < size := by omega
    simp only [subst_loop, hcl, if_true, hb]
    have : s.nl + ip.val.length ≤ s.nsize + ip.val.length := by omega
    simp only [this, if_true]
  · refine ⟨?_, ?_, ?_, ?_, ?_⟩
    · simp [hnl]
    · simp [hnl]
    · have h1 := stored_take (kiwi_realloc s.html_buf (s.nsize + ip.val.length)) s.nl
        (ip.val ++ [NUL]) hfit
      have h2 : (kiwi_realloc s.html_buf (s.nsize + ip.val.length)).take s.nl = out := by
        rw [kiwi_realloc_take _ _ _ (by omega) (by omega), hnl, htake]
      simp only [h2]
      have h3 : ∀ X : List Char,
          out ++ (ip.val ++ [NUL]) ++ X = (out ++ ip.val) ++ ([NUL] ++ X) := by
        intro X; simp
      rw [h3]
      exact List.take_left' rfl
    · rw [stored_length _ _ _ hfit, kiwi_realloc_length]
    · simp only [List.length_append]
      omega

theorem stored_take_le (buf : List Char) (off k : Nat) (bytes : List Char)
    (h : off + bytes.length ≤ buf.length) (hk : k ≤ off) :
    (buf.take off ++ bytes ++ buf.drop (off + bytes.length)).take k = buf.take k := by
  rw [List.append_assoc, List.take_append_of_le_length (by simp; omega), List.take_take,
    Nat.min_eq_left hk]

theorem strncpy_length (src : List Char) (n : Nat) : (strncpy src n).length = n := by
  induction n generalizing src with
  | zero => rfl
  | succ n ih =>
    simp only [strncpy]
    split_ifs
    · simp
    · simp [ih]

theorem subst_unknown_step (iparams : List iparams_t) (mem : List Char) (size f : Nat)
    (s : SubstSt) (out K b : List Char) (hinv : SubstInv size s out)
    (hdrop : mem.drop s.cl = '%' :: '[' :: (K ++ ']' :: b)) (hK : ']' ∉ K)
    (hsz : s.cl + K.length + 3 ≤ size)
    (hfind : iparams_find iparams (K ++ ']' :: b) K.length = none) :
    ∃ s1, subst_loop iparams mem size (f + 1) s = subst_loop iparams mem size f s1 ∧
      SubstInv size s1 (out ++ '%' :: '[' :: (strncpy (K ++ ']' :: b) K.length ++ [']'])) ∧
      s1.cl = s.cl + K.length + 3 := by
  obtain ⟨hnp, hnl, htake, hlen, hroom⟩ := hinv
  have hm : peek mem s.cl = '%' ∧ peek mem (s.cl + 1) = '[' := by
    have e0 := peek_drop mem s.cl 0
    have e1 := peek_drop mem s.cl 1
    simp only [Nat.add_zero] at e0
    rw [e0, e1, hdrop]
    exact ⟨rfl, rfl⟩
  have hdrop2 : mem.drop (s.cl + 2) = K ++ ']' :: b := by
    rw [← List.drop_drop, hdrop]; rfl
  have hscan := scan_ident_spec mem size K (size - (s.cl + 2)) (s.cl + 2) 0 b hdrop2 hK
    (by omega) (by omega)
  generalize hW : strncpy (K ++ ']' :: b) K.length = W
  have hWl : W.length = K.length := by rw [← hW, strncpy_length]
  -- the three stores
  have hfit1 : s.np + ['%', '[', NUL].length ≤ s.html_buf.length := by
    simp only [List.length_cons, List.length_nil]; omega
  generalize hb1 : s.html_buf.take s.np ++ ['%', '[', NUL] ++
      s.html_buf.drop (s.np + ['%', '[', NUL].length) = b1
  have hl1 : b1.length = s.html_buf.length := by rw [← hb1]; exact stored_length _ _ _ hfit1
  have ht1 : b1.take (s.np + 2) = out ++ ['%', '['] := by
    have h := stored_take s.html_buf s.np ['%', '[', NUL] hfit1
    rw [hb1] at h
    have h2 : b1.take (s.np + 2) = (b1.take (s.np + ['%', '[', NUL].length)).take (s.np + 2) := by
      rw [List.take_take]; congr 1; simp
    rw [h2, h, hnp, htake]
    have h3 : ∀ X : List Char, out ++ ['%', '[', NUL] = (out ++ ['%', '[']) ++ [NUL] := by
      intro _; simp
    rw [h3 []]
    exact List.take_left' (by simp)
  have hfit2 : s.np + 2 + W.length ≤ b1.length := by rw [hl1, hWl]; omega
  generalize hb2 : b1.take (s.np + 2) ++ W ++ b1.drop (s.np + 2 + W.length) = b2
  have hl2 : b2.length = b1.length := by rw [← hb2]; exact stored_length _ _ _ hfit2
  have ht2 : b2.take (s.np + 2 + K.length) = out ++ ['%', '['] ++ W := by
    have h := stored_take b1 (s.np + 2) W hfit2
    rw [hb2, hWl, ht1] at h
    exact h
  have hfit3 : s.np + 2 + K.length + [']'].length ≤ b2.length := by
    rw [hl2, hl1]; simp only [List.length_singleton]; omega
  generalize hb3 : b2.take (s.np + 2 + K.length) ++ [']'] ++
      b2.drop (s.np + 2 + K.length + [']'].length) = b3
  have hl3 : b3.length = b2.length := by rw [← hb3]; exact stored_length _ _ _ hfit3
  have ht3 : b3.take (s.np + 2 + K.length + 1) = out ++ ['%', '['] ++ W ++ [']'] := by
    have h := stored_take b2 (s.np + 2 + K.length) [']'] hfit3
    rw [hb3, ht2] at h
    exact h
  refine ⟨SubstSt.mk b3 s.nsize (s.np + 2 + K.length + 1) (s.nl + (K.length + 3))
      (s.cl + 2 + K.length + 1), ?_, ?_, by simp only []; omega⟩
  · have hb : subst_body iparams mem size s = .ok (SubstSt.mk b3 s.nsize
        (s.np + 2 + K.length + 1) (s.nl + (K.length + 3)) (s.cl + 2 + K.length + 1)) := by
      unfold subst_body
      simp only [hm, and_self, if_true, hscan, hdrop2, Nat.zero_add, hfind,
        store_eq_some _ _ _ hfit1, hb1, hW]
      have e2 : store b1 (s.np + 2) W = some b2 := by
        rw [store_eq_some _ _ _ hfit2, hb2]
      simp only [e2]
      have e3 : store b2 (s.np + 2 + K.length) [']'] = some b3 := by
        rw [store_eq_some _ _ _ hfit3, hb3]
      simp only [e3]
    have hcl : s.cl < size := by omega
    simp only [subst_loop, hcl, if_true, hb]
    have : s.nl + (K.length + 3) ≤ s.nsize := by omega
    simp only [this, if_true]
  · refine ⟨?_, ?_, ?_, ?_, ?_⟩
    · simp [hnp, hWl]; omega
    · simp [hnl, hWl]
    · have e : (out ++ '%' :: '[' :: (W ++ [']'])).length = s.np + 2 + K.length + 1 := by
        simp [hnp, hWl]; omega
      rw [e]
      simp only []
      rw [ht3]
      simp
    · simp only []
      rw [hl3, hl2, hl1, hlen]
    · simp only [List.length_append, List.length_cons, List.length_nil, hWl]
      omega

theorem strncmp_append_left (K r id : List Char) :
    strncmp (K ++ r) id K.length = strncmp K id K.length := by
  induction K generalizing id with
  | nil => rfl
  | cons c K ih =>
    simp only [List.cons_append, List.length_cons, strncmp, List.headD_cons, List.tail_cons, ih]

theorem iparams_find_append_left (iparams : List iparams_t) (K r : List Char) :
    iparams_find iparams (K ++ r) K.length = iparams_find iparams K K.length := by
  simp only [iparams_find, strncmp_append_left]

theorem strncpy_append_left (K r : List Char) :
    strncpy (K ++ r) K.length = strncpy K K.length := by
  induction K with
  | nil => rfl
  | cons c K ih =>
    simp only [List.cons_append, List.length_cons, strncpy, List.headD_cons, List.tail_cons, ih]

theorem pieces_steps_le (ps : List Piece) : pieces_steps ps ≤ (pieces_src ps).length := by
  induction ps with
  | nil => simp [pieces_steps, pieces_src]
  | cons p ps ih =>
    cases p <;> simp [pieces_steps, pieces_src, Piece.src] <;> omega

theorem subst_pieces_run (iparams : List iparams_t) (mem : List Char) (size : Nat)
    (ps : List Piece) :
    ∀ (f : Nat) (s : SubstSt) (out junk : List Char), SubstInv size s out →
      mem.drop s.cl = pieces_src ps ++ junk → s.cl + (pieces_src ps).length ≤ size →
      pieces_wf ps junk →
      ∃ s1, subst_loop iparams mem size (f + pieces_steps ps) s =
          subst_loop iparams mem size f s1 ∧
        SubstInv size s1 (out ++ pieces_out iparams ps) ∧
        s1.cl = s.cl + (pieces_src ps).length := by
  induction ps with
  | nil =>
    intro f s out junk hinv _ _ _
    exact ⟨s, rfl, by simpa [pieces_out] using hinv, rfl⟩
  | cons p ps ih =>
    intro f s out junk hinv hdrop hsz hwf
    cases p with
    | plain seg =>
      simp only [pieces_src, Piece.src, List.length_append, pieces_steps] at hdrop hsz ⊢
      obtain ⟨hnm, hwf2⟩ := hwf
      rw [List.append_assoc] at hdrop
      obtain ⟨s1, h1, hinv1, hcl1⟩ := subst_plain_run iparams mem size seg
        (f + pieces_steps ps) s out (pieces_src ps ++ junk) hinv (by omega) hdrop hnm
      have hdrop1 : mem.drop s1.cl = pieces_src ps ++ junk := by
        rw [hcl1, ← List.drop_drop, hdrop, List.drop_left]
      obtain ⟨s2, h2, hinv2, hcl2⟩ := ih f s1 (out ++ seg) junk hinv1 hdrop1 (by omega) hwf2
      refine ⟨s2, ?_, ?_, by omega⟩
      · rw [← h2, ← h1]
        congr 1
        omega
      · simpa [pieces_out, Piece.out] using hinv2
    | marker K =>
      simp only [pieces_src, Piece.src, List.length_append, List.length_cons,
        List.length_nil, pieces_steps] at hdrop hsz ⊢
      obtain ⟨hK, hwf2⟩ := hwf
      have hdropm : mem.drop s.cl = '%' :: '[' :: (K ++ ']' :: (pieces_src ps ++ junk)) := by
        rw [hdrop]; simp
      have hdrop1 : ∀ s1 : SubstSt, s1.cl = s.cl + K.length + 3 →
          mem.drop s1.cl = pieces_src ps ++ junk := by
        intro s1 h
        have e : s.cl + K.length + 3 = s.cl + (2 + (K.length + 1)) := by omega
        rw [h, e, ← List.drop_drop, hdropm, ← List.drop_drop]
        simp only [List.drop_succ_cons, List.drop_zero]
        have e2 : K ++ ']' :: (pieces_src ps ++ junk) = (K ++ [']']) ++ (pieces_src ps ++ junk) := by
          simp
        rw [e2]
        exact List.drop_left' (by simp)
      have hfuel : f + (1 + pieces_steps ps) = (f + pieces_steps ps) + 1 := by omega
      cases hfind : iparams_find iparams K K.length with
      | some ip =>
        have hfind2 : iparams_find iparams (K ++ ']' :: (pieces_src ps ++ junk)) K.length =
            some ip := by rw [iparams_find_append_left, hfind]
        obtain ⟨s1, h1, hinv1, hcl1⟩ := subst_found_step iparams mem size
          (f + pieces_steps ps) s out K (pieces_src ps ++ junk) ip hinv
          hdropm hK (by omega) hfind2
        obtain ⟨s2, h2, hinv2, hcl2⟩ := ih f s1 (out ++ ip.val) junk hinv1
          (hdrop1 s1 hcl1) (by omega) hwf2
        refine ⟨s2, ?_, ?_, by omega⟩
        · rw [hfuel, h1, h2]
        · simpa [pieces_out, Piece.out, hfind] using hinv2
      | none =>
        have hfind2 : iparams_find iparams (K ++ ']' :: (pieces_src ps ++ junk)) K.length =
            none := by rw [iparams_find_append_left, hfind]
        obtain ⟨s1, h1, hinv1, hcl1⟩ := subst_unknown_step iparams mem size
          (f + pieces_steps ps) s out K (pieces_src ps ++ junk) hinv
          hdropm hK (by omega) hfind2
        rw [strncpy_append_left] at hinv1
        obtain ⟨s2, h2, hinv2, hcl2⟩ := ih f s1 _ junk hinv1
          (hdrop1 s1 hcl1) (by omega) hwf2
        refine ⟨s2, ?_, ?_, by omega⟩
        · rw [hfuel, h1, h2]
        · simpa [pieces_out, Piece.out, hfind] using hinv2

/-- The substitution pass on content made of well-formed pieces: for every
parameter table and whatever memory follows the content, the pass ends
without a failed assertion or stray store, and the output is, piece by piece,
the plain runs unchanged and for each marker the value of the first entry that
`strncmp(pp, ip->id, pl)` accepts, or the marker put back when there is
none. -/
theorem substitute_pieces (iparams : List iparams_t) (ps : List Piece) (junk : List Char)
    (hwf : pieces_wf ps junk) :
    substitute_output iparams (pieces_src ps ++ junk) (pieces_src ps).length =
      .ok (pieces_out iparams ps) := by
  have hinv0 : SubstInv (pieces_src ps).length
      (SubstSt.mk (kiwi_malloc (pieces_src ps).length) (pieces_src ps).length 0 0 0) [] := by
    refine ⟨rfl, rfl, rfl, ?_, ?_⟩
    · simp [kiwi_malloc]
    · simp
  obtain ⟨s1, h1, hinv1, hcl1⟩ := subst_pieces_run iparams (pieces_src ps ++ junk)
    (pieces_src ps).length ps ((pieces_src ps).length - pieces_steps ps) _ [] junk hinv0
    (by simp) (by simp) hwf
  have hfuel : (pieces_src ps).length - pieces_steps ps + pieces_steps ps =
      (pieces_src ps).length := Nat.sub_add_cancel (pieces_steps_le ps)
  rw [hfuel] at h1
  have hdone := subst_loop_done iparams (pieces_src ps ++ junk) (pieces_src ps).length
    ((pieces_src ps).length - pieces_steps ps) s1 (by rw [hcl1]; simp)
  obtain ⟨hnp, hnl, htake, hlen, hroom⟩ := hinv1
  simp only [List.nil_append] at hnp hnl htake hroom
  unfold substitute_output substitute
  simp only [h1, hdone, hnp, hnl, if_true]
  simp only [mem_read]
  rw [htake]
  have : (pieces_out iparams ps).length - s1.html_buf.length = 0 := by omega
  rw [this]
  simp

theorem strncmp_comm_zero (a b : List Char) (n : Nat) :
    strncmp a b n = 0 ↔ strncmp b a n = 0 := by
  induction n generalizing a b with
  | zero => simp [strncmp]
  | succ n ih =>
    simp only [strncmp]
    by_cases h : a.headD NUL = b.headD NUL
    · rw [if_neg (not_not.mpr h), if_neg (not_not.mpr h.symm)]
      by_cases h0 : a.headD NUL = NUL
      · rw [if_pos h0, if_pos (h.symm.trans h0)]
      · rw [if_neg h0, if_neg (fun e => h0 (h.trans e))]
        exact ih a.tail b.tail
    · rw [if_pos h, if_pos (fun e => h e.symm)]
      constructor <;> intro hh <;> split_ifs at hh <;> omega

theorem iparams_find_eq_find_prefix (iparams : List iparams_t) (K : List Char) (hK : NUL ∉ K) :
    iparams_find iparams K K.length = iparams.find? (fun ip => K.isPrefixOf ip.id) := by
  unfold iparams_find
  congr 1
  funext ip
  have h1 := strncmp_comm_zero K ip.id K.length
  have h2 := strncmp_zero_iff_prefix K (fun c hc h => hK (h ▸ hc)) ip.id
  have h3 : (∃ r, ip.id = K ++ r) ↔ K.isPrefixOf ip.id = true := by
    rw [List.isPrefixOf_iff_prefix]
    constructor
    · rintro ⟨r, hr⟩; exact ⟨r, hr.symm⟩
    · rintro ⟨r, hr⟩; exact ⟨r, hr.symm⟩
  rw [Bool.eq_iff_iff, decide_eq_true_iff, h1, h2, h3]

theorem no_marker_of_not_infix (seg rest : List Char) (h : ¬(['%', '['] <:+: seg))
    (hr : ¬(seg.getLast? = some '%' ∧ rest.head? = some '[')) :
    ∀ j, j < seg.length → ¬marker_at (seg ++ rest) j := by
  induction seg with
  | nil => intro j hj; simp at hj
  | cons c seg ih =>
    intro j hj
    cases j with
    | zero =>
      rintro ⟨h0, h1⟩
      simp only [peek, List.cons_append, List.getD_cons_zero, Nat.zero_add,
        List.getD_cons_succ] at h0 h1
      subst h0
      cases seg with
      | nil =>
        apply hr
        refine ⟨rfl, ?_⟩
        cases rest with
        | nil => simp [NUL] at h1
        | cons r rest => simp at h1; simp [h1]
      | cons d seg =>
        simp only [List.cons_append, List.getD_cons_zero] at h1
        subst h1
        exact h ⟨[], seg, rfl⟩
    | succ j =>
      have h2 : ¬(['%', '['] <:+: seg) := by
        rintro ⟨a, b, hab⟩
        exact h ⟨c :: a, b, by simp [← hab]⟩
      have hr2 : ¬(seg.getLast? = some '%' ∧ rest.head? = some '[') := by
        rintro ⟨h3, h4⟩
        apply hr
        refine ⟨?_, h4⟩
        cases seg with
        | nil => simp at h3
        | cons d seg => simpa [List.getLast?_cons_cons] using h3
      have := ih h2 hr2 j (by simpa using hj)
      intro hm
      apply this
      unfold marker_at at hm ⊢
      simpa [peek] using hm

/-- The substitution pass on content with one terminated marker: for every
table, every content `pre ++ "%[" ++ K ++ "]" ++ post` in which `pre` and
`post` contain no `%[` and `K` contains neither `]` nor NUL, and whatever
memory `junk` follows the content (unless `post` ends in `%` and the byte
after the content is `[`), the output is `pre`, then the value of the first
table entry whose key *starts with* `K`, then `post`; when no key starts with
`K` the content is output unchanged. -/
theorem substitute_one_marker (iparams : List iparams_t) (pre K post junk : List Char)
    (hK : ']' ∉ K) (hK0 : NUL ∉ K) (hpre : ¬(['%', '['] <:+: pre))
    (hpost : ¬(['%', '['] <:+: post))
    (hjunk : ¬(post.getLast? = some '%' ∧ junk.head? = some '[')) :
    substitute_output iparams (pre ++ '%' :: '[' :: (K ++ ']' :: post) ++ junk)
        (pre.length + K.length + 3 + post.length) =
      .ok (pre ++ (match iparams.find? (fun ip => K.isPrefixOf ip.id) with
                    | some ip => ip.val
                    | none => '%' :: '[' :: (K ++ [']'])) ++ post) := by
  have hwf : pieces_wf [Piece.plain pre, Piece.marker K, Piece.plain post] junk := by
    refine ⟨?_, hK, ?_, trivial⟩
    · apply no_marker_of_not_infix pre _ hpre
      rintro ⟨_, h2⟩
      simp [pieces_src, Piece.src] at h2
    · simpa [pieces_src] using no_marker_of_not_infix post junk hpost hjunk
  have h := substitute_pieces iparams [Piece.plain pre, Piece.marker K, Piece.plain post] junk hwf
  simp only [pieces_src, pieces_out, Piece.src, Piece.out,
    iparams_find_eq_find_prefix iparams K hK0] at h
  have e : strncpy K K.length = K := by
    have := strncpy_prefix K [] hK0
    simpa using this
  rw [e] at h
  have e1 : pre ++ '%' :: '[' :: (K ++ ']' :: post) ++ junk =
      pre ++ ('%' :: '[' :: (K ++ [']']) ++ (post ++ [])) ++ junk := by simp
  have e2 : pre.length + K.length + 3 + post.length =
      (pre ++ ('%' :: '[' :: (K ++ [']']) ++ (post ++ []))).length := by
    simp only [List.length_append, List.length_cons, List.length_nil]
    omega
  rw [e1, e2, h]
  simp

theorem scan_ident_ge (mem : List Char) (size : Nat) :
    ∀ (fuel cl pl : Nat), cl ≤ (scan_ident mem size fuel cl pl).1 := by
  intro fuel
  induction fuel with
  | zero => intro cl pl; simp [scan_ident]
  | succ f ih =>
    intro cl pl
    simp only [scan_ident]
    split_ifs
    · exact Nat.le_trans (Nat.le_succ cl) (ih (cl + 1) (pl + 1))
    · exact Nat.le_refl cl

theorem subst_body_advances (iparams : List iparams_t) (mem : List Char) (size : Nat)
    (s s1 : SubstSt) (h : subst_body iparams mem size s = .ok s1) : s.cl < s1.cl := by
  have hge := scan_ident_ge mem size (size - (s.cl + 2)) (s.cl + 2) 0
  unfold subst_body at h
  simp only [] at h
  split_ifs at h
  · split at h
    · split at h
      · simp at h
      · simp only [Except.ok.injEq] at h
        rw [← h]
        simp only []
        omega
    · split at h
      · simp at h
      · split at h
        · simp at h
        · split at h
          · simp at h
          · simp only [Except.ok.injEq] at h
            rw [← h]
            simp only []
            omega
  · split at h
    · simp at h
    · simp only [Except.ok.injEq] at h
      rw [← h]
      simp only []
      omega

theorem subst_body_fault (iparams : List iparams_t) (mem : List Char) (size : Nat)
    (s : SubstSt) (f : Fault) (h : subst_body iparams mem size s = .error f) :
    f = Fault.heap_overflow := by
  unfold subst_body at h
  simp only [] at h
  split_ifs at h
  · split at h
    · split at h
      · simp only [Except.error.injEq] at h; exact h.symm
      · simp at h
    · split at h
      · simp only [Except.error.injEq] at h; exact h.symm
      · split at h
        · simp only [Except.error.injEq] at h; exact h.symm
        · split at h
          · simp only [Except.error.injEq] at h; exact h.symm
          · simp at h
  · split at h
    · simp only [Except.error.injEq] at h; exact h.symm
    · simp at h

theorem subst_loop_fuel (iparams : List iparams_t) (mem : List Char) (size : Nat) :
    ∀ (fuel : Nat) (s : SubstSt), size - s.cl ≤ fuel →
      subst_loop iparams mem size fuel s ≠ .error Fault.fuel := by
  intro fuel
  induction fuel with
  | zero =>
    intro s hs
    have : ¬s.cl < size := by omega
    simp [subst_loop, this]
  | succ f ih =>
    intro s hs
    simp only [subst_loop]
    split_ifs with hcl
    · cases hb : subst_body iparams mem size s with
      | error e =>
        simp only []
        have := subst_body_fault iparams mem size s e hb
        rw [this]
        simp
      | ok s1 =>
        simp only []
        have hadv := subst_body_advances iparams mem size s s1 hb
        split_ifs
        · exact ih s1 (by omega)
        · simp
    · simp

/-- The loop fuel of the model is always enough: for every table, memory and
size the substitution pass ends with a result, a failed assertion of the
source (line 580 or 584) or a store outside `html_buf`, never for lack of
fuel. -/
theorem substitute_never_out_of_fuel (iparams : List iparams_t) (mem : List Char) (size : Nat) :
    substitute iparams mem size ≠ .error Fault.fuel := by
  unfold substitute
  simp only []
  have h := subst_loop_fuel iparams mem size size
    (SubstSt.mk (kiwi_malloc size) size 0 0 0) (by simp)
  cases hl : subst_loop iparams mem size size (SubstSt.mk (kiwi_malloc size) size 0 0 0) with
  | error e =>
    simp only []
    intro he
    apply h
    rw [hl, Except.error.inj he]
  | ok s =>
    simp only []
    split_ifs <;> simp

theorem pieces_out_of_unknown (iparams : List iparams_t) (ps : List Piece)
    (h : ∀ K, Piece.marker K ∈ ps →
      NUL ∉ K ∧ iparams.find? (fun ip => K.isPrefixOf ip.id) = none) :
    pieces_out iparams ps = pieces_src ps := by
  induction ps with
  | nil => rfl
  | cons p ps ih =>
    have ih2 := ih (fun K hK => h K (List.mem_cons_of_mem _ hK))
    cases p with
    | plain seg => simp [pieces_out, pieces_src, Piece.out, Piece.src, ih2]
    | marker K =>
      obtain ⟨h0, hf⟩ := h K (List.mem_cons_self _ _)
      have e : strncpy K K.length = K := by
        have := strncpy_prefix K [] h0
        simpa using this
      simp only [pieces_out, pieces_src, Piece.out, Piece.src, ih2,
        iparams_find_eq_find_prefix iparams K h0, hf, e]

/-- The substitution pass on content whose markers are all terminated and
unknown in the sense of the code: when no table key starts with the identifier
of any marker (identifiers without `]` and NUL), the content is output
unchanged, with unchanged length, whatever memory follows it. -/
theorem substitute_unknown_markers (iparams : List iparams_t) (ps : List Piece)
    (junk : List Char) (hwf : pieces_wf ps junk)
    (h : ∀ K, Piece.marker K ∈ ps →
      NUL ∉ K ∧ iparams.find? (fun ip => K.isPrefixOf ip.id) = none) :
    substitute_output iparams (pieces_src ps ++ junk) (pieces_src ps).length =
      .ok (pieces_src ps) := by
  rw [substitute_pieces iparams ps junk hwf, pieces_out_of_unknown iparams ps h]

/-- C1, the code at the failing input: with the table
`SAMPLE_RATE = 12000, SAMPLE = 42` (unique keys) the content
`rate=%[SAMPLE]x` becomes `rate=12000x`, not `rate=42x`: the search of lines
554-567 compares only the first `pl` bytes (`strncmp(pp, ip->id, pl)`), so the
earlier key `SAMPLE_RATE` matches the identifier `SAMPLE`.  The same holds for
the whole request for `/index.html`; with the table `SAMPLE = 42` alone the
output is `rate=42x`. -/
theorem substitute_takes_first_key_with_prefix :
    substitute_output
        [{ id := "SAMPLE_RATE".toList, val := "12000".toList },
         { id := "SAMPLE".toList, val := "42".toList }]
        "rate=%[SAMPLE]x".toList 15 = .ok "rate=12000x".toList ∧
    response_body (request
        (env_html "rate=%[SAMPLE]x".toList
          [{ id := "SAMPLE_RATE".toList, val := "12000".toList },
           { id := "SAMPLE".toList, val := "42".toList }])
        none (http_get "/".toList) mg_event.MG_REQUEST).trace = "rate=12000x".toList ∧
    substitute_output [{ id := "SAMPLE".toList, val := "42".toList }]
        "rate=%[SAMPLE]x".toList 15 = .ok "rate=42x".toList := by
  decide

/-- C2, the code at the failing input: with the table `SAMPLE = 42` the
identifier `SAM` is not a key, yet the marker of `rate=%[SAM]x` is replaced
(`rate=42x`), and so is the empty marker of `a%[]b`, because the search
compares only the first `pl` bytes of each key; and the unterminated unknown
marker of `rate=%[MISSING` is not reproduced either: the "put back" branch
stores a `]` past the end of `html_buf`.  The terminated unknown marker of
`rate=%[MISSING]x` is reproduced unchanged. -/
theorem substitute_replaces_unknown_identifier :
    substitute_output [{ id := "SAMPLE".toList, val := "42".toList }]
        "rate=%[SAM]x".toList 12 = .ok "rate=42x".toList ∧
    substitute_output [{ id := "SAMPLE".toList, val := "42".toList }]
        "a%[]b".toList 5 = .ok "a42b".toList ∧
    substitute_output [{ id := "SAMPLE".toList, val := "42".toList }]
        "rate=%[MISSING".toList 14 = .error Fault.heap_overflow ∧
    substitute_output [{ id := "SAMPLE".toList, val := "42".toList }]
        "rate=%[MISSING]x".toList 16 = .ok "rate=%[MISSING]x".toList := by
  decide

/-! ### Connections flagged `stop_data` (C11) -/

/-- The loop of `iterate_callback` ends at once on a connection flagged
`stop_data`. -/
theorem iterate_loop_stop_data (write : Nat → List Char → Int) (fuel : Nat) (c : conn_t)
    (k : Nat) (tr : List WsEvent) (hstop : c.stop_data = true) :
    iterate_loop write (fuel + 1) c k tr =
      { rtn := .ok mg_result.MG_TRUE, trace := tr, conn := some c } := by
  simp [iterate_loop, hstop]

/-- C11 (amended): on a connection flagged `stop_data` the four data-path
operations leave both queues as they are.  `web_to_app` returns 0 and neither
dequeues nor writes `*nbp`; `app_to_web` returns the connection unchanged; a
websocket frame handed to `request` is not enqueued, and `request` returns
`MG_FALSE` when the frame has a payload and `MG_TRUE` when it is empty (the
keep-alive test of line 356 comes before the connection is looked up);
`iterate_callback`, for every event, writes nothing, leaves the connection
unchanged and returns `MG_TRUE`. -/
theorem stop_data_leaves_queues_unchanged (env : Env) (write : Nat → List Char → Int)
    (c : conn_t) (mc : mg_connection) (ev : mg_event) (nbp : Option Nat) (s : List Char)
    (sl : Nat) (hstop : c.stop_data = true) (hws : mc.is_websocket = true) :
    web_to_app c nbp = .ok (0, nbp, c) ∧
    app_to_web c s sl = c ∧
    (request env (some c) mc ev).conn = some c ∧
    (request env (some c) mc ev).rtn =
      .ok (if mc.content = [] then mg_result.MG_TRUE else mg_result.MG_FALSE) ∧
    (iterate_callback write (some c) mc ev).conn = some c ∧
    ws_writes (iterate_callback write (some c) mc ev).trace = [] ∧
    (iterate_callback write (some c) mc ev).rtn = .ok mg_result.MG_TRUE := by
  refine ⟨by simp [web_to_app, hstop], by simp [app_to_web, hstop], ?_, ?_, ?_, ?_, ?_⟩
  · by_cases h0 : mc.content = [] <;> simp [request, hws, hstop, h0]
  · by_cases h0 : mc.content = [] <;> simp [request, hws, hstop, h0]
  · by_cases hev : ev = mg_event.MG_POLL
    · simp [iterate_callback, hev, hws, iterate_loop_stop_data, hstop]
    · simp [iterate_callback, hev]
  · by_cases hev : ev = mg_event.MG_POLL
    · simp [iterate_callback, hev, hws, iterate_loop_stop_data, hstop, ws_writes]
    · simp [iterate_callback, hev, ws_writes]
  · by_cases hev : ev = mg_event.MG_POLL
    · simp [iterate_callback, hev, hws, iterate_loop_stop_data, hstop]
    · simp [iterate_callback, hev]

/-- C11, the amended statement at the connection `conn_stopped` (one frame
waiting in each queue) and a websocket frame with payload `SET mute=1`. -/
theorem stop_data_leaves_queues_unchanged_witness :
    conn_stopped.stop_data = true ∧ (ws_frame "SET mute=1".toList).is_websocket = true ∧
    web_to_app conn_stopped none = .ok (0, none, conn_stopped) ∧
    app_to_web conn_stopped "AUD".toList 3 = conn_stopped ∧
    (request env_cfg (some conn_stopped) (ws_frame "SET mute=1".toList)
      mg_event.MG_REQUEST).conn = some conn_stopped ∧
    (request env_cfg (some conn_stopped) (ws_frame "SET mute=1".toList)
      mg_event.MG_REQUEST).rtn =
      .ok (if (ws_frame "SET mute=1".toList).content = [] then mg_result.MG_TRUE
           else mg_result.MG_FALSE) ∧
    (iterate_callback write_fails_once (some conn_stopped) (ws_frame "SET mute=1".toList)
      mg_event.MG_REQUEST).conn = some conn_stopped ∧
    ws_writes (iterate_callback write_fails_once (some conn_stopped)
      (ws_frame "SET mute=1".toList) mg_event.MG_REQUEST).trace = [] ∧
    (iterate_callback write_fails_once (some conn_stopped) (ws_frame "SET mute=1".toList)
      mg_event.MG_REQUEST).rtn = .ok mg_result.MG_TRUE :=
  ⟨by decide, by decide,
   stop_data_leaves_queues_unchanged env_cfg write_fails_once conn_stopped
     (ws_frame "SET mute=1".toList) mg_event.MG_REQUEST none "AUD".toList 3
     (by decide) (by decide)⟩

/-- C11 as stated fails: an empty websocket frame arriving on the connection
`conn_stopped`, which is flagged `stop_data`, is answered `MG_TRUE`, not
`MG_FALSE`; nothing is enqueued. -/
theorem empty_frame_on_stopped_connection_returns_true :
    conn_stopped.stop_data = true ∧
    (ws_frame []).is_websocket = true ∧
    (request env_cfg (some conn_stopped) (ws_frame []) mg_event.MG_REQUEST).rtn =
      .ok mg_result.MG_TRUE ∧
    (request env_cfg (some conn_stopped) (ws_frame []) mg_event.MG_REQUEST).rtn ≠
      .ok mg_result.MG_FALSE ∧
    (request env_cfg (some conn_stopped) (ws_frame []) mg_event.MG_REQUEST).conn =
      some conn_stopped := by
  decide

/-! ### Draining the outbound queue (C12) -/

/-- Storing into slot `i` leaves what follows slot `i` as it was. -/
theorem drop_succ_set {α : Type} (l : List α) (i : Nat) (x : α) :
    (l.set i x).drop (i + 1) = l.drop (i + 1) := by
  simp [List.drop_set]

/-- Storing into slot `i` changes the first `i + 1` slots in the last one only. -/
theorem take_succ_set {α : Type} (l : List α) (i : Nat) (x : α) (h : i < l.length) :
    (l.set i x).take (i + 1) = l.take i ++ [x] := by
  rw [List.set_eq_take_append_cons_drop, if_pos h, List.take_append_eq_append_take]
  have h1 : (List.take i l).length = i := by simp; omega
  simp [h1]

/-- The payloads written by a trace followed by another. -/
theorem ws_writes_append (a b : List WsEvent) :
    ws_writes (a ++ b) = ws_writes a ++ ws_writes b := by
  induction a with
  | nil => rfl
  | cons e t ih => cases e <;> simp [ws_writes, ih]

/-- One iteration of the loop of `iterate_callback` when a fresh frame `nb`
waits at the head of the outbound queue: the frame is written, marked done,
and the loop goes on with the next one, whatever the write returned. -/
theorem iterate_loop_step (write : Nat → List Char → Int) (fuel : Nat) (c : conn_t) (k : Nat)
    (tr : List WsEvent) (nb : nbuf_t) (hstop : c.stop_data = false)
    (hh : c.s2c.head < c.s2c.frames.length) (hget : c.s2c.frames[c.s2c.head]? = some nb)
    (hnb : nb.done = false ∧ nb.len ≠ 0) :
    ∃ extra, ws_writes extra = [] ∧
      iterate_loop write (fuel + 1) c k tr =
        iterate_loop write fuel
          { c with s2c := { frames := c.s2c.frames.set c.s2c.head { nb with done := true },
                            head := c.s2c.head + 1 } } (k + 1)
          (tr ++ WsEvent.mg_websocket_write (mem_read nb.buf nb.len)
                  (write k (mem_read nb.buf nb.len)) :: extra) := by
  refine ⟨if write k (mem_read nb.buf nb.len) ≤ 0 then
      [WsEvent.printf ("$$$$$$$$ socket write ret ".toList ++
        fmt_d (write k (mem_read nb.buf nb.len)) ++ "\n".toList)] else [], ?_, ?_⟩
  · split <;> rfl
  · rw [iterate_loop]
    simp only [hstop, nbuf_dequeue, if_pos hh, hget, if_pos hnb]
    simp

/-- The loop of `iterate_callback` on a connection that is not flagged
`stop_data` and whose waiting outbound frames are fresh: it ends with
`MG_TRUE`, has written the waiting frames in order, has dequeued all of them
and has marked each one done, whatever the writes returned. -/
theorem iterate_loop_drains (write : Nat → List Char → Int) :
    ∀ (fuel : Nat) (c : conn_t) (k : Nat) (tr : List WsEvent),
      c.stop_data = false →
      (∀ nb ∈ nbuf_queued c.s2c, nb.done = false ∧ nb.len ≠ 0) →
      (nbuf_queued c.s2c).length < fuel →
      (iterate_loop write fuel c k tr).rtn = .ok mg_result.MG_TRUE ∧
      ws_writes (iterate_loop write fuel c k tr).trace =
        ws_writes tr ++ (nbuf_queued c.s2c).map (fun nb => mem_read nb.buf nb.len) ∧
      ∃ c1, (iterate_loop write fuel c k tr).conn = some c1 ∧
        c1.stop_data = false ∧ c1.c2s = c.c2s ∧
        c1.s2c.head = c.s2c.head + (nbuf_queued c.s2c).length ∧
        c1.s2c.frames = c.s2c.frames.take c.s2c.head ++
          (nbuf_queued c.s2c).map (fun nb => { nb with done := true }) := by
  intro fuel
  induction fuel with
  | zero => intro c k tr _ _ hlen; omega
  | succ fuel ih =>
    intro c k tr hstop hok hlen
    by_cases hh : c.s2c.head < c.s2c.frames.length
    · have hq : nbuf_queued c.s2c =
          c.s2c.frames[c.s2c.head] :: c.s2c.frames.drop (c.s2c.head + 1) := by
        unfold nbuf_queued
        exact List.drop_eq_getElem_cons hh
      have hget : c.s2c.frames[c.s2c.head]? = some (c.s2c.frames[c.s2c.head]) :=
        List.getElem?_eq_getElem hh
      generalize c.s2c.frames[c.s2c.head] = nb at hq hget
      have hnb := hok nb (by rw [hq]; exact List.mem_cons_self _ _)
      obtain ⟨extra, hex, hstep⟩ := iterate_loop_step write fuel c k tr nb hstop hh hget hnb
      have hq1 : nbuf_queued
          { frames := c.s2c.frames.set c.s2c.head { nb with done := true },
            head := c.s2c.head + 1 } = c.s2c.frames.drop (c.s2c.head + 1) := by
        unfold nbuf_queued
        exact drop_succ_set _ _ _
      rw [hstep]
      have hrec := ih
        { c with s2c := { frames := c.s2c.frames.set c.s2c.head { nb with done := true },
                          head := c.s2c.head + 1 } } (k + 1)
        (tr ++ WsEvent.mg_websocket_write (mem_read nb.buf nb.len)
                (write k (mem_read nb.buf nb.len)) :: extra)
        hstop
        (by
          intro x hmem
          rw [hq1] at hmem
          exact hok x (by rw [hq]; exact List.mem_cons_of_mem _ hmem))
        (by
          rw [hq1]
          rw [hq, List.length_cons] at hlen
          omega)
      obtain ⟨h1, h2, c1, h3, h4, h5, h6, h7⟩ := hrec
      refine ⟨h1, ?_, c1, h3, h4, h5, ?_, ?_⟩
      · rw [h2, hq1, hq, ws_writes_append]
        simp [ws_writes, hex]
      · rw [h6, hq1, hq, List.length_cons]
        show c.s2c.head + 1 + _ = _
        omega
      · rw [h7, hq1, hq]
        show List.take (c.s2c.head + 1) (c.s2c.frames.set c.s2c.head _) ++ _ = _
        rw [take_succ_set _ _ _ hh]
        simp
    · have hq : nbuf_queued c.s2c = [] := by
        unfold nbuf_queued
        exact List.drop_eq_nil_of_le (by omega)
      have hstep : iterate_loop write (fuel + 1) c k tr =
          { rtn := .ok mg_result.MG_TRUE, trace := tr, conn := some c } := by
        rw [iterate_loop]
        simp [hstop, nbuf_dequeue, hh]
        rw [← hstop]
      rw [hstep, hq]
      refine ⟨rfl, by simp, c, rfl, hstop, rfl, by simp, ?_⟩
      simp only [List.map_nil, List.append_nil]
      exact (List.take_of_length_le (by omega)).symm

/-- The loop fuel of `iterate_loop` is enough whenever it exceeds the number of
waiting frames: the loop never ends for lack of fuel. -/
theorem iterate_loop_fuel (write : Nat → List Char → Int) :
    ∀ (fuel : Nat) (c : conn_t) (k : Nat) (tr : List WsEvent),
      c.s2c.frames.length - c.s2c.head < fuel →
      (iterate_loop write fuel c k tr).rtn ≠ .error Fault.fuel := by
  intro fuel
  induction fuel with
  | zero => intro c k tr h; omega
  | succ n ih =>
    intro c k tr h
    rw [iterate_loop]
    cases hs : c.stop_data with
    | true => simp
    | false =>
      by_cases hh : c.s2c.head < c.s2c.frames.length
      · simp only [nbuf_dequeue, if_pos hh, List.getElem?_eq_getElem hh]
        by_cases hc : (c.s2c.frames[c.s2c.head]).done = false ∧
            (c.s2c.frames[c.s2c.head]).len ≠ 0
        · simp only [Bool.false_eq_true, if_false, if_pos hc]
          apply ih
          simp only [List.length_set]
          omega
        · simp only [Bool.false_eq_true, if_false, if_neg hc]
          simp
      · simp [nbuf_dequeue, hh]

/-- For every connection, transport and event `iterate_callback` ends with a
return value or a failed assertion of the source, never for lack of fuel. -/
theorem iterate_callback_never_out_of_fuel (write : Nat → List Char → Int)
    (c : Option conn_t) (mc : mg_connection) (ev : mg_event) :
    (iterate_callback write c mc ev).rtn ≠ .error Fault.fuel := by
  unfold iterate_callback
  by_cases h : ev = mg_event.MG_POLL ∧ mc.is_websocket = true
  · rw [if_pos h]
    cases c with
    | none => simp
    | some c => exact iterate_loop_fuel write _ c 0 [] (by omega)
  · rw [if_neg h]
    simp

/-- C12 (amended): on a websocket connection that is not flagged `stop_data`
and whose waiting outbound frames f1..fn are fresh (not done, of non-zero
length: what the assertion of line 707 demands of every frame it dequeues), one
call of `iterate_callback` with `MG_POLL` returns `MG_TRUE`, has handed
f1..fn to `mg_websocket_write` once each in FIFO order, has dequeued all n
frames and has marked each one done, whatever values the writes returned. -/
theorem iterate_callback_drains_queue (write : Nat → List Char → Int) (c : conn_t)
    (mc : mg_connection) (hws : mc.is_websocket = true) (hstop : c.stop_data = false)
    (hok : ∀ nb ∈ nbuf_queued c.s2c, nb.done = false ∧ nb.len ≠ 0) :
    (iterate_callback write (some c) mc mg_event.MG_POLL).rtn = .ok mg_result.MG_TRUE ∧
    ws_writes (iterate_callback write (some c) mc mg_event.MG_POLL).trace =
      (nbuf_queued c.s2c).map (fun nb => mem_read nb.buf nb.len) ∧
    ∃ c1, (iterate_callback write (some c) mc mg_event.MG_POLL).conn = some c1 ∧
      c1.stop_data = false ∧ c1.c2s = c.c2s ∧
      c1.s2c.head = c.s2c.head + (nbuf_queued c.s2c).length ∧
      nbuf_queued c1.s2c = [] ∧
      c1.s2c.frames = c.s2c.frames.take c.s2c.head ++
        (nbuf_queued c.s2c).map (fun nb => { nb with done := true }) := by
  have hfuel : (nbuf_queued c.s2c).length < c.s2c.frames.length - c.s2c.head + 1 := by
    unfold nbuf_queued
    rw [List.length_drop]
    omega
  have hcb : iterate_callback write (some c) mc mg_event.MG_POLL =
      iterate_loop write (c.s2c.frames.length - c.s2c.head + 1) c 0 [] := by
    simp [iterate_callback, hws]
  obtain ⟨h1, h2, c1, h3, h4, h5, h6, h7⟩ :=
    iterate_loop_drains write _ c 0 [] hstop hok hfuel
  rw [hcb]
  refine ⟨h1, by simpa [ws_writes] using h2, c1, h3, h4, h5, h6, ?_, h7⟩
  unfold nbuf_queued
  apply List.drop_eq_nil_of_le
  rw [h7, h6]
  unfold nbuf_queued
  simp [List.length_take, List.length_drop]

/-- C12, the amended statement at a connection with the three outbound frames
`AUD1`, `AUD2`, `AUD3` and a transport whose second write fails. -/
theorem iterate_callback_drains_queue_witness :
    (ws_frame []).is_websocket = true ∧ conn_three.stop_data = false ∧
    (∀ nb ∈ nbuf_queued conn_three.s2c, nb.done = false ∧ nb.len ≠ 0) ∧
    ((iterate_callback write_fails_once (some conn_three) (ws_frame [])
        mg_event.MG_POLL).rtn = .ok mg_result.MG_TRUE ∧
     ws_writes (iterate_callback write_fails_once (some conn_three) (ws_frame [])
        mg_event.MG_POLL).trace =
       (nbuf_queued conn_three.s2c).map (fun nb => mem_read nb.buf nb.len) ∧
     ∃ c1, (iterate_callback write_fails_once (some conn_three) (ws_frame [])
        mg_event.MG_POLL).conn = some c1 ∧
       c1.stop_data = false ∧ c1.c2s = conn_three.c2s ∧
       c1.s2c.head = conn_three.s2c.head + (nbuf_queued conn_three.s2c).length ∧
       nbuf_queued c1.s2c = [] ∧
       c1.s2c.frames = conn_three.s2c.frames.take conn_three.s2c.head ++
         (nbuf_queued conn_three.s2c).map (fun nb => { nb with done := true })) :=
  ⟨by decide, by decide, by decide,
   iterate_callback_drains_queue write_fails_once conn_three (ws_frame [])
     (by decide) (by decide) (by decide)⟩

/-- C12 as stated fails: the outbound queue of `conn_empty_frame` holds one
frame, enqueued by `app_to_web` with length 0; `iterate_callback` dequeues
it and fails the assertion of line 707 instead of writing it and returning
`MG_TRUE`. -/
theorem iterate_callback_asserts_on_empty_frame :
    conn_empty_frame = app_to_web conn_new "AUD".toList 0 ∧
    conn_empty_frame.stop_data = false ∧
    (nbuf_queued conn_empty_frame.s2c).length = 1 ∧
    (iterate_callback write_fails_once (some conn_empty_frame) (ws_frame [])
      mg_event.MG_POLL).rtn = .error (Fault.assertion 707) ∧
    ws_writes (iterate_callback write_fails_once (some conn_empty_frame) (ws_frame [])
      mg_event.MG_POLL).trace = [] := by
  decide

/-- The example of a failed write: with the frames `AUD1`, `AUD2`, `AUD3`
waiting and the second write returning -1, all three are written in order, the
failure is logged, and the call returns `MG_TRUE`. -/
theorem iterate_callback_failed_write_example :
    (iterate_callback write_fails_once (some conn_three) (ws_frame [])
      mg_event.MG_POLL).trace =
      [WsEvent.mg_websocket_write "AUD1".toList 4,
       WsEvent.mg_websocket_write "AUD2".toList (-1),
       WsEvent.printf "$$$$$$$$ socket write ret -1\n".toList,
       WsEvent.mg_websocket_write "AUD3".toList 4] ∧
    (iterate_callback write_fails_once (some conn_three) (ws_frame [])
      mg_event.MG_POLL).rtn = .ok mg_result.MG_TRUE := by
  decide

/-! ### The assertions of the substitution loop (C13) -/

/-- One iteration of the substitution loop keeps `np - html_buf` equal to
`nl`. -/
theorem subst_body_np_nl (iparams : List iparams_t) (mem : List Char) (size : Nat)
    (s s1 : SubstSt) (hs : s.np = s.nl) (h : subst_body iparams mem size s = .ok s1) :
    s1.np = s1.nl := by
  unfold subst_body at h
  simp only [] at h
  split_ifs at h
  · split at h
    · split at h
      · simp at h
      · simp only [Except.ok.injEq] at h
        rw [← h]
    · split at h
      · simp at h
      · split at h
        · simp at h
        · split at h
          · simp at h
          · simp only [Except.ok.injEq] at h
            rw [← h]
            simp only []
            omega
  · split at h
    · simp at h
    · simp only [Except.ok.injEq] at h
      rw [← h]
      simp only []
      omega

/-- The loop keeps `np - html_buf` equal to `nl`, and the only assertion it
can fail is the one of line 580. -/
theorem subst_loop_np_nl (iparams : List iparams_t) (mem : List Char) (size : Nat) :
    ∀ (fuel : Nat) (s : SubstSt), s.np = s.nl →
      (∀ s1, subst_loop iparams mem size fuel s = .ok s1 → s1.np = s1.nl) ∧
      (∀ f, subst_loop iparams mem size fuel s = .error f →
        f = Fault.fuel ∨ f = Fault.heap_overflow ∨ f = Fault.assertion 580) := by
  intro fuel
  induction fuel with
  | zero =>
    intro s hs
    simp only [subst_loop]
    split_ifs
    · exact ⟨by intro s1 h; simp at h, by intro f h; left; exact (Except.error.inj h).symm⟩
    · exact ⟨by intro s1 h; rw [← Except.ok.inj h]; exact hs, by intro f h; simp at h⟩
  | succ n ih =>
    intro s hs
    simp only [subst_loop]
    split_ifs with hcl
    · cases hb : subst_body iparams mem size s with
      | error e =>
        simp only []
        refine ⟨by intro s1 h; simp at h, ?_⟩
        intro f h
        right; left
        rw [← Except.error.inj h]
        exact subst_body_fault iparams mem size s e hb
      | ok s1 =>
        simp only []
        split_ifs
        · exact ih s1 (subst_body_np_nl iparams mem size s s1 hs hb)
        · exact ⟨by intro s2 h; simp at h,
            by intro f h; right; right; exact (Except.error.inj h).symm⟩
    · exact ⟨by intro s1 h; rw [← Except.ok.inj h]; exact hs, by intro f h; simp at h⟩

/-- The part of C13 that holds: for every table, content and size the final
assertion `(np - html_buf) == nl` of line 584 is never the one that fails;
the pass ends with a result, with a store outside `html_buf` or with the
failed loop assertion of line 580. -/
theorem substitute_final_assertion_holds (iparams : List iparams_t) (mem : List Char)
    (size : Nat) (f : Fault) (h : substitute iparams mem size = .error f) :
    f = Fault.heap_overflow ∨ f = Fault.assertion 580 := by
  have hfuel := substitute_never_out_of_fuel iparams mem size
  have hl := subst_loop_np_nl iparams mem size size
    (SubstSt.mk (kiwi_malloc size) size 0 0 0) rfl
  have h0 := h
  unfold substitute at h
  simp only [] at h
  cases hr : subst_loop iparams mem size size (SubstSt.mk (kiwi_malloc size) size 0 0 0) with
  | error e =>
    rw [hr] at h
    simp only [] at h
    have he : e = f := Except.error.inj h
    rcases hl.2 e hr with h1 | h1 | h1
    · exfalso
      apply hfuel
      rw [h0, ← he, h1]
    · left; rw [← he]; exact h1
    · right; rw [← he]; exact h1
  | ok s =>
    rw [hr] at h
    simp only [] at h
    rw [if_pos (hl.1 s hr)] at h
    simp at h

/-- C13, the code at the failing input: the content `%[X` (3 bytes, ending
inside an unterminated marker) with an empty parameter table.  The "put back"
branch stores the `]` of line 573 at offset 3 of the 3-byte `html_buf`, past
its end; when the allocation has room to spare (8 bytes here) the store lands
there, `nl` becomes 4 with `nsize` 3, and the loop assertion of line 580
fails.  The same happens to a lone `%` at the end of the content when the byte
after the content is `[`, and to `rate=%[MISSING` with the table
`SAMPLE = 42`. -/
theorem substitute_unterminated_marker_overflows :
    substitute [] "%[X".toList 3 = .error Fault.heap_overflow ∧
    (subst_body [] "%[X".toList 3
        { html_buf := kiwi_malloc 8, nsize := 3, np := 0, nl := 0, cl := 0 }).map
      (fun s => (mem_read s.html_buf 4, s.np, s.nl, s.nsize)) =
      .ok ("%[X]".toList, 4, 4, 3) ∧
    subst_loop [] "%[X".toList 3 3
        { html_buf := kiwi_malloc 8, nsize := 3, np := 0, nl := 0, cl := 0 } =
      .error (Fault.assertion 580) ∧
    substitute [] "%[".toList 1 = .error Fault.heap_overflow ∧
    substitute [{ id := "SAMPLE".toList, val := "42".toList }] "rate=%[MISSING".toList 14 =
      .error Fault.heap_overflow := by
  decide

/-! ### The bounds of the parameter table (C14) -/

/-- The bound that `index_params_cb` keeps: the entry count is at most
`N_IPARAMS` and every store so far went to a slot below `N_IPARAMS`. -/
theorem index_params_cb_in_table (cfg : CfgEnv) (st st1 : IparamsSt) (jt : jsmntok_t)
    (hn : st.n_iparams ≤ N_IPARAMS) (hs : ∀ i ∈ st.stores, i < N_IPARAMS)
    (h : index_params_cb cfg st jt = .ok st1) :
    st1.n_iparams ≤ N_IPARAMS ∧ ∀ i ∈ st1.stores, i < N_IPARAMS := by
  unfold index_params_cb at h
  split at h
  · rw [← Except.ok.inj h]; exact ⟨hn, hs⟩
  · split_ifs at h with h1 h2 h3
    · rw [← Except.ok.inj h]; exact ⟨hn, hs⟩
    · rw [← Except.ok.inj h]
      refine ⟨hn, ?_⟩
      intro i hi
      simp only [List.mem_append, List.mem_singleton] at hi
      rcases hi with hi | hi
      · exact hs i hi
      · rw [hi]; exact h2
    · rw [← Except.ok.inj h]
      refine ⟨h2, ?_⟩
      intro i hi
      simp only [List.mem_append, List.mem_singleton] at hi
      rcases hi with hi | hi
      · exact hs i hi
      · rw [hi]; exact h2

/-- The part of C14 that holds: whatever tokens `cfg_walk` delivers to
`index_params_cb`, when the walk ends without a failed `check` every store it
made went to a slot below `N_IPARAMS` and the entry count is at most
`N_IPARAMS`. -/
theorem cfg_walk_in_table (cfg : CfgEnv) :
    ∀ (toks : List jsmntok_t) (st st1 : IparamsSt),
      st.n_iparams ≤ N_IPARAMS → (∀ i ∈ st.stores, i < N_IPARAMS) →
      cfg_walk (index_params_cb cfg) toks st = .ok st1 →
      st1.n_iparams ≤ N_IPARAMS ∧ ∀ i ∈ st1.stores, i < N_IPARAMS := by
  intro toks
  induction toks with
  | nil =>
    intro st st1 hn hs h
    simp only [cfg_walk] at h
    rw [← Except.ok.inj h]; exact ⟨hn, hs⟩
  | cons jt rest ih =>
    intro st st1 hn hs h
    simp only [cfg_walk] at h
    cases hc : index_params_cb cfg st jt with
    | error e => rw [hc] at h; simp at h
    | ok st2 =>
      rw [hc] at h
      simp only [] at h
      obtain ⟨hn2, hs2⟩ := index_params_cb_in_table cfg st st2 jt hn hs hc
      exact ih st2 st1 hn2 hs2 h

/-- What `reload_index_params` does after the walk: with `n` entries counted by
the walk, it stores `EXT_LIST_JS` into slot `n` and `OWNER_INFO` into slot
`n + 1` and leaves the count at `n + 2`, without comparing `n` with
`N_IPARAMS`. -/
theorem reload_index_params_appends (cfg : CfgEnv) (st r : IparamsSt)
    (h : reload_index_params cfg st = .ok r) :
    ∃ st1, cfg_walk (index_params_cb cfg) cfg.index_html_params
        { st with n_iparams := 0, stores := [] } = .ok st1 ∧
      st1.n_iparams ≤ N_IPARAMS ∧ (∀ i ∈ st1.stores, i < N_IPARAMS) ∧
      r.n_iparams = st1.n_iparams + 2 ∧
      r.stores = st1.stores ++ [st1.n_iparams, st1.n_iparams + 1] := by
  unfold reload_index_params at h
  simp only [] at h
  cases hw : cfg_walk (index_params_cb cfg) cfg.index_html_params
      { st with n_iparams := 0, stores := [] } with
  | error e => rw [hw] at h; simp at h
  | ok st1 =>
    rw [hw] at h
    simp only [] at h
    obtain ⟨hn, hs⟩ := cfg_walk_in_table cfg cfg.index_html_params _ st1
      (Nat.zero_le _) (by intro i hi; simp at hi) hw
    refine ⟨st1, rfl, hn, hs, ?_, ?_⟩
    · rw [← Except.ok.inj h]; simp [iparams_add]
    · rw [← Except.ok.inj h]; simp [iparams_add]

/-- The walk over `k` pairs `"K":"V"` starting with `n` entries, `n + k` at
most `N_IPARAMS`: it ends without a failed `check` and has counted `k` more
entries. -/
theorem cfg_walk_pairs (p : Nat) :
    ∀ (k : Nat) (st : IparamsSt), st.n_iparams + k ≤ N_IPARAMS →
      ∃ st1, cfg_walk (index_params_cb (cfg_pairs p))
          (List.replicate k
            [({ type := jsmntype_t.JSMN_STRING, start := 0, end_ := 1, size := 1 } : jsmntok_t),
             { type := jsmntype_t.JSMN_STRING, start := 1, end_ := 2, size := 0 }]).flatten st =
          .ok st1 ∧ st1.n_iparams = st.n_iparams + k := by
  intro k
  induction k with
  | zero => intro st _; exact ⟨st, by simp [cfg_walk], rfl⟩
  | succ k ih =>
    intro st hk
    have hlt : st.n_iparams < N_IPARAMS := by omega
    have hlt2 : st.n_iparams < 256 := hlt
    obtain ⟨st1, h1, h2⟩ := ih
      { iparams := slot_store
          (slot_store st.iparams st.n_iparams (fun ip => { ip with id := ['K'] }))
          st.n_iparams (fun ip => { ip with val := ['V'] })
        n_iparams := st.n_iparams + 1
        stores := st.stores ++ [st.n_iparams] ++ [st.n_iparams] } (by simp only []; omega)
    refine ⟨st1, ?_, by rw [h2]; simp only []; omega⟩
    rw [← h1]
    simp [List.replicate_succ, cfg_walk, index_params_cb, cfg_pairs, hlt, hlt2]

/-- C14, the code at the failing input: a configuration whose object
`index_html_params` holds 255 string pairs.  The walk fills slots 0 to 254
and counts 255 entries; `EXT_LIST_JS` goes to slot 255, and `iparams_add`
stores `OWNER_INFO` into slot 256, past the last slot of
`iparams[N_IPARAMS]`, leaving `n_iparams` at 257.  With 256 pairs both
appended entries land past the array (slots 256 and 257) and `n_iparams`
ends at 258. -/
theorem reload_index_params_stores_past_table :
    (reload_index_params (cfg_pairs 255) iparams_init).map
        (fun st => (st.n_iparams, st.stores.drop (st.stores.length - 2))) =
      .ok (257, [255, 256]) ∧
    (reload_index_params (cfg_pairs 256) iparams_init).map
        (fun st => (st.n_iparams, st.stores.drop (st.stores.length - 2))) =
      .ok (258, [256, 257]) ∧
    N_IPARAMS = 256 := by
  have key : ∀ k, k ≤ N_IPARAMS →
      (reload_index_params (cfg_pairs k) iparams_init).map
        (fun st => (st.n_iparams, st.stores.drop (st.stores.length - 2))) =
      .ok (k + 2, [k, k + 1]) := by
    intro k hk
    obtain ⟨st1, h1, h2⟩ := cfg_walk_pairs k k
      { iparams_init with n_iparams := 0, stores := [] } (by simpa using hk)
    have hr : reload_index_params (cfg_pairs k) iparams_init =
        .ok (iparams_add
          { iparams := slot_store st1.iparams st1.n_iparams
              (fun _ => { id := "EXT_LIST_JS".toList, val := (cfg_pairs k).extint_list_js })
            n_iparams := st1.n_iparams + 1
            stores := st1.stores ++ [st1.n_iparams] }
          "OWNER_INFO".toList (cfg_pairs k).owner_info) := by
      unfold reload_index_params
      simp only []
      have hc : (cfg_pairs k).index_html_params = (List.replicate k
            [({ type := jsmntype_t.JSMN_STRING, start := 0, end_ := 1, size := 1 } : jsmntok_t),
             { type := jsmntype_t.JSMN_STRING, start := 1, end_ := 2, size := 0 }]).flatten := rfl
      rw [hc, h1]
    rw [hr]
    have h3 : st1.n_iparams = k := by rw [h2]; simp
    simp [Except.map, iparams_add, h3]
  exact ⟨key 255 (by decide), key 256 (by decide), rfl⟩

end Web
